import Mathlib

/-!
DNS wire-format decoder (class `DNSParser`): shallow embedding and verified properties.

The C++ sources `src/src/flows/dns_parser.cpp` and `src/include/tools/types.h` are
embedded as Lean functions.

* A `std::string` (both the input buffer and every decoded name / rdata) is a
  `List UInt8`: a finite sequence of bytes.
* `size_t`, `uint16_t` and `uint32_t` values are natural numbers.  Every 16-bit
  value the decoder forms is `256 * hi + lo` of two bytes (or `((len & 0x3F) << 8) | lo`),
  every 32-bit one is built from four bytes, so none of them can wrap; `size_t`
  offsets are bounded by `data.size() + 65535 + 10` and cannot wrap either.
* By-reference parameters (`offset`, `header`, `rr`, `message`) are passed in and
  returned explicitly.
* `parseDomainName` is a `while` loop that calls itself on a compression pointer and
  may fail to terminate in C++.  The embedding carries a fuel counter: each loop
  iteration and each recursive call spends one unit, and `none` means the fuel ran
  out.
-/

namespace DNSParser

/-! ## Data model (`types.h`) -/

/-- DNS header (`struct DNSHeader`). -/
structure DNSHeader where
  transaction_id : Nat
  flags : Nat
  questions : Nat
  answer_rrs : Nat
  authority_rrs : Nat
  additional_rrs : Nat
deriving DecidableEq, Repr

/-- DNS question (`struct DNSQuestion`). -/
structure DNSQuestion where
  domain_name : List UInt8
  type : Nat
  class_ : Nat
deriving DecidableEq, Repr

/-- DNS resource record (`struct DNSResourceRecord`). -/
structure DNSResourceRecord where
  name : List UInt8
  type : Nat
  class_ : Nat
  ttl : Nat
  rdlength : Nat
  rdata : List UInt8
deriving DecidableEq, Repr

/-- DNS message (`struct Message`). -/
structure Message where
  header : DNSHeader
  questions : List DNSQuestion
  answers : List DNSResourceRecord
  authorities : List DNSResourceRecord
  additionals : List DNSResourceRecord
deriving DecidableEq, Repr

/-! ## Byte access -/

/-- Value of `static_cast<uint8_t>(data[i])`, as a natural number below 256.
An index outside the buffer (never used by the decoder, see the read traces
below) yields 0. -/
def byteAt (data : List UInt8) (i : Nat) : Nat :=
  (data.getD i 0).toNat

/-- Value of `ntohs(*reinterpret_cast<const uint16_t*>(ptr + i))`: the two bytes
at `i` and `i + 1` in network (big-endian) order. -/
def ntohs16 (data : List UInt8) (i : Nat) : Nat :=
  256 * byteAt data i + byteAt data (i + 1)

/-- Value of `ntohl(*reinterpret_cast<const uint32_t*>(ptr + i))`: the four bytes
at `i .. i + 3` in network (big-endian) order. -/
def ntohl32 (data : List UInt8) (i : Nat) : Nat :=
  16777216 * byteAt data i + 65536 * byteAt data (i + 1)
    + 256 * byteAt data (i + 2) + byteAt data (i + 3)

/-- Value of `data.substr(pos, n)` for `pos <= data.size()`. -/
def substr (data : List UInt8) (pos n : Nat) : List UInt8 :=
  (data.drop pos).take n

/-- The byte of the character `'.'`. -/
def dot : UInt8 := 46

/-! ## The decoder (`dns_parser.cpp`) -/

/-- Embedding of `DNSParser::parseDomainName`, generalised over the local `domain`
(initially empty) so that the `while` loop is a recursion.  Returns the name and
the final value of `offset`. -/
def parseDomainNameLoop : Nat → List UInt8 → Nat → List UInt8 → Option (List UInt8 × Nat)
  | 0, _, _, _ => none
  | fuel + 1, data, offset, domain =>
    if offset < data.length then
      let len := byteAt data offset
      let offset := offset + 1
      if len &&& 0xC0 = 0xC0 then
        if offset ≥ data.length then
          some (domain, offset)
        else
          let pointer := ((len &&& 0x3F) <<< 8) ||| byteAt data offset
          let offset := offset + 1
          let saved_offset := offset
          match parseDomainNameLoop fuel data pointer [] with
          | none => none
          | some (sub, _) => some (domain ++ sub, saved_offset)
      else if len = 0 then
        some (domain, offset)
      else if offset + len > data.length then
        some (domain, offset)
      else
        let domain := if domain ≠ [] then domain ++ [dot] else domain
        parseDomainNameLoop fuel data (offset + len) (domain ++ substr data offset len)
    else
      some (domain, offset)

/-- Embedding of `DNSParser::parseDomainName(data, offset)`. -/
def parseDomainName (fuel : Nat) (data : List UInt8) (offset : Nat) :
    Option (List UInt8 × Nat) :=
  parseDomainNameLoop fuel data offset []

/-- Embedding of `DNSParser::parseHeader`: the returned boolean, the final offset
and the header. -/
def parseHeader (data : List UInt8) (offset : Nat) (header : DNSHeader) :
    Bool × Nat × DNSHeader :=
  if data.length < 12 then
    (false, offset, header)
  else
    let header := { header with transaction_id := ntohs16 data offset }
    let offset := offset + 2
    let header := { header with flags := ntohs16 data offset }
    let offset := offset + 2
    let header := { header with questions := ntohs16 data offset }
    let offset := offset + 2
    let header := { header with answer_rrs := ntohs16 data offset }
    let offset := offset + 2
    let header := { header with authority_rrs := ntohs16 data offset }
    let offset := offset + 2
    let header := { header with additional_rrs := ntohs16 data offset }
    let offset := offset + 2
    (true, offset, header)

/-- Embedding of `DNSParser::parseResourceRecord`: the returned boolean, the
final offset and the record (`rr` is written to even when `false` is returned). -/
def parseResourceRecord (fuel : Nat) (data : List UInt8) (offset : Nat)
    (rr : DNSResourceRecord) : Option (Bool × Nat × DNSResourceRecord) :=
  match parseDomainName fuel data offset with
  | none => none
  | some (name, offset) =>
    let rr := { rr with name := name }
    if offset + 10 > data.length then
      some (false, offset, rr)
    else
      let rr := { rr with type := ntohs16 data offset }
      let offset := offset + 2
      let rr := { rr with class_ := ntohs16 data offset }
      let offset := offset + 2
      let rr := { rr with ttl := ntohl32 data offset }
      let offset := offset + 4
      let rr := { rr with rdlength := ntohs16 data offset }
      let offset := offset + 2
      if offset + rr.rdlength > data.length then
        some (false, offset, rr)
      else
        let rr := { rr with rdata := substr data offset rr.rdlength }
        let offset := offset + rr.rdlength
        some (true, offset, rr)

/-- A default-constructed `DNSQuestion question;` (its integer members are
indeterminate in C++ and are always assigned before use). -/
def DNSQuestion.fresh : DNSQuestion := ⟨[], 0, 0⟩

/-- A default-constructed `DNSResourceRecord rr;` (its integer members are
indeterminate in C++ and are always assigned before a record is stored). -/
def DNSResourceRecord.fresh : DNSResourceRecord := ⟨[], 0, 0, 0, 0, []⟩

/-- The question loop of `parseQuery` / `parseResponse`
(`for (uint16_t i = 0; i < message.header.questions; ++i)`), with `n` the number
of iterations still to run and `qs` the vector `message.questions`. -/
def parseQuestions (fuel : Nat) (data : List UInt8) :
    Nat → Nat → List DNSQuestion → Option (Bool × Nat × List DNSQuestion)
  | 0, offset, qs => some (true, offset, qs)
  | n + 1, offset, qs =>
    let question := DNSQuestion.fresh
    match parseDomainName fuel data offset with
    | none => none
    | some (name, offset) =>
      let question := { question with domain_name := name }
      if offset + 4 > data.length then
        some (false, offset, qs)
      else
        let question := { question with type := ntohs16 data offset }
        let offset := offset + 2
        let question := { question with class_ := ntohs16 data offset }
        let offset := offset + 2
        parseQuestions fuel data n offset (qs ++ [question])

/-- One record loop of `parseResponse`
(`for (uint16_t i = 0; i < message.header.answer_rrs; ++i)` and its two
siblings), with `n` the number of iterations still to run and `rs` the vector
being appended to. -/
def parseRecords (fuel : Nat) (data : List UInt8) :
    Nat → Nat → List DNSResourceRecord → Option (Bool × Nat × List DNSResourceRecord)
  | 0, offset, rs => some (true, offset, rs)
  | n + 1, offset, rs =>
    match parseResourceRecord fuel data offset DNSResourceRecord.fresh with
    | none => none
    | some (false, offset, _) => some (false, offset, rs)
    | some (true, offset, rr) => parseRecords fuel data n offset (rs ++ [rr])

/-- Embedding of `DNSParser::parseQuery`: the returned boolean and the message
as the call leaves it. -/
def parseQuery (fuel : Nat) (data : List UInt8) (message : Message) :
    Option (Bool × Message) :=
  match parseHeader data 0 message.header with
  | (false, _, header) => some (false, { message with header := header })
  | (true, offset, header) =>
    let message := { message with header := header }
    match parseQuestions fuel data message.header.questions offset message.questions with
    | none => none
    | some (ok, _, qs) => some (ok, { message with questions := qs })

/-- Embedding of `DNSParser::parseResponse`: the returned boolean and the
message as the call leaves it. -/
def parseResponse (fuel : Nat) (data : List UInt8) (message : Message) :
    Option (Bool × Message) :=
  match parseHeader data 0 message.header with
  | (false, _, header) => some (false, { message with header := header })
  | (true, offset, header) =>
    let message := { message with header := header }
    match parseQuestions fuel data message.header.questions offset message.questions with
    | none => none
    | some (false, _, qs) => some (false, { message with questions := qs })
    | some (true, offset, qs) =>
      let message := { message with questions := qs }
      match parseRecords fuel data message.header.answer_rrs offset message.answers with
      | none => none
      | some (false, _, rs) => some (false, { message with answers := rs })
      | some (true, offset, rs) =>
        let message := { message with answers := rs }
        match parseRecords fuel data message.header.authority_rrs offset
            message.authorities with
        | none => none
        | some (false, _, rs) => some (false, { message with authorities := rs })
        | some (true, offset, rs) =>
          let message := { message with authorities := rs }
          match parseRecords fuel data message.header.additional_rrs offset
              message.additionals with
          | none => none
          | some (ok, _, rs) => some (ok, { message with additionals := rs })

/-- A default-constructed `Message` with empty sections. -/
def Message.empty : Message := ⟨⟨0, 0, 0, 0, 0, 0⟩, [], [], [], []⟩

/-! ## The decoder with its reads recorded

The functions below repeat the decoder line by line and additionally return the
list of buffer indices read: `data[i]` reads `i`, `ntohs` at `i` reads `i` and
`i + 1`, `ntohl` at `i` reads `i .. i + 3`, `data.substr(pos, n)` reads
`pos .. pos + n - 1`.  The reads made before the fuel runs out are kept, so the
trace also covers runs that never return. -/

/-- Decoder `parseDomainName` (loop form) with its reads recorded. -/
def parseDomainNameLoopT :
    Nat → List UInt8 → Nat → List UInt8 → Option (List UInt8 × Nat) × List Nat
  | 0, _, _, _ => (none, [])
  | fuel + 1, data, offset, domain =>
    if offset < data.length then
      let len := byteAt data offset
      let reads := [offset]
      let offset := offset + 1
      if len &&& 0xC0 = 0xC0 then
        if offset ≥ data.length then
          (some (domain, offset), reads)
        else
          let pointer := ((len &&& 0x3F) <<< 8) ||| byteAt data offset
          let reads := reads ++ [offset]
          let offset := offset + 1
          let saved_offset := offset
          match parseDomainNameLoopT fuel data pointer [] with
          | (none, rs) => (none, reads ++ rs)
          | (some (sub, _), rs) => (some (domain ++ sub, saved_offset), reads ++ rs)
      else if len = 0 then
        (some (domain, offset), reads)
      else if offset + len > data.length then
        (some (domain, offset), reads)
      else
        let domain := if domain ≠ [] then domain ++ [dot] else domain
        let reads := reads ++ List.range' offset len
        match parseDomainNameLoopT fuel data (offset + len)
            (domain ++ substr data offset len) with
        | (r, rs) => (r, reads ++ rs)
    else
      (some (domain, offset), [])

/-- Decoder `parseDomainName` with its reads recorded. -/
def parseDomainNameT (fuel : Nat) (data : List UInt8) (offset : Nat) :
    Option (List UInt8 × Nat) × List Nat :=
  parseDomainNameLoopT fuel data offset []

/-- Decoder `parseHeader` with its reads recorded. -/
def parseHeaderT (data : List UInt8) (offset : Nat) (header : DNSHeader) :
    (Bool × Nat × DNSHeader) × List Nat :=
  if data.length < 12 then
    ((false, offset, header), [])
  else
    let header := { header with transaction_id := ntohs16 data offset }
    let reads := List.range' offset 2
    let offset := offset + 2
    let header := { header with flags := ntohs16 data offset }
    let reads := reads ++ List.range' offset 2
    let offset := offset + 2
    let header := { header with questions := ntohs16 data offset }
    let reads := reads ++ List.range' offset 2
    let offset := offset + 2
    let header := { header with answer_rrs := ntohs16 data offset }
    let reads := reads ++ List.range' offset 2
    let offset := offset + 2
    let header := { header with authority_rrs := ntohs16 data offset }
    let reads := reads ++ List.range' offset 2
    let offset := offset + 2
    let header := { header with additional_rrs := ntohs16 data offset }
    let reads := reads ++ List.range' offset 2
    let offset := offset + 2
    ((true, offset, header), reads)

/-- Decoder `parseResourceRecord` with its reads recorded. -/
def parseResourceRecordT (fuel : Nat) (data : List UInt8) (offset : Nat)
    (rr : DNSResourceRecord) : Option (Bool × Nat × DNSResourceRecord) × List Nat :=
  match parseDomainNameT fuel data offset with
  | (none, reads) => (none, reads)
  | (some (name, offset), reads) =>
    let rr := { rr with name := name }
    if offset + 10 > data.length then
      (some (false, offset, rr), reads)
    else
      let rr := { rr with type := ntohs16 data offset }
      let reads := reads ++ List.range' offset 2
      let offset := offset + 2
      let rr := { rr with class_ := ntohs16 data offset }
      let reads := reads ++ List.range' offset 2
      let offset := offset + 2
      let rr := { rr with ttl := ntohl32 data offset }
      let reads := reads ++ List.range' offset 4
      let offset := offset + 4
      let rr := { rr with rdlength := ntohs16 data offset }
      let reads := reads ++ List.range' offset 2
      let offset := offset + 2
      if offset + rr.rdlength > data.length then
        (some (false, offset, rr), reads)
      else
        let rr := { rr with rdata := substr data offset rr.rdlength }
        let reads := reads ++ List.range' offset rr.rdlength
        let offset := offset + rr.rdlength
        (some (true, offset, rr), reads)

/-- The question loop with its reads. -/
def parseQuestionsT (fuel : Nat) (data : List UInt8) :
    Nat → Nat → List DNSQuestion → Option (Bool × Nat × List DNSQuestion) × List Nat
  | 0, offset, qs => (some (true, offset, qs), [])
  | n + 1, offset, qs =>
    let question := DNSQuestion.fresh
    match parseDomainNameT fuel data offset with
    | (none, reads) => (none, reads)
    | (some (name, offset), reads) =>
      let question := { question with domain_name := name }
      if offset + 4 > data.length then
        (some (false, offset, qs), reads)
      else
        let question := { question with type := ntohs16 data offset }
        let reads := reads ++ List.range' offset 2
        let offset := offset + 2
        let question := { question with class_ := ntohs16 data offset }
        let reads := reads ++ List.range' offset 2
        let offset := offset + 2
        match parseQuestionsT fuel data n offset (qs ++ [question]) with
        | (r, rs) => (r, reads ++ rs)

/-- A record loop with its reads. -/
def parseRecordsT (fuel : Nat) (data : List UInt8) :
    Nat → Nat → List DNSResourceRecord →
      Option (Bool × Nat × List DNSResourceRecord) × List Nat
  | 0, offset, rs => (some (true, offset, rs), [])
  | n + 1, offset, rs =>
    match parseResourceRecordT fuel data offset DNSResourceRecord.fresh with
    | (none, reads) => (none, reads)
    | (some (false, offset, _), reads) => (some (false, offset, rs), reads)
    | (some (true, offset, rr), reads) =>
      match parseRecordsT fuel data n offset (rs ++ [rr]) with
      | (r, more) => (r, reads ++ more)

/-- Decoder `parseQuery` with its reads recorded. -/
def parseQueryT (fuel : Nat) (data : List UInt8) (message : Message) :
    Option (Bool × Message) × List Nat :=
  match parseHeaderT data 0 message.header with
  | ((false, _, header), reads) => (some (false, { message with header := header }), reads)
  | ((true, offset, header), reads) =>
    let message := { message with header := header }
    match parseQuestionsT fuel data message.header.questions offset message.questions with
    | (none, rq) => (none, reads ++ rq)
    | (some (ok, _, qs), rq) => (some (ok, { message with questions := qs }), reads ++ rq)

/-- Decoder `parseResponse` with its reads recorded. -/
def parseResponseT (fuel : Nat) (data : List UInt8) (message : Message) :
    Option (Bool × Message) × List Nat :=
  match parseHeaderT data 0 message.header with
  | ((false, _, header), reads) => (some (false, { message with header := header }), reads)
  | ((true, offset, header), reads) =>
    let message := { message with header := header }
    match parseQuestionsT fuel data message.header.questions offset message.questions with
    | (none, rq) => (none, reads ++ rq)
    | (some (false, _, qs), rq) => (some (false, { message with questions := qs }), reads ++ rq)
    | (some (true, offset, qs), rq) =>
      let message := { message with questions := qs }
      let reads := reads ++ rq
      match parseRecordsT fuel data message.header.answer_rrs offset message.answers with
      | (none, ra) => (none, reads ++ ra)
      | (some (false, _, rs), ra) => (some (false, { message with answers := rs }), reads ++ ra)
      | (some (true, offset, rs), ra) =>
        let message := { message with answers := rs }
        let reads := reads ++ ra
        match parseRecordsT fuel data message.header.authority_rrs offset
            message.authorities with
        | (none, rn) => (none, reads ++ rn)
        | (some (false, _, rs), rn) =>
          (some (false, { message with authorities := rs }), reads ++ rn)
        | (some (true, offset, rs), rn) =>
          let message := { message with authorities := rs }
          let reads := reads ++ rn
          match parseRecordsT fuel data message.header.additional_rrs offset
              message.additionals with
          | (none, rx) => (none, reads ++ rx)
          | (some (ok, _, rs), rx) =>
            (some (ok, { message with additionals := rs }), reads ++ rx)

/-! ## Uncompressed wire encoding

The encoder below is not part of the C++ sources (the repository only decodes).
It writes down, from the wire format the specification describes, the byte
sequences that the round-trip properties quantify over. -/

/-- A name as a list of labels is encoded as, for each label, a length octet
followed by the label bytes, and then a 0 octet. -/
def encodeName : List (List UInt8) → List UInt8
  | [] => [0]
  | l :: ls => UInt8.ofNat l.length :: (l ++ encodeName ls)

/-- Every label is 1 to 63 bytes long. -/
def validLabels (labels : List (List UInt8)) : Prop :=
  ∀ l ∈ labels, 1 ≤ l.length ∧ l.length ≤ 63

instance (labels : List (List UInt8)) : Decidable (validLabels labels) :=
  inferInstanceAs (Decidable (∀ l ∈ labels, 1 ≤ l.length ∧ l.length ≤ 63))

/-- The value of the local `domain` of `parseDomainName` after the labels
`labels` have been appended to it one by one by the label branch of the loop. -/
def appendLabels (domain : List UInt8) : List (List UInt8) → List UInt8
  | [] => domain
  | l :: ls => appendLabels ((if domain ≠ [] then domain ++ [dot] else domain) ++ l) ls

/-- A 16-bit value as two bytes, most significant first. -/
def encodeU16 (v : Nat) : List UInt8 :=
  [UInt8.ofNat (v / 256), UInt8.ofNat (v % 256)]

/-- A 32-bit value as four bytes, most significant first. -/
def encodeU32 (v : Nat) : List UInt8 :=
  [UInt8.ofNat (v / 16777216), UInt8.ofNat (v / 65536 % 256), UInt8.ofNat (v / 256 % 256),
    UInt8.ofNat (v % 256)]

/-- A question before encoding: its name as labels, type and class. -/
structure WireQuestion where
  labels : List (List UInt8)
  type : Nat
  class_ : Nat
deriving DecidableEq, Repr

/-- A resource record before encoding: its name as labels, type, class, TTL and
rdata. -/
structure WireRecord where
  labels : List (List UInt8)
  type : Nat
  class_ : Nat
  ttl : Nat
  rdata : List UInt8
deriving DecidableEq, Repr

/-- Labels of 1 to 63 bytes, 16-bit type and class. -/
def WireQuestion.valid (q : WireQuestion) : Prop :=
  validLabels q.labels ∧ q.type < 65536 ∧ q.class_ < 65536

/-- Labels of 1 to 63 bytes, 16-bit type and class, 32-bit TTL, rdata shorter
than 65536 bytes. -/
def WireRecord.valid (r : WireRecord) : Prop :=
  validLabels r.labels ∧ r.type < 65536 ∧ r.class_ < 65536 ∧ r.ttl < 4294967296 ∧
    r.rdata.length < 65536

instance (q : WireQuestion) : Decidable q.valid :=
  inferInstanceAs (Decidable (validLabels q.labels ∧ q.type < 65536 ∧ q.class_ < 65536))

instance (r : WireRecord) : Decidable r.valid :=
  inferInstanceAs (Decidable (validLabels r.labels ∧ r.type < 65536 ∧ r.class_ < 65536 ∧
    r.ttl < 4294967296 ∧ r.rdata.length < 65536))

/-- Question on the wire: length-prefixed labels + 0 + 2-byte type + 2-byte class. -/
def encodeQuestion (q : WireQuestion) : List UInt8 :=
  encodeName q.labels ++ encodeU16 q.type ++ encodeU16 q.class_

/-- Record on the wire: length-prefixed labels + 0 + type + class + 4-byte TTL +
2-byte rdlength + rdata. -/
def encodeRecord (r : WireRecord) : List UInt8 :=
  encodeName r.labels ++ encodeU16 r.type ++ encodeU16 r.class_ ++ encodeU32 r.ttl
    ++ encodeU16 r.rdata.length ++ r.rdata

/-- The 12-byte header: id, flags and the four counts, big-endian. -/
def encodeHeader (id flags qd an ns ar : Nat) : List UInt8 :=
  encodeU16 id ++ encodeU16 flags ++ encodeU16 qd ++ encodeU16 an ++ encodeU16 ns
    ++ encodeU16 ar

/-- A whole message on the wire: the header carrying the four list lengths, the
questions, then the answer, authority and additional records. -/
def encodeMessage (id flags : Nat) (qs : List WireQuestion)
    (an ns ar : List WireRecord) : List UInt8 :=
  encodeHeader id flags qs.length an.length ns.length ar.length
    ++ qs.flatMap encodeQuestion ++ an.flatMap encodeRecord ++ ns.flatMap encodeRecord
    ++ ar.flatMap encodeRecord

/-- The `DNSQuestion` a question is expected to decode to: its labels joined by
`'.'`. -/
def WireQuestion.decoded (q : WireQuestion) : DNSQuestion :=
  ⟨[dot].intercalate q.labels, q.type, q.class_⟩

/-- The `DNSResourceRecord` a record is expected to decode to: its labels joined
by `'.'`, and rdlength the length of its rdata. -/
def WireRecord.decoded (r : WireRecord) : DNSResourceRecord :=
  ⟨[dot].intercalate r.labels, r.type, r.class_, r.ttl, r.rdata.length, r.rdata⟩

/-! ## Concrete buffers -/

/-- The name `com` at offset 0, then at offset 5 the label `www` followed by
the compression pointer `C0 00` to offset 0. -/
def labelThenPointerBuf : List UInt8 :=
  [3, 0x63, 0x6F, 0x6D, 0, 3, 0x77, 0x77, 0x77, 0xC0, 0x00]

/-- A header announcing one question, whose name at offset 12 is the pointer
`C0 0C`, i.e. a pointer to offset 12 itself. -/
def selfPointerBuf : List UInt8 :=
  [0, 0, 0, 0, 0, 1, 0, 0, 0, 0, 0, 0, 0xC0, 0x0C]

/-- A header announcing one question, whose name at offset 12 is the pointer
`C0 0E` to offset 14, where the pointer `C0 0C` points back to offset 12. -/
def pointerCycleBuf : List UInt8 :=
  [0, 0, 0, 0, 0, 1, 0, 0, 0, 0, 0, 0, 0xC0, 0x0E, 0xC0, 0x0C]

/-- The response packet of the test `ParseFullResponsePacket`. -/
def responseTestBuf : List UInt8 :=
  [0xAA, 0xAA, 0x81, 0x80, 0, 1, 0, 1, 0, 0, 0, 0,
   3, 0x77, 0x77, 0x77, 7, 0x65, 0x78, 0x61, 0x6D, 0x70, 0x6C, 0x65, 3, 0x63, 0x6F, 0x6D, 0,
   0, 1, 0, 1,
   0xC0, 0x0C, 0, 1, 0, 1, 0, 0, 0, 0x3C, 0, 4, 0x5D, 0xB8, 0xD8, 0x22]

/-- The name `www.example.com` as bytes. -/
def wwwExampleCom : List UInt8 :=
  [0x77, 0x77, 0x77, 46, 0x65, 0x78, 0x61, 0x6D, 0x70, 0x6C, 0x65, 46, 0x63, 0x6F, 0x6D]

/-- A response whose question name is `com` (offset 12) and whose single answer
has the name `www` followed by the pointer `C0 0C`, then type 1, class 1,
ttl 60, rdlength 4 and four rdata bytes. -/
def labelPointerResponseBuf : List UInt8 :=
  [0, 0, 0x81, 0x80, 0, 1, 0, 1, 0, 0, 0, 0,
   3, 0x63, 0x6F, 0x6D, 0, 0, 1, 0, 1,
   3, 0x77, 0x77, 0x77, 0xC0, 0x0C, 0, 1, 0, 1, 0, 0, 0, 0x3C, 0, 4, 0x5D, 0xB8, 0xD8, 0x22]

/-- The response test packet with the answer's rdlength changed from 4 to 5,
one more than the four bytes that follow. -/
def truncatedRdataBuf : List UInt8 :=
  [0xAA, 0xAA, 0x81, 0x80, 0, 1, 0, 1, 0, 0, 0, 0,
   3, 0x77, 0x77, 0x77, 7, 0x65, 0x78, 0x61, 0x6D, 0x70, 0x6C, 0x65, 3, 0x63, 0x6F, 0x6D, 0,
   0, 1, 0, 1,
   0xC0, 0x0C, 0, 1, 0, 1, 0, 0, 0, 0x3C, 0, 5, 0x5D, 0xB8, 0xD8, 0x22]

/-- The question `www.example.com`, type 1, class 1 of the test packets. -/
def testQuestion : WireQuestion :=
  ⟨[[0x77, 0x77, 0x77], [0x65, 0x78, 0x61, 0x6D, 0x70, 0x6C, 0x65], [0x63, 0x6F, 0x6D]], 1, 1⟩

/-- The answer of the response test packet with its name written out in full:
`www.example.com`, type 1, class 1, ttl 60, rdata `5D B8 D8 22`. -/
def testAnswer : WireRecord :=
  ⟨[[0x77, 0x77, 0x77], [0x65, 0x78, 0x61, 0x6D, 0x70, 0x6C, 0x65], [0x63, 0x6F, 0x6D]], 1, 1,
    60, [0x5D, 0xB8, 0xD8, 0x22]⟩

/-! ## The reads made at the decoder's own cursor

A second recording of the reads, in which the bytes read while the target of a
compression pointer is decoded are left out: what remains are the reads made at
the position of the cursor `offset` of the enclosing call. -/

/-- Decoder `parseDomainName` (loop form) with the reads made at its own
cursor; the target of a pointer is decoded by `parseDomainNameLoop` and its
reads are not recorded. -/
def parseDomainNameLoopOwn :
    Nat → List UInt8 → Nat → List UInt8 → Option (List UInt8 × Nat) × List Nat
  | 0, _, _, _ => (none, [])
  | fuel + 1, data, offset, domain =>
    if offset < data.length then
      let len := byteAt data offset
      let reads := [offset]
      let offset := offset + 1
      if len &&& 0xC0 = 0xC0 then
        if offset ≥ data.length then
          (some (domain, offset), reads)
        else
          let pointer := ((len &&& 0x3F) <<< 8) ||| byteAt data offset
          let reads := reads ++ [offset]
          let offset := offset + 1
          let saved_offset := offset
          match parseDomainNameLoop fuel data pointer [] with
          | none => (none, reads)
          | some (sub, _) => (some (domain ++ sub, saved_offset), reads)
      else if len = 0 then
        (some (domain, offset), reads)
      else if offset + len > data.length then
        (some (domain, offset), reads)
      else
        let domain := if domain ≠ [] then domain ++ [dot] else domain
        let reads := reads ++ List.range' offset len
        match parseDomainNameLoopOwn fuel data (offset + len)
            (domain ++ substr data offset len) with
        | (r, rs) => (r, reads ++ rs)
    else
      (some (domain, offset), [])

/-- The question loop with the reads made at its own cursor. -/
def parseQuestionsOwn (fuel : Nat) (data : List UInt8) :
    Nat → Nat → List DNSQuestion → Option (Bool × Nat × List DNSQuestion) × List Nat
  | 0, offset, qs => (some (true, offset, qs), [])
  | n + 1, offset, qs =>
    let question := DNSQuestion.fresh
    match parseDomainNameLoopOwn fuel data offset [] with
    | (none, reads) => (none, reads)
    | (some (name, offset), reads) =>
      let question := { question with domain_name := name }
      if offset + 4 > data.length then
        (some (false, offset, qs), reads)
      else
        let question := { question with type := ntohs16 data offset }
        let reads := reads ++ List.range' offset 2
        let offset := offset + 2
        let question := { question with class_ := ntohs16 data offset }
        let reads := reads ++ List.range' offset 2
        let offset := offset + 2
        match parseQuestionsOwn fuel data n offset (qs ++ [question]) with
        | (r, rs) => (r, reads ++ rs)

/-- Decoder `parseQuery` with the reads made at its own cursor, and the final
value of that cursor. -/
def parseQueryOwn (fuel : Nat) (data : List UInt8) (message : Message) :
    Option (Bool × Message) × List Nat × Nat :=
  match parseHeaderT data 0 message.header with
  | ((false, offset, header), reads) =>
    (some (false, { message with header := header }), reads, offset)
  | ((true, offset, header), reads) =>
    let message := { message with header := header }
    match parseQuestionsOwn fuel data message.header.questions offset message.questions with
    | (none, rq) => (none, reads ++ rq, offset)
    | (some (ok, offset, qs), rq) =>
      (some (ok, { message with questions := qs }), reads ++ rq, offset)

/-- A query whose only question name, at offset 12, is the pointer `C0 12` to
offset 18; type and class follow at 14..17, so the question ends at offset 18,
where the name `com` is encoded. -/
def forwardPointerQueryBuf : List UInt8 :=
  [0, 0, 1, 0, 0, 1, 0, 0, 0, 0, 0, 0, 0xC0, 0x12, 0, 1, 0, 1, 3, 0x63, 0x6F, 0x6D, 0]

/-- The buffer `forwardPointerQueryBuf` with the byte at offset 19 changed from
`c` to `d`. -/
def forwardPointerQueryBuf2 : List UInt8 :=
  [0, 0, 1, 0, 0, 1, 0, 0, 0, 0, 0, 0, 0xC0, 0x12, 0, 1, 0, 1, 3, 0x64, 0x6F, 0x6D, 0]

/-- The message `parseQuery` leaves on `forwardPointerQueryBuf`. -/
def forwardPointerQueryMsg : Message :=
  ⟨⟨0, 0x0100, 1, 0, 0, 0⟩, [⟨[0x63, 0x6F, 0x6D], 1, 1⟩], [], [], []⟩

/-- The query test packet cut after the first byte of the question's type: 30
bytes, the name `www.example.com` ends at offset 29. -/
def truncatedQuestionBuf : List UInt8 :=
  [0xAA, 0xAA, 1, 0, 0, 1, 0, 0, 0, 0, 0, 0,
   3, 0x77, 0x77, 0x77, 7, 0x65, 0x78, 0x61, 0x6D, 0x70, 0x6C, 0x65, 3, 0x63, 0x6F, 0x6D, 0,
   0]

/-- A query whose only question name is the label `a` followed, at offset 14,
by the length octet 63; only 4 bytes follow that octet. -/
def longLabelQueryBuf : List UInt8 :=
  [0, 0, 1, 0, 0, 1, 0, 0, 0, 0, 0, 0, 1, 0x61, 63, 0, 1, 0, 1]

/-- A query whose only question name, at offset 12, is the pointer `C0 FF` to
offset 255, in a buffer of 18 bytes. -/
def outOfRangePointerBuf : List UInt8 :=
  [0, 0, 1, 0, 0, 1, 0, 0, 0, 0, 0, 0, 0xC0, 0xFF, 0, 1, 0, 1]

/-- A query whose only question name is the label `a` and then the buffer ends:
no terminating 0 octet. -/
def unterminatedNameBuf : List UInt8 :=
  [0, 0, 1, 0, 0, 1, 0, 0, 0, 0, 0, 0, 1, 0x61]

/-! ## The labels the name decoder appends -/

/-- Decoder `parseDomainName` (loop form) with the labels it appends, in order,
each paired with the offset of its length octet; the labels appended while the
target of a pointer is decoded are included, and the labels appended before the
fuel runs out are kept. -/
def parseDomainNameLoopL :
    Nat → List UInt8 → Nat → List UInt8 →
      Option (List UInt8 × Nat) × List (Nat × List UInt8)
  | 0, _, _, _ => (none, [])
  | fuel + 1, data, offset, domain =>
    if offset < data.length then
      let len := byteAt data offset
      let lenAt := offset
      let offset := offset + 1
      if len &&& 0xC0 = 0xC0 then
        if offset ≥ data.length then
          (some (domain, offset), [])
        else
          let pointer := ((len &&& 0x3F) <<< 8) ||| byteAt data offset
          let offset := offset + 1
          let saved_offset := offset
          match parseDomainNameLoopL fuel data pointer [] with
          | (none, ls) => (none, ls)
          | (some (sub, _), ls) => (some (domain ++ sub, saved_offset), ls)
      else if len = 0 then
        (some (domain, offset), [])
      else if offset + len > data.length then
        (some (domain, offset), [])
      else
        let domain := if domain ≠ [] then domain ++ [dot] else domain
        let label := substr data offset len
        match parseDomainNameLoopL fuel data (offset + len) (domain ++ label) with
        | (r, ls) => (r, (lenAt, label) :: ls)
    else
      (some (domain, offset), [])

/-- A name has no empty label: it does not begin with `'.'`, does not end with
`'.'` and has no two adjacent `'.'` characters. -/
def noEmptyLabel (name : List UInt8) : Prop :=
  name.head? ≠ some dot ∧ name.getLast? ≠ some dot ∧
    List.Chain' (fun a b => ¬ (a = dot ∧ b = dot)) name

instance (name : List UInt8) : Decidable (noEmptyLabel name) :=
  inferInstanceAs (Decidable (name.head? ≠ some dot ∧ name.getLast? ≠ some dot ∧
    List.Chain' (fun a b => ¬ (a = dot ∧ b = dot)) name))

/-- A name of one label, the single byte `'.'`, and its 0 octet. -/
def dotLabelBuf : List UInt8 := [1, 46, 0]

/-- A length octet 64 (top two bits `01`), 64 bytes `a`, and a 0 octet. -/
def label64Buf : List UInt8 := 64 :: (List.replicate 64 0x61 ++ [0])

/-- The 31 bytes of the hex string
`AAAA0100000100000000 03777777076578616D706C6503636F6D00 0001 0001`: only ten
bytes stand before the name, so the bytes `03 77` of the name are read as the
additional count and the question starts at offset 12 inside the label `www`. -/
def queryScenarioBuf : List UInt8 :=
  [0xAA, 0xAA, 0x01, 0x00, 0x00, 0x01, 0x00, 0x00, 0x00, 0x00,
   0x03, 0x77, 0x77, 0x77, 0x07, 0x65, 0x78, 0x61, 0x6D, 0x70, 0x6C, 0x65, 0x03, 0x63, 0x6F,
   0x6D, 0x00,
   0x00, 0x01, 0x00, 0x01]

/-- The 33 bytes of the query packet of the test `ParseFullQueryPacket`: the
same fields with all six header fields present. -/
def queryTestBuf : List UInt8 :=
  [0xAA, 0xAA, 0x01, 0x00, 0x00, 0x01, 0x00, 0x00, 0x00, 0x00, 0x00, 0x00,
   0x03, 0x77, 0x77, 0x77, 0x07, 0x65, 0x78, 0x61, 0x6D, 0x70, 0x6C, 0x65, 0x03, 0x63, 0x6F,
   0x6D, 0x00,
   0x00, 0x01, 0x00, 0x01]

/-! ## Rendering (`printHeader`, `printResourceRecords`)

Of the printing functions only what the claims are about is embedded: the values
`printHeader` extracts from the flags, and the indices of `rdata` that
`printResourceRecords` reads. -/

/-- The local variables `printHeader` computes from `header.flags` before
printing them. -/
structure HeaderFlags where
  isResponse : Bool
  opcode : Nat
  isAuthoritative : Bool
  isTruncated : Bool
  recursionDesired : Bool
  recursionAvailable : Bool
  responseCode : Nat
deriving DecidableEq, Repr

/-- Embedding of the flag extraction of `DNSParser::printHeader`; `opcode` and
`responseCode` are `uint8_t`, hence the reduction modulo 256. -/
def printHeaderFlags (flags : Nat) : HeaderFlags :=
  { isResponse := (flags &&& 0x8000) != 0
    opcode := ((flags >>> 11) &&& 0x0F) % 256
    isAuthoritative := (flags &&& 0x0400) != 0
    isTruncated := (flags &&& 0x0200) != 0
    recursionDesired := (flags &&& 0x0100) != 0
    recursionAvailable := (flags &&& 0x0080) != 0
    responseCode := (flags &&& 0x000F) % 256 }

/-- Indices of `record.rdata` that `printResourceRecords` reads for one record,
branch by branch: `ip[0] .. ip[3]` for an A record of rdlength 4; `ip[j]` and
`ip[j+1]` for `j = 0, 2, .., 14` for an AAAA record of rdlength 16; the first two
bytes (through `ntohs`) and the characters of `rdata.substr(2)` for an MX record
of rdlength at least 2, nothing for a shorter one; every character of the string
for CNAME, NS and TXT records (printed whole) and in the hexadecimal dump of any
other type. -/
def rdataReads (record : DNSResourceRecord) : List Nat :=
  if record.type = 1 ∧ record.rdlength = 4 then
    [0, 1, 2, 3]
  else if record.type = 28 ∧ record.rdlength = 16 then
    (List.range 8).flatMap (fun k => [2 * k, 2 * k + 1])
  else if record.type = 5 then
    List.range record.rdata.length
  else if record.type = 2 then
    List.range record.rdata.length
  else if record.type = 15 then
    if record.rdlength ≥ 2 then
      [0, 1] ++ List.range' 2 (record.rdata.length - 2)
    else
      []
  else if record.type = 16 then
    List.range record.rdata.length
  else
    List.range record.rdata.length

/-- The start position `printResourceRecords` passes to `rdata.substr(pos)`,
which must not exceed `rdata.size()`: 2 in the MX branch with rdlength at least
2, none elsewhere. -/
def rdataSubstrFrom (record : DNSResourceRecord) : Option Nat :=
  if record.type = 1 ∧ record.rdlength = 4 then none
  else if record.type = 28 ∧ record.rdlength = 16 then none
  else if record.type = 5 then none
  else if record.type = 2 then none
  else if record.type = 15 then
    if record.rdlength ≥ 2 then some 2 else none
  else none

/-- The response test packet with the answer turned into an MX record: type 15,
rdlength 4, rdata `00 0A 01 61`. -/
def mxResponseBuf : List UInt8 :=
  [0xAA, 0xAA, 0x81, 0x80, 0, 1, 0, 1, 0, 0, 0, 0,
   3, 0x77, 0x77, 0x77, 7, 0x65, 0x78, 0x61, 0x6D, 0x70, 0x6C, 0x65, 3, 0x63, 0x6F, 0x6D, 0,
   0, 1, 0, 1,
   0xC0, 0x0C, 0, 15, 0, 1, 0, 0, 0, 0x3C, 0, 4, 0x00, 0x0A, 0x01, 0x61]

/-! ## The loop iterations of the name decoder -/

/-- Offsets of the octets that the `while` loop of `parseDomainName`, started at
`offset`, reads as `len` at its own cursor, one per loop iteration: a label
leads to the next iteration; a pointer octet, a 0 octet or a length octet
announcing more bytes than remain ends the loop. -/
def lengthOctets : Nat → List UInt8 → Nat → List Nat
  | 0, _, _ => []
  | fuel + 1, data, offset =>
    if offset < data.length then
      let len := byteAt data offset
      let lenAt := offset
      let offset := offset + 1
      if len &&& 0xC0 = 0xC0 then
        [lenAt]
      else if len = 0 then
        [lenAt]
      else if offset + len > data.length then
        [lenAt]
      else
        lenAt :: lengthOctets fuel data (offset + len)
    else
      []

/-- The response test packet with the two type bytes of its answer (offsets 35
and 36) changed from `00 01` (A) to `00 1C` (AAAA). -/
def responseTestBufOtherType : List UInt8 :=
  [0xAA, 0xAA, 0x81, 0x80, 0, 1, 0, 1, 0, 0, 0, 0,
   3, 0x77, 0x77, 0x77, 7, 0x65, 0x78, 0x61, 0x6D, 0x70, 0x6C, 0x65, 3, 0x63, 0x6F, 0x6D, 0,
   0, 1, 0, 1,
   0xC0, 0x0C, 0, 0x1C, 0, 1, 0, 0, 0, 0x3C, 0, 4, 0x5D, 0xB8, 0xD8, 0x22]

/-- The answer of `mxResponseBuf` as decoded. -/
def mxAnswer : DNSResourceRecord :=
  ⟨wwwExampleCom, 15, 1, 60, 4, [0x00, 0x0A, 0x01, 0x61]⟩

/-- A response with no question and one answer whose name is the label `a`
followed, at offset 14, by the length octet 63; exactly 10 bytes follow that
octet (type 1, class 1, ttl 0, rdlength 4) and no rdata. -/
def longLabelRecordBuf : List UInt8 :=
  [0, 0, 0x81, 0x80, 0, 0, 0, 1, 0, 0, 0, 0, 1, 0x61, 63, 0, 1, 0, 1, 0, 0, 0, 0, 0, 4]

/-- A response with no question and one answer whose name is the label `a` and
then the buffer ends: no terminating 0 octet. -/
def unterminatedRecordNameBuf : List UInt8 :=
  [0, 0, 0x81, 0x80, 0, 0, 0, 1, 0, 0, 0, 0, 1, 0x61]

/-- A response with no question and one answer whose name, at offset 12, is the
pointer `C0 FF` to offset 255, in a buffer of 24 bytes; type 1, class 1, ttl 0
and rdlength 0 follow the pointer. -/
def outOfRangePointerRecordBuf : List UInt8 :=
  [0, 0, 0x81, 0x80, 0, 0, 0, 1, 0, 0, 0, 0, 0xC0, 0xFF, 0, 1, 0, 1, 0, 0, 0, 0, 0, 0]

/-- A record as a caller may have left it in a `Message`: type 1 and rdlength 4,
with no rdata. -/
def staleRecord : DNSResourceRecord := ⟨[], 1, 1, 0, 4, []⟩

/-- A message that holds `staleRecord` as its only answer before the call. -/
def staleRecordMsg : Message := ⟨⟨0, 0, 0, 0, 0, 0⟩, [], [staleRecord], [], []⟩

/-- The message a successful `parseResponse` leaves on `mxResponseBuf`, started
from the empty one. -/
def mxResponseMsg : Message :=
  ⟨⟨0xAAAA, 0x8180, 1, 1, 0, 0⟩, [⟨wwwExampleCom, 1, 1⟩], [mxAnswer], [], []⟩

/-! Theorems -/

/-! ## Basic facts about byte access -/

theorem byteAt_lt (data : List UInt8) (i : Nat) : byteAt data i < 256 :=
  UInt8.toNat_lt_size _

theorem byteAt_eq_get (data : List UInt8) (i : Nat) (h : i < data.length) :
    byteAt data i = (data.get ⟨i, h⟩).toNat := by
  simp [byteAt, List.getD_eq_getElem?_getD, List.getElem?_eq_getElem h]

set_option maxRecDepth 100000 in
theorem land_C0_iff_aux : ∀ n : Fin 256, (n.val &&& 0xC0 = 0xC0) = (n.val / 64 = 3) := by
  decide

/-- The test `(len & 0xC0) == 0xC0` holds exactly when the top two bits of the
octet are `11`. -/
theorem land_C0_iff (n : Nat) (h : n < 256) : n &&& 0xC0 = 0xC0 ↔ n / 64 = 3 := by
  have := land_C0_iff_aux ⟨n, h⟩
  simpa using Eq.to_iff this

/-! ## C6: header decode -/

/-- C6: on a buffer of at least 12 bytes, `parseHeader` started at offset 0
returns true, leaves the offset at 12 and sets the six header fields to the
big-endian 16-bit values `256 * data[2k] + data[2k+1]` of the byte pairs
(0,1), (2,3), (4,5), (6,7), (8,9), (10,11), bytes read as unsigned. -/
theorem parseHeader_decodes (data : List UInt8) (header : DNSHeader)
    (h : 12 ≤ data.length) :
    parseHeader data 0 header =
      (true, 12,
        { transaction_id :=
            256 * (data.get ⟨0, by omega⟩).toNat + (data.get ⟨1, by omega⟩).toNat
          flags :=
            256 * (data.get ⟨2, by omega⟩).toNat + (data.get ⟨3, by omega⟩).toNat
          questions :=
            256 * (data.get ⟨4, by omega⟩).toNat + (data.get ⟨5, by omega⟩).toNat
          answer_rrs :=
            256 * (data.get ⟨6, by omega⟩).toNat + (data.get ⟨7, by omega⟩).toNat
          authority_rrs :=
            256 * (data.get ⟨8, by omega⟩).toNat + (data.get ⟨9, by omega⟩).toNat
          additional_rrs :=
            256 * (data.get ⟨10, by omega⟩).toNat + (data.get ⟨11, by omega⟩).toNat }) := by
  have h12 : ¬ data.length < 12 := by omega
  simp only [parseHeader, h12, if_false, ntohs16]
  rw [byteAt_eq_get data 0 (by omega), byteAt_eq_get data 1 (by omega),
    byteAt_eq_get data 2 (by omega), byteAt_eq_get data 3 (by omega),
    byteAt_eq_get data 4 (by omega), byteAt_eq_get data 5 (by omega),
    byteAt_eq_get data 6 (by omega), byteAt_eq_get data 7 (by omega),
    byteAt_eq_get data 8 (by omega), byteAt_eq_get data 9 (by omega),
    byteAt_eq_get data 10 (by omega), byteAt_eq_get data 11 (by omega)]

/-- The 12-byte header of the query test packet (`AAAA 0100 0001 0000 0000 0000`). -/
theorem parseHeader_decodes_witness :
    parseHeader [0xAA, 0xAA, 1, 0, 0, 1, 0, 0, 0, 0, 0, 0] 0 ⟨7, 7, 7, 7, 7, 7⟩
      = (true, 12, ⟨0xAAAA, 0x0100, 1, 0, 0, 0⟩) :=
  parseHeader_decodes [0xAA, 0xAA, 1, 0, 0, 1, 0, 0, 0, 0, 0, 0] ⟨7, 7, 7, 7, 7, 7⟩
    (by decide)

/-! ## C7: short buffer -/

/-- C7: on a buffer shorter than 12 bytes (the empty buffer included)
`parseQuery` and `parseResponse` both return false, whatever the fuel, and
leave the message exactly as it was. -/
theorem short_buffer_rejected (fuel : Nat) (data : List UInt8) (m : Message)
    (h : data.length < 12) :
    parseQuery fuel data m = some (false, m) ∧
      parseResponse fuel data m = some (false, m) := by
  simp [parseQuery, parseResponse, parseHeader, h]

theorem short_buffer_rejected_witness :
    parseQuery 0 [0xAA, 0xAA, 1, 0, 0, 1]
        ⟨⟨1, 2, 3, 4, 5, 6⟩, [⟨[119], 1, 1⟩], [], [], []⟩
        = some (false, ⟨⟨1, 2, 3, 4, 5, 6⟩, [⟨[119], 1, 1⟩], [], [], []⟩) ∧
      parseResponse 0 [0xAA, 0xAA, 1, 0, 0, 1]
        ⟨⟨1, 2, 3, 4, 5, 6⟩, [⟨[119], 1, 1⟩], [], [], []⟩
        = some (false, ⟨⟨1, 2, 3, 4, 5, 6⟩, [⟨[119], 1, 1⟩], [], [], []⟩) :=
  short_buffer_rejected 0 [0xAA, 0xAA, 1, 0, 0, 1]
    ⟨⟨1, 2, 3, 4, 5, 6⟩, [⟨[119], 1, 1⟩], [], [], []⟩ (by decide)

/-! ## C2: compression pointer -/

/-- C2: if `o + 1 < data.size()` and the top two bits of `data[o]` are `11`,
then with `p = ((data[o] & 0x3F) << 8) | data[o+1]`, whenever decoding at `p`
returns (with some fuel), `parseDomainName` started at `o` returns (with one
more unit of fuel) exactly the same name and leaves the offset at `o + 2`. -/
theorem pointer_followed (fuel : Nat) (data : List UInt8) (o : Nat)
    (name : List UInt8) (stop : Nat)
    (ho : o + 1 < data.length)
    (htop : byteAt data o / 64 = 3)
    (hp : parseDomainName fuel data
      (((byteAt data o &&& 0x3F) <<< 8) ||| byteAt data (o + 1)) = some (name, stop)) :
    parseDomainName (fuel + 1) data o = some (name, o + 2) := by
  have h1 : o < data.length := by omega
  have h2 : ¬ (o + 1 ≥ data.length) := by omega
  have h3 : byteAt data o &&& 0xC0 = 0xC0 := (land_C0_iff _ (byteAt_lt _ _)).2 htop
  unfold parseDomainName at hp ⊢
  simp only [parseDomainNameLoop, h1, if_true, h3, h2, if_false, hp, List.nil_append]

/-- The answer name `C0 0C` of the response test packet, pointing at the
question name at offset 12. -/
theorem pointer_followed_witness :
    parseDomainName 5
      [0xAA, 0xAA, 0x81, 0x80, 0, 1, 0, 1, 0, 0, 0, 0, 3, 0x77, 0x77, 0x77, 3, 0x63,
        0x6F, 0x6D, 0, 0, 1, 0, 1, 0xC0, 0x0C] 25
      = some ([0x77, 0x77, 0x77, 46, 0x63, 0x6F, 0x6D], 27) :=
  pointer_followed 4
    [0xAA, 0xAA, 0x81, 0x80, 0, 1, 0, 1, 0, 0, 0, 0, 3, 0x77, 0x77, 0x77, 3, 0x63,
      0x6F, 0x6D, 0, 0, 1, 0, 1, 0xC0, 0x0C] 25
    [0x77, 0x77, 0x77, 46, 0x63, 0x6F, 0x6D] 21 (by decide) (by decide) (by decide)

/-! ## Fuel -/

/-- More fuel never changes a result that was already reached. -/
theorem parseDomainNameLoop_fuel_succ :
    ∀ (fuel : Nat) (data : List UInt8) (offset : Nat) (domain : List UInt8)
      (r : List UInt8 × Nat),
      parseDomainNameLoop fuel data offset domain = some r →
      parseDomainNameLoop (fuel + 1) data offset domain = some r := by
  intro fuel
  induction fuel with
  | zero => intro data offset domain r h; simp [parseDomainNameLoop] at h
  | succ n ih =>
    intro data offset domain r h
    rw [parseDomainNameLoop] at h ⊢
    by_cases h1 : offset < data.length
    · simp only [h1, if_true] at h ⊢
      by_cases h2 : byteAt data offset &&& 0xC0 = 0xC0
      · simp only [h2, if_true] at h ⊢
        by_cases h3 : offset + 1 ≥ data.length
        · simp only [h3, if_true] at h ⊢
          exact h
        · simp only [h3, if_false] at h ⊢
          cases hrec : parseDomainNameLoop n data
              (((byteAt data offset &&& 0x3F) <<< 8) ||| byteAt data (offset + 1)) [] with
          | none => simp [hrec] at h
          | some v =>
            rw [hrec] at h
            rw [ih _ _ _ _ hrec]
            exact h
      · simp only [h2, if_false] at h ⊢
        by_cases h3 : byteAt data offset = 0
        · simp only [h3, if_true] at h ⊢
          exact h
        · simp only [h3, if_false] at h ⊢
          by_cases h4 : offset + 1 + byteAt data offset > data.length
          · simp only [h4, if_true] at h ⊢
            exact h
          · simp only [h4, if_false] at h ⊢
            exact ih _ _ _ _ h
    · simp only [h1, if_false] at h ⊢
      exact h

theorem parseDomainNameLoop_fuel_add (k fuel : Nat) (data : List UInt8) (offset : Nat)
    (domain : List UInt8) (r : List UInt8 × Nat)
    (h : parseDomainNameLoop fuel data offset domain = some r) :
    parseDomainNameLoop (fuel + k) data offset domain = some r := by
  induction k with
  | zero => exact h
  | succ k ih => exact parseDomainNameLoop_fuel_succ _ _ _ _ _ ih

theorem parseDomainNameLoop_fuel_le (fuel fuel' : Nat) (data : List UInt8) (offset : Nat)
    (domain : List UInt8) (r : List UInt8 × Nat) (hle : fuel ≤ fuel')
    (h : parseDomainNameLoop fuel data offset domain = some r) :
    parseDomainNameLoop fuel' data offset domain = some r := by
  obtain ⟨k, rfl⟩ := Nat.exists_eq_add_of_le hle
  exact parseDomainNameLoop_fuel_add k fuel data offset domain r h

/-! ## C9: record decode -/

theorem substr_length (data : List UInt8) (pos n : Nat) (h : pos + n ≤ data.length) :
    (substr data pos n).length = n := by
  simp [substr]; omega

/-- C9: whenever `parseResourceRecord` returns true, with `e` the offset at which
the owning name's encoding ends (the offset `parseDomainName` leaves), the
record's type is the big-endian 16-bit value at `e`, its class the one at
`e + 2`, its ttl the big-endian 32-bit value at `e + 4`, its rdlength the
big-endian 16-bit value at `e + 8`, its rdata is exactly the bytes
`data[e+10 .. e+10+rdlength)`, so `rdata.size() == rdlength`, and the offset is
left at `e + 10 + rdlength`. -/
theorem parseResourceRecord_decodes (fuel : Nat) (data : List UInt8) (offset : Nat)
    (rr0 rr : DNSResourceRecord) (stop : Nat)
    (h : parseResourceRecord fuel data offset rr0 = some (true, stop, rr)) :
    ∃ e, parseDomainName fuel data offset = some (rr.name, e) ∧
      rr.type = 256 * byteAt data e + byteAt data (e + 1) ∧
      rr.class_ = 256 * byteAt data (e + 2) + byteAt data (e + 3) ∧
      rr.ttl = 16777216 * byteAt data (e + 4) + 65536 * byteAt data (e + 5)
        + 256 * byteAt data (e + 6) + byteAt data (e + 7) ∧
      rr.rdlength = 256 * byteAt data (e + 8) + byteAt data (e + 9) ∧
      rr.rdata = (data.drop (e + 10)).take rr.rdlength ∧
      rr.rdata.length = rr.rdlength ∧
      e + 10 + rr.rdlength ≤ data.length ∧
      stop = e + 10 + rr.rdlength := by
  unfold parseResourceRecord at h
  cases hn : parseDomainName fuel data offset with
  | none => simp [hn] at h
  | some v =>
    obtain ⟨name, e⟩ := v
    simp only [hn] at h
    by_cases h1 : e + 10 > data.length
    · simp [h1] at h
    · simp only [h1, if_false] at h
      by_cases h2 : e + 2 + 2 + 4 + 2 + ntohs16 data (e + 2 + 2 + 4) > data.length
      · simp [h2] at h
      · simp only [h2, if_false, Option.some.injEq, Prod.mk.injEq, true_and] at h
        obtain ⟨hstop, hrr⟩ := h
        subst hrr
        refine ⟨e, rfl, ?_, ?_, ?_, ?_, ?_, ?_, ?_, ?_⟩
        · simp [ntohs16]
        · simp [ntohs16, Nat.add_assoc]
        · simp [ntohl32, Nat.add_assoc]
        · simp [ntohs16, Nat.add_assoc]
        · simp [substr, Nat.add_assoc]
        · simp only [ntohs16] at h2 ⊢
          rw [substr_length]
          omega
        · simp only [ntohs16] at h2 ⊢
          omega
        · simp only [ntohs16] at hstop ⊢
          omega

/-- The answer record of the response test packet (offset 33): name by pointer,
type 1, class 1, ttl 60, rdlength 4, rdata `5D B8 D8 22`. -/
theorem parseResourceRecord_decodes_witness :
    ∃ e, parseDomainName 5 responseTestBuf 33
        = some ((⟨wwwExampleCom, 1, 1, 60, 4, [0x5D, 0xB8, 0xD8, 0x22]⟩ :
            DNSResourceRecord).name, e) ∧
      (1 : Nat) = 256 * byteAt responseTestBuf e + byteAt responseTestBuf (e + 1) ∧
      (1 : Nat) = 256 * byteAt responseTestBuf (e + 2) + byteAt responseTestBuf (e + 3) ∧
      (60 : Nat) = 16777216 * byteAt responseTestBuf (e + 4)
        + 65536 * byteAt responseTestBuf (e + 5)
        + 256 * byteAt responseTestBuf (e + 6) + byteAt responseTestBuf (e + 7) ∧
      (4 : Nat) = 256 * byteAt responseTestBuf (e + 8) + byteAt responseTestBuf (e + 9) ∧
      [0x5D, 0xB8, 0xD8, 0x22] = (responseTestBuf.drop (e + 10)).take 4 ∧
      ([0x5D, 0xB8, 0xD8, 0x22] : List UInt8).length = 4 ∧
      e + 10 + 4 ≤ responseTestBuf.length ∧
      49 = e + 10 + 4 :=
  parseResourceRecord_decodes 5 responseTestBuf 33 DNSResourceRecord.fresh
    ⟨wwwExampleCom, 1, 1, 60, 4, [0x5D, 0xB8, 0xD8, 0x22]⟩ 49 (by decide)

/-! ## C3: labels followed by a compression pointer -/

/-- C3, the code at the failing input: in `labelThenPointerBuf` the name at
offset 5 is the label `www` followed by a pointer to offset 0, where `com` and a
0 octet are encoded.  With any fuel that suffices, `parseDomainName` started at
offset 5 leaves the offset right after the pointer (11) but returns `wwwcom`:
the pointer branch appends the target name without the `'.'` that the label
branch inserts, so the result is not `www.com`.  The same happens inside
`parseResponse` on `labelPointerResponseBuf`, whose answer is named `wwwcom`. -/
theorem label_then_pointer_missing_dot (k : Nat) :
    parseDomainName (4 + k) labelThenPointerBuf 0 = some ([0x63, 0x6F, 0x6D], 5) ∧
      parseDomainName (4 + k) labelThenPointerBuf 5
        = some ([0x77, 0x77, 0x77, 0x63, 0x6F, 0x6D], 11) ∧
      parseDomainName (4 + k) labelThenPointerBuf 5
        ≠ some ([0x77, 0x77, 0x77] ++ [dot] ++ [0x63, 0x6F, 0x6D], 11) ∧
      parseResponse 4 labelPointerResponseBuf Message.empty
        = some (true,
            { header := ⟨0, 0x8180, 1, 1, 0, 0⟩
              questions := [⟨[0x63, 0x6F, 0x6D], 1, 1⟩]
              answers := [⟨[0x77, 0x77, 0x77, 0x63, 0x6F, 0x6D], 1, 1, 60, 4,
                [0x5D, 0xB8, 0xD8, 0x22]⟩]
              authorities := []
              additionals := [] }) := by
  have h0 : parseDomainName (4 + k) labelThenPointerBuf 0 = some ([0x63, 0x6F, 0x6D], 5) :=
    parseDomainNameLoop_fuel_add k 4 _ _ _ _ (by decide)
  have h5 : parseDomainName (4 + k) labelThenPointerBuf 5
      = some ([0x77, 0x77, 0x77, 0x63, 0x6F, 0x6D], 11) :=
    parseDomainNameLoop_fuel_add k 4 _ _ _ _ (by decide)
  refine ⟨h0, h5, ?_, by decide⟩
  rw [h5]
  decide

/-! ## C4: pointer loops -/

theorem selfPointer_diverges :
    ∀ fuel : Nat, parseDomainNameLoop fuel selfPointerBuf 12 [] = none := by
  intro fuel
  induction fuel with
  | zero => rfl
  | succ n ih =>
    have hlen : selfPointerBuf.length = 14 := by decide
    have hb0 : byteAt selfPointerBuf 12 = 192 := by decide
    have hb1 : byteAt selfPointerBuf 13 = 12 := by decide
    have hp : ((192 &&& 0x3F) <<< 8) ||| 12 = 12 := by decide
    have hc : (192 &&& 0xC0) = 0xC0 := by decide
    rw [parseDomainNameLoop]
    simp only [hlen, hb0, hb1, hp, hc, ih]
    simp

theorem pointerCycle_diverges :
    ∀ fuel : Nat, parseDomainNameLoop fuel pointerCycleBuf 12 [] = none ∧
      parseDomainNameLoop fuel pointerCycleBuf 14 [] = none := by
  intro fuel
  induction fuel with
  | zero => exact ⟨rfl, rfl⟩
  | succ n ih =>
    have hlen : pointerCycleBuf.length = 16 := by decide
    have hb0 : byteAt pointerCycleBuf 12 = 192 := by decide
    have hb1 : byteAt pointerCycleBuf 13 = 14 := by decide
    have hb2 : byteAt pointerCycleBuf 14 = 192 := by decide
    have hb3 : byteAt pointerCycleBuf 15 = 12 := by decide
    have hp : ((192 &&& 0x3F) <<< 8) ||| 12 = 12 := by decide
    have hq : ((192 &&& 0x3F) <<< 8) ||| 14 = 14 := by decide
    have hc : (192 &&& 0xC0) = 0xC0 := by decide
    constructor
    · rw [parseDomainNameLoop]
      simp only [hlen, hb0, hb1, hq, hc, ih.2]
      simp
    · rw [parseDomainNameLoop]
      simp only [hlen, hb2, hb3, hp, hc, ih.1]
      simp

/-- C4, the code at the failing inputs: on a buffer whose only question name is
a pointer to itself (`selfPointerBuf`), and on one whose name is a pointer to a
later pointer that points back (`pointerCycleBuf`), no amount of fuel makes
`parseQuery` or `parseResponse` return: the decoder recurses without bound
instead of returning false. -/
theorem pointer_loop_never_returns (fuel : Nat) :
    parseQuery fuel selfPointerBuf Message.empty = none ∧
      parseResponse fuel selfPointerBuf Message.empty = none ∧
      parseQuery fuel pointerCycleBuf Message.empty = none ∧
      parseResponse fuel pointerCycleBuf Message.empty = none := by
  have h1 : parseHeader selfPointerBuf 0 Message.empty.header
      = (true, 12, ⟨0, 0, 1, 0, 0, 0⟩) := by decide
  have h2 : parseHeader pointerCycleBuf 0 Message.empty.header
      = (true, 12, ⟨0, 0, 1, 0, 0, 0⟩) := by decide
  have d1 := selfPointer_diverges fuel
  have d2 := (pointerCycle_diverges fuel).1
  refine ⟨?_, ?_, ?_, ?_⟩
  · simp [parseQuery, h1, parseQuestions, parseDomainName, d1]
  · simp [parseResponse, h1, parseQuestions, parseDomainName, d1]
  · simp [parseQuery, h2, parseQuestions, parseDomainName, d2]
  · simp [parseResponse, h2, parseQuestions, parseDomainName, d2]

/-! ## C10: truncated records -/

/-- The vector a record loop appends to only prefixes its result. -/
theorem parseRecords_acc (fuel : Nat) (data : List UInt8) :
    ∀ (n offset : Nat) (rs0 : List DNSResourceRecord),
      parseRecords fuel data n offset rs0 =
        (parseRecords fuel data n offset []).map
          (fun r => (r.1, r.2.1, rs0 ++ r.2.2)) := by
  intro n
  induction n with
  | zero => intro offset rs0; simp [parseRecords]
  | succ n ih =>
    intro offset rs0
    rw [parseRecords, parseRecords]
    cases hr : parseResourceRecord fuel data offset DNSResourceRecord.fresh with
    | none => rfl
    | some v =>
      obtain ⟨b, o, rr⟩ := v
      cases b with
      | false => simp
      | true =>
        simp only
        rw [ih o (rs0 ++ [rr]), ih o ([] ++ [rr])]
        simp [Option.map_map, Function.comp_def]

/-- Running `a + b` iterations of a record loop is running `a` of them and, if
none failed, `b` more. -/
theorem parseRecords_add (fuel : Nat) (data : List UInt8) (b : Nat) :
    ∀ (a offset : Nat) (rs : List DNSResourceRecord),
      parseRecords fuel data (a + b) offset rs =
        match parseRecords fuel data a offset rs with
        | none => none
        | some (false, o, rs1) => some (false, o, rs1)
        | some (true, o, rs1) => parseRecords fuel data b o rs1 := by
  intro a
  induction a with
  | zero => intro offset rs; simp [parseRecords]
  | succ a ih =>
    intro offset rs
    rw [Nat.succ_add, parseRecords, parseRecords]
    cases hr : parseResourceRecord fuel data offset DNSResourceRecord.fresh with
    | none => rfl
    | some v =>
      obtain ⟨c, o, rr⟩ := v
      cases c with
      | false => rfl
      | true => exact ih o (rs ++ [rr])

/-- A record loop of `n` iterations fails when its record number `k < n` does. -/
theorem parseRecords_fails (fuel : Nat) (data : List UInt8) (n k start off stop : Nat)
    (acc rs : List DNSResourceRecord) (rr : DNSResourceRecord) (hk : k < n)
    (hpre : parseRecords fuel data k start [] = some (true, off, rs))
    (hbad : parseResourceRecord fuel data off DNSResourceRecord.fresh = some (false, stop, rr)) :
    parseRecords fuel data n start acc = some (false, stop, acc ++ rs) := by
  obtain ⟨j, rfl⟩ : ∃ j, n = k + (1 + j) := ⟨n - k - 1, by omega⟩
  rw [parseRecords_acc, parseRecords_add, hpre]
  simp only
  rw [Nat.add_comm 1 j, parseRecords, hbad]
  rfl

/-- A record loop of `n ≤ k` iterations succeeds when the first `k` records do,
and the remaining `k - n` records succeed from where it stops. -/
theorem parseRecords_passes (fuel : Nat) (data : List UInt8) (n k start off : Nat)
    (acc rs : List DNSResourceRecord) (hk : n ≤ k)
    (hpre : parseRecords fuel data k start [] = some (true, off, rs)) :
    ∃ o1 rs1 rs2, parseRecords fuel data n start acc = some (true, o1, acc ++ rs1) ∧
      parseRecords fuel data (k - n) o1 [] = some (true, off, rs2) := by
  obtain ⟨j, rfl⟩ : ∃ j, k = n + j := ⟨k - n, by omega⟩
  rw [parseRecords_add] at hpre
  cases h1 : parseRecords fuel data n start [] with
  | none => simp [h1] at hpre
  | some v =>
    obtain ⟨c, o1, rs1⟩ := v
    cases c with
    | false => simp [h1] at hpre
    | true =>
      simp only [h1] at hpre
      rw [parseRecords_acc] at hpre
      cases h2 : parseRecords fuel data j o1 [] with
      | none => simp [h2] at hpre
      | some w =>
        obtain ⟨d, o2, rs2⟩ := w
        simp only [h2, Option.map_some', Option.some.injEq, Prod.mk.injEq] at hpre
        obtain ⟨hd, ho, -⟩ := hpre
        subst hd ho
        refine ⟨o1, rs1, rs2, ?_, ?_⟩
        · rw [parseRecords_acc, h1]; rfl
        · simpa using h2

/-- The record decoder returns exactly when the name decoding does, and then
its boolean is the outcome of its two length checks. -/
theorem parseResourceRecord_bool (fuel : Nat) (data : List UInt8) (offset : Nat)
    (rr0 : DNSResourceRecord) (name : List UInt8) (e : Nat)
    (hname : parseDomainName fuel data offset = some (name, e)) :
    ∃ stop rr, parseResourceRecord fuel data offset rr0 =
      some (decide (e + 10 ≤ data.length ∧
        e + 10 + (256 * byteAt data (e + 8) + byteAt data (e + 9)) ≤ data.length),
        stop, rr) := by
  unfold parseResourceRecord
  simp only [hname]
  by_cases h1 : e + 10 > data.length
  · have : ¬ e + 10 ≤ data.length := by omega
    simp [h1, this]
  · simp only [h1, if_false]
    have h1' : e + 10 ≤ data.length := by omega
    have e8 : e + 2 + 2 + 4 = e + 8 := by omega
    by_cases h2 : e + 2 + 2 + 4 + 2 + ntohs16 data (e + 2 + 2 + 4) > data.length
    · have : ¬ e + 10 + (256 * byteAt data (e + 8) + byteAt data (e + 9)) ≤ data.length := by
        simp only [ntohs16, e8] at h2
        have e9 : e + 8 + 1 = e + 9 := by omega
        rw [e9] at h2
        omega
      simp [h2, this]
    · have : e + 10 + (256 * byteAt data (e + 8) + byteAt data (e + 9)) ≤ data.length := by
        simp only [ntohs16, e8] at h2
        have e9 : e + 8 + 1 = e + 9 := by omega
        rw [e9] at h2
        omega
      simp [h2, this, h1']

/-- C10: with `e` the offset at which a record's name encoding ends,
`parseResourceRecord` returns true if and only if `e + 10 <= data.size()` and
`e + 10 + rdlength <= data.size()`, `rdlength` being the big-endian 16-bit value
at `e + 8`; and when, in `parseResponse`, the header and the questions have been
read, the first `k` records (counted through the answer, authority and
additional sections, `k` less than the sum of the three counts) have been read
and the next record makes `parseResourceRecord` return false, `parseResponse`
returns false. -/
theorem truncated_record_rejected (fuel : Nat) (data : List UInt8) :
    (∀ (offset : Nat) (rr0 : DNSResourceRecord) (name : List UInt8) (e : Nat),
      parseDomainName fuel data offset = some (name, e) →
      ∃ stop rr, parseResourceRecord fuel data offset rr0 =
        some (decide (e + 10 ≤ data.length ∧
          e + 10 + (256 * byteAt data (e + 8) + byteAt data (e + 9)) ≤ data.length),
          stop, rr)) ∧
    (∀ (m : Message) (hdr : DNSHeader) (off1 : Nat) (qs : List DNSQuestion)
        (k off : Nat) (rs : List DNSResourceRecord) (stop : Nat) (rr : DNSResourceRecord),
      parseHeader data 0 m.header = (true, 12, hdr) →
      parseQuestions fuel data hdr.questions 12 m.questions = some (true, off1, qs) →
      k < hdr.answer_rrs + hdr.authority_rrs + hdr.additional_rrs →
      parseRecords fuel data k off1 [] = some (true, off, rs) →
      parseResourceRecord fuel data off DNSResourceRecord.fresh = some (false, stop, rr) →
      ∃ m1, parseResponse fuel data m = some (false, m1)) := by
  refine ⟨fun offset rr0 name e h => parseResourceRecord_bool fuel data offset rr0 name e h,
    ?_⟩
  intro m hdr off1 qs k off rs stop rr hh hq hk hpre hbad
  unfold parseResponse
  simp only [hh, hq]
  by_cases hA : k < hdr.answer_rrs
  · rw [parseRecords_fails fuel data _ k off1 off stop m.answers rs rr hA hpre hbad]
    exact ⟨_, rfl⟩
  · obtain ⟨o1, rs1, rs2, hp1, hrest1⟩ :=
      parseRecords_passes fuel data hdr.answer_rrs k off1 off m.answers rs (by omega) hpre
    rw [hp1]
    simp only
    by_cases hN : k - hdr.answer_rrs < hdr.authority_rrs
    · rw [parseRecords_fails fuel data _ _ o1 off stop m.authorities rs2 rr hN hrest1 hbad]
      exact ⟨_, rfl⟩
    · obtain ⟨o2, rs3, rs4, hp2, hrest2⟩ :=
        parseRecords_passes fuel data hdr.authority_rrs (k - hdr.answer_rrs) o1 off
          m.authorities rs2 (by omega) hrest1
      rw [hp2]
      simp only
      have hR : k - hdr.answer_rrs - hdr.authority_rrs < hdr.additional_rrs := by omega
      rw [parseRecords_fails fuel data _ _ o2 off stop m.additionals rs4 rr hR hrest2 hbad]
      exact ⟨_, rfl⟩

/-- The response test packet with rdlength 5 and only 4 bytes of rdata: the
answer's name ends at offset 35, the fixed fields fit but the rdata does not. -/
theorem truncated_record_rejected_witness :
    (∃ stop rr, parseResourceRecord 5 truncatedRdataBuf 33 DNSResourceRecord.fresh =
        some (decide (35 + 10 ≤ truncatedRdataBuf.length ∧
          35 + 10 + (256 * byteAt truncatedRdataBuf (35 + 8)
            + byteAt truncatedRdataBuf (35 + 9)) ≤ truncatedRdataBuf.length),
          stop, rr)) ∧
      ∃ m1, parseResponse 5 truncatedRdataBuf Message.empty = some (false, m1) :=
  ⟨(truncated_record_rejected 5 truncatedRdataBuf).1 33 DNSResourceRecord.fresh
      wwwExampleCom 35 (by decide),
    (truncated_record_rejected 5 truncatedRdataBuf).2 Message.empty
      ⟨0xAAAA, 0x8180, 1, 1, 0, 0⟩ 33 [⟨wwwExampleCom, 1, 1⟩] 0 33 [] 45
      ⟨wwwExampleCom, 1, 1, 60, 5, []⟩
      (by decide) (by decide) (by decide) (by decide) (by decide)⟩

/-! ## Reading behind a known prefix -/

theorem byteAt_append (pre rest : List UInt8) (i : Nat) :
    byteAt (pre ++ rest) (pre.length + i) = byteAt rest i := by
  simp [byteAt, List.getD_eq_getElem?_getD, List.getElem?_append_right]

theorem byteAt_append_zero (pre rest : List UInt8) :
    byteAt (pre ++ rest) pre.length = byteAt rest 0 := by
  simpa using byteAt_append pre rest 0

theorem substr_append (pre rest : List UInt8) (i n : Nat) :
    substr (pre ++ rest) (pre.length + i) n = substr rest i n := by
  simp [substr, List.drop_append]

theorem substr_exact (l rest : List UInt8) : substr (l ++ rest) 0 l.length = l := by
  simp [substr]

theorem byteAt_cons_zero (b : UInt8) (rest : List UInt8) : byteAt (b :: rest) 0 = b.toNat := by
  simp [byteAt]

theorem byteAt_cons_succ (b : UInt8) (rest : List UInt8) (i : Nat) :
    byteAt (b :: rest) (i + 1) = byteAt rest i := by
  simp [byteAt]

theorem toNat_ofNat_byte (n : Nat) (h : n < 256) : (UInt8.ofNat n).toNat = n :=
  UInt8.toNat_ofNat_of_lt h

/-! ## C8: plain-label names -/

theorem intercalate_dot_cons (l : List UInt8) (ls : List (List UInt8)) :
    [dot].intercalate (l :: ls) = l ++ ls.flatMap (fun m => dot :: m) := by
  induction ls generalizing l with
  | nil => simp [List.intercalate, List.intersperse]
  | cons m ms ih =>
    have := ih m
    simp only [List.intercalate, List.intersperse, List.flatten_cons] at this ⊢
    simp [this, List.flatMap_cons]

theorem appendLabels_nonempty (ls : List (List UInt8)) :
    ∀ d : List UInt8, d ≠ [] → appendLabels d ls = d ++ ls.flatMap (fun m => dot :: m) := by
  induction ls with
  | nil => intro d _; simp [appendLabels]
  | cons l ls ih =>
    intro d hd
    rw [appendLabels, ih _ (by simp [hd])]
    simp [hd, List.flatMap_cons]

theorem appendLabels_nil (ls : List (List UInt8)) (hv : validLabels ls) :
    appendLabels [] ls = [dot].intercalate ls := by
  cases ls with
  | nil => simp [appendLabels, List.intercalate, List.intersperse]
  | cons l ls =>
    have hl : l ≠ [] := by
      have := (hv l (by simp)).1
      intro h; simp [h] at this
    rw [appendLabels, intercalate_dot_cons, appendLabels_nonempty _ _ (by simpa using hl)]
    simp

theorem length_encodeName_pos (ls : List (List UInt8)) : ls.length < (encodeName ls).length := by
  induction ls with
  | nil => simp [encodeName]
  | cons l ls ih => simp [encodeName]; omega

/-- The label loop on an uncompressed name: started at the first length octet
with any accumulated `domain`, it appends every label and stops right after the
terminating 0 octet. -/
theorem parseDomainNameLoop_encodeName (rest : List UInt8) :
    ∀ (ls : List (List UInt8)), validLabels ls →
      ∀ (fuel : Nat) (pre domain data : List UInt8),
        data = pre ++ (encodeName ls ++ rest) → ls.length < fuel →
        parseDomainNameLoop fuel data pre.length domain
          = some (appendLabels domain ls, pre.length + (encodeName ls).length) := by
  intro ls
  induction ls with
  | nil =>
    intro _ fuel pre domain data hd hf
    obtain ⟨n, rfl⟩ : ∃ n, fuel = n + 1 := ⟨fuel - 1, by simp at hf; omega⟩
    have h1 : pre.length < data.length := by
      subst hd; simp [encodeName]
    have h2 : byteAt data pre.length = 0 := by
      subst hd; rw [byteAt_append_zero]; simp [encodeName, byteAt]
    have h3 : ¬ ((0 : Nat) &&& 0xC0 = 0xC0) := by decide
    rw [parseDomainNameLoop]
    simp only [h1, if_true, h2, h3, if_false, appendLabels, encodeName, List.length_singleton]
  | cons l ls ih =>
    intro hv fuel pre domain data hd hf
    obtain ⟨n, rfl⟩ : ∃ n, fuel = n + 1 := ⟨fuel - 1, by simp at hf; omega⟩
    have hl := hv l (by simp)
    have hvs : validLabels ls := fun m hm => hv m (by simp [hm])
    have hlen : (UInt8.ofNat l.length).toNat = l.length := toNat_ofNat_byte _ (by omega)
    have h1 : pre.length < data.length := by
      subst hd; simp [encodeName]
    have h2 : byteAt data pre.length = l.length := by
      subst hd
      rw [byteAt_append_zero]
      simp [encodeName, byteAt, hlen]
    have h3 : ¬ (l.length &&& 0xC0 = 0xC0) := by
      rw [land_C0_iff _ (by omega)]
      have : l.length / 64 = 0 := Nat.div_eq_of_lt (by omega)
      omega
    have h4 : ¬ l.length = 0 := by omega
    have h5 : ¬ (pre.length + 1 + l.length > data.length) := by
      subst hd; simp [encodeName]; omega
    have h6 : substr data (pre.length + 1) l.length = l := by
      subst hd
      rw [substr_append]
      simp [encodeName, substr]
    have hd' : data = (pre ++ UInt8.ofNat l.length :: l) ++ (encodeName ls ++ rest) := by
      subst hd; simp [encodeName]
    have hoff : pre.length + 1 + l.length = (pre ++ UInt8.ofNat l.length :: l).length := by
      simp; omega
    rw [parseDomainNameLoop]
    simp only [h1, if_true, h2, h3, if_false, h4, h5, h6]
    rw [hoff, ih hvs n _ _ data hd' (by simp at hf; omega)]
    simp [appendLabels, encodeName]
    omega

/-- C8: for every list of labels, each 1 to 63 bytes long, encoded at offset
`o = pre.length` of a buffer as length octet + label bytes for each label and
then a 0 octet, `parseDomainName` started at `o` (with fuel above the number
of labels) returns the labels joined by `'.'` (separators only between
consecutive labels, none leading or trailing) and leaves the offset immediately
after the terminating 0 octet; for the empty list (a lone 0 octet) it returns
the empty string and leaves the offset at `o + 1`. -/
theorem plain_name_round_trip (fuel : Nat) (pre rest : List UInt8)
    (labels : List (List UInt8)) (hv : validLabels labels) (hf : labels.length < fuel) :
    parseDomainName fuel (pre ++ encodeName labels ++ rest) pre.length
        = some ([dot].intercalate labels, pre.length + (encodeName labels).length) ∧
      (labels = [] →
        parseDomainName fuel (pre ++ [0] ++ rest) pre.length = some ([], pre.length + 1)) := by
  have main : ∀ ls : List (List UInt8), validLabels ls → ls.length < fuel →
      parseDomainName fuel (pre ++ encodeName ls ++ rest) pre.length
        = some ([dot].intercalate ls, pre.length + (encodeName ls).length) := by
    intro ls hls hfl
    unfold parseDomainName
    rw [parseDomainNameLoop_encodeName rest ls hls fuel pre [] _ (by simp) hfl,
      appendLabels_nil ls hls]
  refine ⟨main labels hv hf, ?_⟩
  intro hnil
  subst hnil
  simpa [encodeName, List.intercalate, List.intersperse] using main [] hv hf

/-- The name `www.example.com` of the query test packet, encoded at offset 12
as `03 77 77 77 07 65 78 61 6D 70 6C 65 03 63 6F 6D 00` and followed by type and
class. -/
theorem plain_name_round_trip_witness :
    parseDomainName 4
        ([0xAA, 0xAA, 1, 0, 0, 1, 0, 0, 0, 0, 0, 0]
          ++ encodeName [[0x77, 0x77, 0x77], [0x65, 0x78, 0x61, 0x6D, 0x70, 0x6C, 0x65],
              [0x63, 0x6F, 0x6D]]
          ++ [0, 1, 0, 1]) 12
      = some (wwwExampleCom, 29) :=
  (plain_name_round_trip 4 [0xAA, 0xAA, 1, 0, 0, 1, 0, 0, 0, 0, 0, 0] [0, 1, 0, 1]
    [[0x77, 0x77, 0x77], [0x65, 0x78, 0x61, 0x6D, 0x70, 0x6C, 0x65], [0x63, 0x6F, 0x6D]]
    (by decide) (by decide)).1

/-! ## C1: decoding an uncompressed message -/

theorem ntohs16_encodeU16 (data pre rest : List UInt8) (v off : Nat) (hv : v < 65536)
    (hd : data = pre ++ (encodeU16 v ++ rest)) (hoff : off = pre.length) :
    ntohs16 data off = v := by
  subst hd hoff
  have h1 : (UInt8.ofNat (v / 256)).toNat = v / 256 := toNat_ofNat_byte _ (by omega)
  have h2 : (UInt8.ofNat (v % 256)).toNat = v % 256 := toNat_ofNat_byte _ (by omega)
  unfold ntohs16
  rw [byteAt_append_zero, byteAt_append]
  simp only [encodeU16, List.cons_append, List.nil_append, byteAt_cons_zero,
    byteAt_cons_succ, h1, h2]
  omega

theorem ntohl32_encodeU32 (data pre rest : List UInt8) (v off : Nat) (hv : v < 4294967296)
    (hd : data = pre ++ (encodeU32 v ++ rest)) (hoff : off = pre.length) :
    ntohl32 data off = v := by
  subst hd hoff
  have h1 : (UInt8.ofNat (v / 16777216)).toNat = v / 16777216 :=
    toNat_ofNat_byte _ (by omega)
  have h2 : (UInt8.ofNat (v / 65536 % 256)).toNat = v / 65536 % 256 :=
    toNat_ofNat_byte _ (by omega)
  have h3 : (UInt8.ofNat (v / 256 % 256)).toNat = v / 256 % 256 :=
    toNat_ofNat_byte _ (by omega)
  have h4 : (UInt8.ofNat (v % 256)).toNat = v % 256 := toNat_ofNat_byte _ (by omega)
  unfold ntohl32
  rw [byteAt_append_zero, byteAt_append, byteAt_append, byteAt_append]
  simp only [encodeU32, List.cons_append, List.nil_append, byteAt_cons_zero,
    byteAt_cons_succ, h1, h2, h3, h4]
  omega

theorem length_encodeU16 (v : Nat) : (encodeU16 v).length = 2 := rfl

theorem length_encodeU32 (v : Nat) : (encodeU32 v).length = 4 := rfl

theorem parseDomainName_encodeName (fuel : Nat) (data pre rest : List UInt8)
    (ls : List (List UInt8)) (off : Nat) (hv : validLabels ls) (hf : ls.length < fuel)
    (hd : data = pre ++ (encodeName ls ++ rest)) (hoff : off = pre.length) :
    parseDomainName fuel data off
      = some ([dot].intercalate ls, off + (encodeName ls).length) := by
  subst hoff
  unfold parseDomainName
  rw [parseDomainNameLoop_encodeName rest ls hv fuel pre [] data hd hf, appendLabels_nil ls hv]

/-- The question loop on encoded questions. -/
theorem parseQuestions_encode (fuel : Nat) (rest : List UInt8) :
    ∀ (qs : List WireQuestion), (∀ q ∈ qs, q.valid) → (∀ q ∈ qs, q.labels.length < fuel) →
      ∀ (data pre : List UInt8) (off : Nat) (acc : List DNSQuestion),
        data = pre ++ (qs.flatMap encodeQuestion ++ rest) → off = pre.length →
        parseQuestions fuel data qs.length off acc
          = some (true, off + (qs.flatMap encodeQuestion).length,
              acc ++ qs.map WireQuestion.decoded) := by
  intro qs
  induction qs with
  | nil => intro _ _ data pre off acc _ _; simp [parseQuestions]
  | cons q qs ih =>
    intro hv hf data pre off acc hd hoff
    obtain ⟨hvl, hvt, hvc⟩ := hv q (by simp)
    have hn := parseDomainName_encodeName fuel data pre
      (encodeU16 q.type ++ (encodeU16 q.class_ ++ (qs.flatMap encodeQuestion ++ rest)))
      q.labels off hvl (hf q (by simp))
      (by subst hd; simp [encodeQuestion, List.flatMap_cons]) hoff
    have ht : ntohs16 data (off + (encodeName q.labels).length) = q.type :=
      ntohs16_encodeU16 data (pre ++ encodeName q.labels)
        (encodeU16 q.class_ ++ (qs.flatMap encodeQuestion ++ rest)) _ _ hvt
        (by subst hd; simp [encodeQuestion, List.flatMap_cons]) (by simp [hoff])
    have hc : ntohs16 data (off + (encodeName q.labels).length + 2) = q.class_ :=
      ntohs16_encodeU16 data (pre ++ encodeName q.labels ++ encodeU16 q.type)
        (qs.flatMap encodeQuestion ++ rest) _ _ hvc
        (by subst hd; simp [encodeQuestion, List.flatMap_cons])
        (by simp [hoff, length_encodeU16]; omega)
    have hlen : ¬ (off + (encodeName q.labels).length + 4 > data.length) := by
      subst hd hoff
      simp [encodeQuestion, List.flatMap_cons, length_encodeU16]
      omega
    have hrec := ih (fun x hx => hv x (by simp [hx])) (fun x hx => hf x (by simp [hx]))
      data (pre ++ encodeQuestion q) (off + (encodeName q.labels).length + 2 + 2)
      (acc ++ [⟨[dot].intercalate q.labels, q.type, q.class_⟩])
      (by subst hd; simp [List.flatMap_cons])
      (by simp [hoff, encodeQuestion, length_encodeU16]; omega)
    simp only [List.length_cons, parseQuestions, hn, hlen, if_false, ht, hc, hrec]
    simp [List.flatMap_cons, encodeQuestion, length_encodeU16, WireQuestion.decoded]
    omega

theorem substr_at (data pre l rest : List UInt8) (off n : Nat)
    (hd : data = pre ++ (l ++ rest)) (hoff : off = pre.length) (hn : n = l.length) :
    substr data off n = l := by
  subst hd hoff hn
  have := substr_append pre (l ++ rest) 0 l.length
  simp only [Nat.add_zero] at this
  rw [this, substr_exact]

/-- One encoded record is decoded to its expected value. -/
theorem parseResourceRecord_encode (fuel : Nat) (data pre rest : List UInt8)
    (r : WireRecord) (off : Nat) (rr0 : DNSResourceRecord) (hv : r.valid)
    (hf : r.labels.length < fuel)
    (hd : data = pre ++ (encodeRecord r ++ rest)) (hoff : off = pre.length) :
    parseResourceRecord fuel data off rr0
      = some (true, off + (encodeRecord r).length, r.decoded) := by
  obtain ⟨hvl, hvt, hvc, hvttl, hvlen⟩ := hv
  have hn := parseDomainName_encodeName fuel data pre
    (encodeU16 r.type ++ (encodeU16 r.class_ ++ (encodeU32 r.ttl
      ++ (encodeU16 r.rdata.length ++ (r.rdata ++ rest)))))
    r.labels off hvl hf (by subst hd; simp [encodeRecord]) hoff
  have ht : ntohs16 data (off + (encodeName r.labels).length) = r.type :=
    ntohs16_encodeU16 data (pre ++ encodeName r.labels)
      (encodeU16 r.class_ ++ (encodeU32 r.ttl
        ++ (encodeU16 r.rdata.length ++ (r.rdata ++ rest)))) _ _ hvt
      (by subst hd; simp [encodeRecord]) (by simp [hoff])
  have hc : ntohs16 data (off + (encodeName r.labels).length + 2) = r.class_ :=
    ntohs16_encodeU16 data (pre ++ encodeName r.labels ++ encodeU16 r.type)
      (encodeU32 r.ttl ++ (encodeU16 r.rdata.length ++ (r.rdata ++ rest))) _ _ hvc
      (by subst hd; simp [encodeRecord]) (by simp [hoff, length_encodeU16]; omega)
  have httl : ntohl32 data (off + (encodeName r.labels).length + 2 + 2) = r.ttl :=
    ntohl32_encodeU32 data (pre ++ encodeName r.labels ++ encodeU16 r.type
        ++ encodeU16 r.class_)
      (encodeU16 r.rdata.length ++ (r.rdata ++ rest)) _ _ hvttl
      (by subst hd; simp [encodeRecord]) (by simp [hoff, length_encodeU16]; omega)
  have hrl : ntohs16 data (off + (encodeName r.labels).length + 2 + 2 + 4)
      = r.rdata.length :=
    ntohs16_encodeU16 data (pre ++ encodeName r.labels ++ encodeU16 r.type
        ++ encodeU16 r.class_ ++ encodeU32 r.ttl)
      (r.rdata ++ rest) _ _ hvlen
      (by subst hd; simp [encodeRecord])
      (by simp [hoff, length_encodeU16, length_encodeU32]; omega)
  have hrd : substr data (off + (encodeName r.labels).length + 2 + 2 + 4 + 2)
      r.rdata.length = r.rdata :=
    substr_at data (pre ++ encodeName r.labels ++ encodeU16 r.type
        ++ encodeU16 r.class_ ++ encodeU32 r.ttl ++ encodeU16 r.rdata.length)
      r.rdata rest _ _
      (by subst hd; simp [encodeRecord])
      (by simp [hoff, length_encodeU16, length_encodeU32]; omega) rfl
  have hlen1 : ¬ (off + (encodeName r.labels).length + 10 > data.length) := by
    subst hd hoff
    simp [encodeRecord, length_encodeU16, length_encodeU32]
    omega
  have hlen2 : ¬ (off + (encodeName r.labels).length + 2 + 2 + 4 + 2 + r.rdata.length
      > data.length) := by
    subst hd hoff
    simp [encodeRecord, length_encodeU16, length_encodeU32]
    omega
  unfold parseResourceRecord
  simp only [hn, hlen1, if_false, ht, hc, httl, hrl, hlen2, hrd]
  simp [WireRecord.decoded, encodeRecord, length_encodeU16, length_encodeU32]
  omega

/-- A record loop on encoded records. -/
theorem parseRecords_encode (fuel : Nat) (rest : List UInt8) :
    ∀ (rs : List WireRecord), (∀ r ∈ rs, r.valid) → (∀ r ∈ rs, r.labels.length < fuel) →
      ∀ (data pre : List UInt8) (off : Nat) (acc : List DNSResourceRecord),
        data = pre ++ (rs.flatMap encodeRecord ++ rest) → off = pre.length →
        parseRecords fuel data rs.length off acc
          = some (true, off + (rs.flatMap encodeRecord).length,
              acc ++ rs.map WireRecord.decoded) := by
  intro rs
  induction rs with
  | nil => intro _ _ data pre off acc _ _; simp [parseRecords]
  | cons r rs ih =>
    intro hv hf data pre off acc hd hoff
    have h1 := parseResourceRecord_encode fuel data pre (rs.flatMap encodeRecord ++ rest)
      r off DNSResourceRecord.fresh (hv r (by simp)) (hf r (by simp))
      (by subst hd; simp [List.flatMap_cons]) hoff
    have hrec := ih (fun x hx => hv x (by simp [hx])) (fun x hx => hf x (by simp [hx]))
      data (pre ++ encodeRecord r) (off + (encodeRecord r).length) (acc ++ [r.decoded])
      (by subst hd; simp [List.flatMap_cons]) (by simp [hoff])
    simp only [List.length_cons, parseRecords, h1, hrec]
    simp [List.flatMap_cons]
    omega

theorem length_le_flatMap {α : Type} (f : α → List UInt8) (xs : List α) (x : α)
    (hx : x ∈ xs) : (f x).length ≤ (xs.flatMap f).length := by
  induction xs with
  | nil => simp at hx
  | cons y ys ih =>
    rcases List.mem_cons.1 hx with h | h
    · subst h; simp [List.flatMap_cons]
    · have := ih h
      simp only [List.flatMap_cons, List.length_append]
      omega

theorem parseHeader_encode (data rest : List UInt8) (id flags qd an ns ar : Nat)
    (header : DNSHeader)
    (hid : id < 65536) (hflags : flags < 65536) (hqd : qd < 65536) (han : an < 65536)
    (hns : ns < 65536) (har : ar < 65536)
    (hd : data = encodeHeader id flags qd an ns ar ++ rest) :
    parseHeader data 0 header = (true, 12, ⟨id, flags, qd, an, ns, ar⟩) := by
  have h0 : ¬ data.length < 12 := by
    subst hd
    simp only [encodeHeader, List.length_append, length_encodeU16]
    omega
  have e1 : ntohs16 data 0 = id :=
    ntohs16_encodeU16 data [] (encodeU16 flags ++ (encodeU16 qd ++ (encodeU16 an
      ++ (encodeU16 ns ++ (encodeU16 ar ++ rest))))) _ _ hid
      (by subst hd; simp [encodeHeader]) rfl
  have e2 : ntohs16 data (0 + 2) = flags :=
    ntohs16_encodeU16 data (encodeU16 id) (encodeU16 qd ++ (encodeU16 an
      ++ (encodeU16 ns ++ (encodeU16 ar ++ rest)))) _ _ hflags
      (by subst hd; simp [encodeHeader]) rfl
  have e3 : ntohs16 data (0 + 2 + 2) = qd :=
    ntohs16_encodeU16 data (encodeU16 id ++ encodeU16 flags) (encodeU16 an
      ++ (encodeU16 ns ++ (encodeU16 ar ++ rest))) _ _ hqd
      (by subst hd; simp [encodeHeader]) rfl
  have e4 : ntohs16 data (0 + 2 + 2 + 2) = an :=
    ntohs16_encodeU16 data (encodeU16 id ++ encodeU16 flags ++ encodeU16 qd)
      (encodeU16 ns ++ (encodeU16 ar ++ rest)) _ _ han
      (by subst hd; simp [encodeHeader]) rfl
  have e5 : ntohs16 data (0 + 2 + 2 + 2 + 2) = ns :=
    ntohs16_encodeU16 data (encodeU16 id ++ encodeU16 flags ++ encodeU16 qd ++ encodeU16 an)
      (encodeU16 ar ++ rest) _ _ hns
      (by subst hd; simp [encodeHeader]) rfl
  have e6 : ntohs16 data (0 + 2 + 2 + 2 + 2 + 2) = ar :=
    ntohs16_encodeU16 data (encodeU16 id ++ encodeU16 flags ++ encodeU16 qd ++ encodeU16 an
        ++ encodeU16 ns)
      rest _ _ har
      (by subst hd; simp [encodeHeader]) rfl
  simp only [parseHeader, h0, if_false, e1, e2, e3, e4, e5, e6]

theorem length_encodeHeader (id flags qd an ns ar : Nat) :
    (encodeHeader id flags qd an ns ar).length = 12 := rfl

/-- C1: decode undoes the uncompressed wire encoding.  For every 16-bit id and
flags, every list of valid questions and every three lists of valid records
(each list shorter than 65536 entries), on the encoded message followed by any
trailing bytes, `parseResponse` on an empty `Message` (with fuel at least the
buffer length) returns true and the message holds exactly that header, those
questions and those records in wire order, each name being its labels joined by
`'.'`. -/
theorem decode_encode_response (fuel id flags : Nat) (qs : List WireQuestion)
    (an ns ar : List WireRecord) (trailing : List UInt8)
    (hid : id < 65536) (hflags : flags < 65536)
    (hqs : qs.length < 65536) (han : an.length < 65536) (hns : ns.length < 65536)
    (har : ar.length < 65536)
    (hvq : ∀ q ∈ qs, q.valid) (hvan : ∀ r ∈ an, r.valid) (hvns : ∀ r ∈ ns, r.valid)
    (hvar : ∀ r ∈ ar, r.valid)
    (hfuel : (encodeMessage id flags qs an ns ar ++ trailing).length ≤ fuel) :
    parseResponse fuel (encodeMessage id flags qs an ns ar ++ trailing) Message.empty
      = some (true,
          { header := ⟨id, flags, qs.length, an.length, ns.length, ar.length⟩
            questions := qs.map WireQuestion.decoded
            answers := an.map WireRecord.decoded
            authorities := ns.map WireRecord.decoded
            additionals := ar.map WireRecord.decoded }) := by
  have hlenM : (encodeMessage id flags qs an ns ar ++ trailing).length
      = 12 + (qs.flatMap encodeQuestion).length + (an.flatMap encodeRecord).length
        + (ns.flatMap encodeRecord).length + (ar.flatMap encodeRecord).length
        + trailing.length := by
    simp only [encodeMessage, List.length_append, length_encodeHeader]
  have hfq : ∀ q ∈ qs, q.labels.length < fuel := by
    intro q hq
    have h1 := length_encodeName_pos q.labels
    have h2 := length_le_flatMap encodeQuestion qs q hq
    have h3 : (encodeName q.labels).length ≤ (encodeQuestion q).length := by
      simp only [encodeQuestion, List.length_append]; omega
    omega
  have hfr : ∀ (rs : List WireRecord),
      (rs.flatMap encodeRecord).length ≤ fuel → ∀ r ∈ rs, r.labels.length < fuel := by
    intro rs hrs r hr
    have h1 := length_encodeName_pos r.labels
    have h2 := length_le_flatMap encodeRecord rs r hr
    have h3 : (encodeName r.labels).length ≤ (encodeRecord r).length := by
      simp only [encodeRecord, List.length_append]; omega
    omega
  generalize hdata : encodeMessage id flags qs an ns ar ++ trailing = data at hfuel hlenM ⊢
  have hH := parseHeader_encode data
    (qs.flatMap encodeQuestion ++ (an.flatMap encodeRecord ++ (ns.flatMap encodeRecord
      ++ (ar.flatMap encodeRecord ++ trailing))))
    id flags qs.length an.length ns.length ar.length Message.empty.header
    hid hflags hqs han hns har (by subst hdata; simp [encodeMessage])
  have hQ := parseQuestions_encode fuel
    (an.flatMap encodeRecord ++ (ns.flatMap encodeRecord
      ++ (ar.flatMap encodeRecord ++ trailing)))
    qs hvq hfq data (encodeHeader id flags qs.length an.length ns.length ar.length) 12 []
    (by subst hdata; simp [encodeMessage]) rfl
  have hA := parseRecords_encode fuel
    (ns.flatMap encodeRecord ++ (ar.flatMap encodeRecord ++ trailing))
    an hvan (hfr an (by omega)) data
    (encodeHeader id flags qs.length an.length ns.length ar.length
      ++ qs.flatMap encodeQuestion)
    (12 + (qs.flatMap encodeQuestion).length) []
    (by subst hdata; simp [encodeMessage])
    (by simp only [List.length_append, length_encodeHeader])
  have hN := parseRecords_encode fuel (ar.flatMap encodeRecord ++ trailing)
    ns hvns (hfr ns (by omega)) data
    (encodeHeader id flags qs.length an.length ns.length ar.length
      ++ qs.flatMap encodeQuestion ++ an.flatMap encodeRecord)
    (12 + (qs.flatMap encodeQuestion).length + (an.flatMap encodeRecord).length) []
    (by subst hdata; simp [encodeMessage])
    (by simp only [List.length_append, length_encodeHeader])
  have hR := parseRecords_encode fuel trailing
    ar hvar (hfr ar (by omega)) data
    (encodeHeader id flags qs.length an.length ns.length ar.length
      ++ qs.flatMap encodeQuestion ++ an.flatMap encodeRecord ++ ns.flatMap encodeRecord)
    (12 + (qs.flatMap encodeQuestion).length + (an.flatMap encodeRecord).length
      + (ns.flatMap encodeRecord).length) []
    (by subst hdata; simp [encodeMessage])
    (by simp only [List.length_append, length_encodeHeader])
  simp only [parseResponse, hH]
  simp only [Message.empty, hQ, hA, hN, hR, List.nil_append]

/-- The response test packet with the answer's name uncompressed, followed by
one trailing byte. -/
theorem decode_encode_response_witness :
    parseResponse 70
        (encodeMessage 0xAAAA 0x8180 [testQuestion] [testAnswer] [] [] ++ [0xFF])
        Message.empty
      = some (true,
          { header := ⟨0xAAAA, 0x8180, 1, 1, 0, 0⟩
            questions := [⟨wwwExampleCom, 1, 1⟩]
            answers := [⟨wwwExampleCom, 1, 1, 60, 4, [0x5D, 0xB8, 0xD8, 0x22]⟩]
            authorities := []
            additionals := [] }) :=
  decode_encode_response 70 0xAAAA 0x8180 [testQuestion] [testAnswer] [] [] [0xFF]
    (by decide) (by decide) (by decide) (by decide) (by decide) (by decide)
    (by decide) (by decide) (by decide) (by decide) (by decide)

/-! ## C5: no read crosses the buffer end -/

theorem parseDomainNameLoopT_fst :
    ∀ (fuel : Nat) (data : List UInt8) (offset : Nat) (domain : List UInt8),
      (parseDomainNameLoopT fuel data offset domain).1
        = parseDomainNameLoop fuel data offset domain := by
  intro fuel
  induction fuel with
  | zero => intro data offset domain; rfl
  | succ n ih =>
    intro data offset domain
    rw [parseDomainNameLoopT, parseDomainNameLoop]
    by_cases h1 : offset < data.length
    · simp only [h1, if_true]
      by_cases h2 : byteAt data offset &&& 0xC0 = 0xC0
      · simp only [h2, if_true]
        by_cases h3 : offset + 1 ≥ data.length
        · simp only [h3, if_true]
        · simp only [h3, if_false]
          rw [← ih]
          rcases parseDomainNameLoopT n data
            (((byteAt data offset &&& 0x3F) <<< 8) ||| byteAt data (offset + 1)) []
            with ⟨_ | ⟨sub, e⟩, rs⟩ <;> rfl
      · simp only [h2, if_false]
        by_cases h3 : byteAt data offset = 0
        · simp only [h3, if_true]
        · simp only [h3, if_false]
          by_cases h4 : offset + 1 + byteAt data offset > data.length
          · simp only [h4, if_true]
          · simp only [h4, if_false]
            rw [← ih]
    · simp only [h1, if_false]

theorem parseDomainNameLoopT_reads :
    ∀ (fuel : Nat) (data : List UInt8) (offset : Nat) (domain : List UInt8),
      ∀ i ∈ (parseDomainNameLoopT fuel data offset domain).2, i < data.length := by
  intro fuel
  induction fuel with
  | zero => intro data offset domain i hi; simp [parseDomainNameLoopT] at hi
  | succ n ih =>
    intro data offset domain i hi
    rw [parseDomainNameLoopT] at hi
    by_cases h1 : offset < data.length
    · simp only [h1, if_true] at hi
      by_cases h2 : byteAt data offset &&& 0xC0 = 0xC0
      · simp only [h2, if_true] at hi
        by_cases h3 : offset + 1 ≥ data.length
        · simp only [h3, if_true, List.mem_singleton] at hi
          omega
        · simp only [h3, if_false] at hi
          have hrec := ih data
            (((byteAt data offset &&& 0x3F) <<< 8) ||| byteAt data (offset + 1)) []
          rcases hp : parseDomainNameLoopT n data
            (((byteAt data offset &&& 0x3F) <<< 8) ||| byteAt data (offset + 1)) []
            with ⟨_ | ⟨sub, e⟩, rs⟩ <;>
          · rw [hp] at hi hrec
            simp only [List.mem_append, List.mem_singleton, List.mem_cons, List.not_mem_nil,
              or_false] at hi
            rcases hi with (hi | hi) | hi
            · omega
            · omega
            · exact hrec i hi
      · simp only [h2, if_false] at hi
        by_cases h3 : byteAt data offset = 0
        · simp only [h3, if_true, List.mem_singleton] at hi
          omega
        · simp only [h3, if_false] at hi
          by_cases h4 : offset + 1 + byteAt data offset > data.length
          · simp only [h4, if_true, List.mem_singleton] at hi
            omega
          · simp only [h4, if_false, List.mem_append, List.mem_singleton,
              List.mem_range'_1] at hi
            rcases hi with (hi | hi) | hi
            · omega
            · omega
            · exact ih _ _ _ i hi
    · simp only [h1, if_false] at hi
      simp at hi

theorem parseHeaderT_fst (data : List UInt8) (offset : Nat) (header : DNSHeader) :
    (parseHeaderT data offset header).1 = parseHeader data offset header := by
  unfold parseHeaderT parseHeader
  by_cases h : data.length < 12 <;> simp only [h, if_true, if_false]

theorem parseHeaderT_reads (data : List UInt8) (header : DNSHeader) :
    ∀ i ∈ (parseHeaderT data 0 header).2, i < data.length := by
  intro i hi
  unfold parseHeaderT at hi
  by_cases h : data.length < 12
  · simp [h] at hi
  · simp only [h, if_false, List.mem_append, List.mem_range'_1] at hi
    omega

theorem parseResourceRecordT_fst (fuel : Nat) (data : List UInt8) (offset : Nat)
    (rr : DNSResourceRecord) :
    (parseResourceRecordT fuel data offset rr).1 = parseResourceRecord fuel data offset rr := by
  unfold parseResourceRecordT parseResourceRecord parseDomainNameT parseDomainName
  rw [← parseDomainNameLoopT_fst]
  rcases parseDomainNameLoopT fuel data offset [] with ⟨_ | ⟨name, e⟩, rs⟩
  · rfl
  · simp only
    split_ifs <;> rfl

theorem parseResourceRecordT_reads (fuel : Nat) (data : List UInt8) (offset : Nat)
    (rr : DNSResourceRecord) :
    ∀ i ∈ (parseResourceRecordT fuel data offset rr).2, i < data.length := by
  intro i hi
  unfold parseResourceRecordT parseDomainNameT at hi
  have hn := parseDomainNameLoopT_reads fuel data offset []
  rcases hp : parseDomainNameLoopT fuel data offset [] with ⟨_ | ⟨name, e⟩, rs⟩
  · rw [hp] at hi hn
    exact hn i hi
  · rw [hp] at hi hn
    simp only at hi
    by_cases h1 : e + 10 > data.length
    · simp only [h1, if_true] at hi
      exact hn i hi
    · simp only [h1, if_false] at hi
      by_cases h2 : e + 2 + 2 + 4 + 2 + ntohs16 data (e + 2 + 2 + 4) > data.length
      · simp only [h2, if_true, List.mem_append, List.mem_range'_1] at hi
        rcases hi with (((hi | hi) | hi) | hi) | hi
        · exact hn i hi
        all_goals omega
      · simp only [h2, if_false, List.mem_append, List.mem_range'_1] at hi
        rcases hi with ((((hi | hi) | hi) | hi) | hi) | hi
        · exact hn i hi
        all_goals omega

theorem parseQuestionsT_fst (fuel : Nat) (data : List UInt8) :
    ∀ (n offset : Nat) (qs : List DNSQuestion),
      (parseQuestionsT fuel data n offset qs).1 = parseQuestions fuel data n offset qs := by
  intro n
  induction n with
  | zero => intro offset qs; rfl
  | succ n ih =>
    intro offset qs
    rw [parseQuestionsT, parseQuestions]
    unfold parseDomainNameT parseDomainName
    rw [← parseDomainNameLoopT_fst]
    rcases parseDomainNameLoopT fuel data offset [] with ⟨_ | ⟨name, e⟩, rs⟩
    · rfl
    · simp only
      split_ifs
      · rfl
      · rw [← ih]

theorem parseQuestionsT_reads (fuel : Nat) (data : List UInt8) :
    ∀ (n offset : Nat) (qs : List DNSQuestion),
      ∀ i ∈ (parseQuestionsT fuel data n offset qs).2, i < data.length := by
  intro n
  induction n with
  | zero => intro offset qs i hi; simp [parseQuestionsT] at hi
  | succ n ih =>
    intro offset qs i hi
    rw [parseQuestionsT] at hi
    unfold parseDomainNameT at hi
    have hn := parseDomainNameLoopT_reads fuel data offset []
    rcases hp : parseDomainNameLoopT fuel data offset [] with ⟨_ | ⟨name, e⟩, rs⟩
    · rw [hp] at hi hn
      exact hn i hi
    · rw [hp] at hi hn
      simp only at hi
      by_cases h1 : e + 4 > data.length
      · simp only [h1, if_true] at hi
        exact hn i hi
      · simp only [h1, if_false, List.mem_append, List.mem_range'_1] at hi
        rcases hi with ((hi | hi) | hi) | hi
        · exact hn i hi
        · omega
        · omega
        · exact ih _ _ i hi

theorem parseRecordsT_fst (fuel : Nat) (data : List UInt8) :
    ∀ (n offset : Nat) (rs : List DNSResourceRecord),
      (parseRecordsT fuel data n offset rs).1 = parseRecords fuel data n offset rs := by
  intro n
  induction n with
  | zero => intro offset rs; rfl
  | succ n ih =>
    intro offset rs
    rw [parseRecordsT, parseRecords, ← parseResourceRecordT_fst]
    rcases parseResourceRecordT fuel data offset DNSResourceRecord.fresh
      with ⟨_ | ⟨_ | _, e, rr⟩, reads⟩
    · rfl
    · rfl
    · simp only
      rw [← ih]

theorem parseRecordsT_reads (fuel : Nat) (data : List UInt8) :
    ∀ (n offset : Nat) (rs : List DNSResourceRecord),
      ∀ i ∈ (parseRecordsT fuel data n offset rs).2, i < data.length := by
  intro n
  induction n with
  | zero => intro offset rs i hi; simp [parseRecordsT] at hi
  | succ n ih =>
    intro offset rs i hi
    rw [parseRecordsT] at hi
    have hr := parseResourceRecordT_reads fuel data offset DNSResourceRecord.fresh
    rcases hp : parseResourceRecordT fuel data offset DNSResourceRecord.fresh
      with ⟨_ | ⟨_ | _, e, rr⟩, reads⟩
    · rw [hp] at hi hr
      exact hr i hi
    · rw [hp] at hi hr
      exact hr i hi
    · rw [hp] at hi hr
      simp only [List.mem_append] at hi
      rcases hi with hi | hi
      · exact hr i hi
      · exact ih _ _ i hi

theorem parseQueryT_fst (fuel : Nat) (data : List UInt8) (m : Message) :
    (parseQueryT fuel data m).1 = parseQuery fuel data m := by
  unfold parseQueryT parseQuery
  rw [← parseHeaderT_fst]
  rcases parseHeaderT data 0 m.header with ⟨⟨_ | _, off, hdr⟩, reads⟩
  · rfl
  · simp only
    rw [← parseQuestionsT_fst]
    rcases parseQuestionsT fuel data hdr.questions off m.questions
      with ⟨_ | ⟨ok, e, qs⟩, rq⟩ <;> rfl

theorem parseQueryT_reads (fuel : Nat) (data : List UInt8) (m : Message) :
    ∀ i ∈ (parseQueryT fuel data m).2, i < data.length := by
  intro i hi
  unfold parseQueryT at hi
  have hh := parseHeaderT_reads data m.header
  rcases hp : parseHeaderT data 0 m.header with ⟨⟨_ | _, off, hdr⟩, reads⟩
  · rw [hp] at hi hh
    exact hh i hi
  · rw [hp] at hi hh
    simp only at hi
    have hq := parseQuestionsT_reads fuel data hdr.questions off m.questions
    rcases hpq : parseQuestionsT fuel data hdr.questions off m.questions
      with ⟨_ | ⟨ok, e, qs⟩, rq⟩ <;>
    · rw [hpq] at hi hq
      simp only [List.mem_append] at hi
      rcases hi with hi | hi
      · exact hh i hi
      · exact hq i hi

theorem parseResponseT_fst (fuel : Nat) (data : List UInt8) (m : Message) :
    (parseResponseT fuel data m).1 = parseResponse fuel data m := by
  unfold parseResponseT parseResponse
  rw [← parseHeaderT_fst]
  rcases parseHeaderT data 0 m.header with ⟨⟨_ | _, off, hdr⟩, reads⟩
  · rfl
  · simp only
    rw [← parseQuestionsT_fst]
    rcases parseQuestionsT fuel data hdr.questions off m.questions
      with ⟨_ | ⟨_ | _, e1, qs⟩, rq⟩
    · rfl
    · rfl
    · simp only
      rw [← parseRecordsT_fst]
      rcases parseRecordsT fuel data hdr.answer_rrs e1 m.answers
        with ⟨_ | ⟨_ | _, e2, an⟩, ra⟩
      · rfl
      · rfl
      · simp only
        rw [← parseRecordsT_fst]
        rcases parseRecordsT fuel data hdr.authority_rrs e2 m.authorities
          with ⟨_ | ⟨_ | _, e3, ns⟩, rn⟩
        · rfl
        · rfl
        · simp only
          rw [← parseRecordsT_fst]
          rcases parseRecordsT fuel data hdr.additional_rrs e3 m.additionals
            with ⟨_ | ⟨ok, e4, ar⟩, rx⟩ <;> rfl

theorem parseResponseT_reads (fuel : Nat) (data : List UInt8) (m : Message) :
    ∀ i ∈ (parseResponseT fuel data m).2, i < data.length := by
  intro i hi
  unfold parseResponseT at hi
  have hh := parseHeaderT_reads data m.header
  rcases hp : parseHeaderT data 0 m.header with ⟨⟨_ | _, off, hdr⟩, reads⟩
  · rw [hp] at hi hh
    exact hh i hi
  · rw [hp] at hi hh
    simp only at hi
    have hq := parseQuestionsT_reads fuel data hdr.questions off m.questions
    rcases hpq : parseQuestionsT fuel data hdr.questions off m.questions
      with ⟨_ | ⟨_ | _, e1, qs⟩, rq⟩
    · rw [hpq] at hi hq
      simp only [List.mem_append] at hi
      rcases hi with hi | hi
      · exact hh i hi
      · exact hq i hi
    · rw [hpq] at hi hq
      simp only [List.mem_append] at hi
      rcases hi with hi | hi
      · exact hh i hi
      · exact hq i hi
    · rw [hpq] at hi hq
      simp only at hi
      have ha := parseRecordsT_reads fuel data hdr.answer_rrs e1 m.answers
      rcases hpa : parseRecordsT fuel data hdr.answer_rrs e1 m.answers
        with ⟨_ | ⟨_ | _, e2, an⟩, ra⟩
      · rw [hpa] at hi ha
        simp only [List.mem_append] at hi
        rcases hi with (hi | hi) | hi
        · exact hh i hi
        · exact hq i hi
        · exact ha i hi
      · rw [hpa] at hi ha
        simp only [List.mem_append] at hi
        rcases hi with (hi | hi) | hi
        · exact hh i hi
        · exact hq i hi
        · exact ha i hi
      · rw [hpa] at hi ha
        simp only at hi
        have hn := parseRecordsT_reads fuel data hdr.authority_rrs e2 m.authorities
        rcases hpn : parseRecordsT fuel data hdr.authority_rrs e2 m.authorities
          with ⟨_ | ⟨_ | _, e3, ns⟩, rn⟩
        · rw [hpn] at hi hn
          simp only [List.mem_append] at hi
          rcases hi with ((hi | hi) | hi) | hi
          · exact hh i hi
          · exact hq i hi
          · exact ha i hi
          · exact hn i hi
        · rw [hpn] at hi hn
          simp only [List.mem_append] at hi
          rcases hi with ((hi | hi) | hi) | hi
          · exact hh i hi
          · exact hq i hi
          · exact ha i hi
          · exact hn i hi
        · rw [hpn] at hi hn
          simp only at hi
          have hx := parseRecordsT_reads fuel data hdr.additional_rrs e3 m.additionals
          rcases hpx : parseRecordsT fuel data hdr.additional_rrs e3 m.additionals
            with ⟨_ | ⟨ok, e4, ar⟩, rx⟩ <;>
          · rw [hpx] at hi hx
            simp only [List.mem_append] at hi
            rcases hi with (((hi | hi) | hi) | hi) | hi
            · exact hh i hi
            · exact hq i hi
            · exact ha i hi
            · exact hn i hi
            · exact hx i hi

/-- The trace is not vacuous: on the response test packet the reads are the
12 header bytes, the question name and its 4 fixed bytes, the two pointer
octets at 33 and 34, the pointer target 12..28 again, and the record's 10 fixed
bytes and 4 rdata bytes. -/
theorem parseResponseT_testPacket :
    (parseResponseT 5 responseTestBuf Message.empty).2
      = List.range' 0 35 ++ List.range' 12 17 ++ List.range' 35 14 := by
  decide

/-- C5: no read crosses the buffer end.  For every buffer, every message and
every amount of fuel, the decoder with recorded reads computes the same result
as `parseQuery` / `parseResponse`, and every byte index it reads (the 12 header
bytes, every length or pointer octet and label byte of `parseDomainName`,
including those reached through pointers, the 4 question bytes, the 10 fixed
record bytes and the rdata bytes) is strictly less than `data.size()`; this
covers the reads made before the fuel runs out, hence also runs that never
return. -/
theorem reads_within_buffer (fuel : Nat) (data : List UInt8) (m : Message) :
    ((parseQueryT fuel data m).1 = parseQuery fuel data m ∧
      ∀ i ∈ (parseQueryT fuel data m).2, i < data.length) ∧
    ((parseResponseT fuel data m).1 = parseResponse fuel data m ∧
      ∀ i ∈ (parseResponseT fuel data m).2, i < data.length) :=
  ⟨⟨parseQueryT_fst fuel data m, parseQueryT_reads fuel data m⟩,
    ⟨parseResponseT_fst fuel data m, parseResponseT_reads fuel data m⟩⟩

/-! ## Inversion of the entry points -/

theorem parseHeader_ok (data : List UInt8) (header : DNSHeader) (h : 12 ≤ data.length) :
    parseHeader data 0 header
      = (true, 12, ⟨ntohs16 data 0, ntohs16 data 2, ntohs16 data 4, ntohs16 data 6,
          ntohs16 data 8, ntohs16 data 10⟩) := by
  have h12 : ¬ data.length < 12 := by omega
  simp only [parseHeader, h12, if_false]

theorem parseHeader_short (data : List UInt8) (offset : Nat) (header : DNSHeader)
    (h : data.length < 12) : parseHeader data offset header = (false, offset, header) := by
  simp [parseHeader, h]

/-- The header `parseHeader` decodes from a buffer of at least 12 bytes. -/
theorem parseQuery_long (fuel : Nat) (data : List UInt8) (m : Message)
    (h : 12 ≤ data.length) :
    parseQuery fuel data m =
      match parseQuestions fuel data (ntohs16 data 4) 12 m.questions with
      | none => none
      | some (ok, _, qs) =>
        some (ok, { m with
          header := ⟨ntohs16 data 0, ntohs16 data 2, ntohs16 data 4, ntohs16 data 6,
            ntohs16 data 8, ntohs16 data 10⟩
          questions := qs }) := by
  unfold parseQuery
  rw [parseHeader_ok data m.header h]

/-- The vector a question loop appends to only prefixes its result. -/
theorem parseQuestions_acc (fuel : Nat) (data : List UInt8) :
    ∀ (n offset : Nat) (qs0 : List DNSQuestion),
      parseQuestions fuel data n offset qs0 =
        (parseQuestions fuel data n offset []).map
          (fun r => (r.1, r.2.1, qs0 ++ r.2.2)) := by
  intro n
  induction n with
  | zero => intro offset qs0; simp [parseQuestions]
  | succ n ih =>
    intro offset qs0
    rw [parseQuestions, parseQuestions]
    cases hr : parseDomainName fuel data offset with
    | none => rfl
    | some v =>
      obtain ⟨name, e⟩ := v
      simp only
      by_cases h4 : e + 4 > data.length
      · simp [h4]
      · simp only [h4, if_false]
        rw [ih _ (qs0 ++ _), ih _ ([] ++ _)]
        simp [Option.map_map, Function.comp_def]

/-- Running `a + b` iterations of the question loop is running `a` of them and,
if none failed, `b` more. -/
theorem parseQuestions_add (fuel : Nat) (data : List UInt8) (b : Nat) :
    ∀ (a offset : Nat) (qs : List DNSQuestion),
      parseQuestions fuel data (a + b) offset qs =
        match parseQuestions fuel data a offset qs with
        | none => none
        | some (false, o, qs1) => some (false, o, qs1)
        | some (true, o, qs1) => parseQuestions fuel data b o qs1 := by
  intro a
  induction a with
  | zero => intro offset qs; simp [parseQuestions]
  | succ a ih =>
    intro offset qs
    rw [Nat.succ_add, parseQuestions, parseQuestions]
    cases hr : parseDomainName fuel data offset with
    | none => rfl
    | some v =>
      obtain ⟨name, e⟩ := v
      simp only
      by_cases h4 : e + 4 > data.length
      · simp [h4]
      · simp only [h4, if_false]
        exact ih _ _

theorem parseQuestions_length (fuel : Nat) (data : List UInt8) :
    ∀ (n offset : Nat) (qs qs1 : List DNSQuestion) (o : Nat),
      parseQuestions fuel data n offset qs = some (true, o, qs1) →
      qs1.length = qs.length + n := by
  intro n
  induction n with
  | zero =>
    intro offset qs qs1 o h
    simp only [parseQuestions, Option.some.injEq, Prod.mk.injEq, true_and] at h
    rw [← h.2]; rfl
  | succ n ih =>
    intro offset qs qs1 o h
    rw [parseQuestions] at h
    cases hr : parseDomainName fuel data offset with
    | none => simp [hr] at h
    | some v =>
      obtain ⟨name, e⟩ := v
      simp only [hr] at h
      by_cases h4 : e + 4 > data.length
      · simp [h4] at h
      · simp only [h4, if_false] at h
        have := ih _ _ _ _ h
        simp at this
        omega

theorem parseRecords_length (fuel : Nat) (data : List UInt8) :
    ∀ (n offset : Nat) (rs rs1 : List DNSResourceRecord) (o : Nat),
      parseRecords fuel data n offset rs = some (true, o, rs1) →
      rs1.length = rs.length + n := by
  intro n
  induction n with
  | zero =>
    intro offset rs rs1 o h
    simp only [parseRecords, Option.some.injEq, Prod.mk.injEq, true_and] at h
    rw [← h.2]; rfl
  | succ n ih =>
    intro offset rs rs1 o h
    rw [parseRecords] at h
    cases hr : parseResourceRecord fuel data offset DNSResourceRecord.fresh with
    | none => simp [hr] at h
    | some v =>
      obtain ⟨c, e, rr⟩ := v
      cases c with
      | false => simp [hr] at h
      | true =>
        simp only [hr] at h
        have := ih _ _ _ _ h
        simp at this
        omega

/-- What a successful `parseQuery` has done. -/
theorem parseQuery_true_inv (fuel : Nat) (data : List UInt8) (m m1 : Message)
    (h : parseQuery fuel data m = some (true, m1)) :
    12 ≤ data.length ∧
    ∃ o qs, parseQuestions fuel data (ntohs16 data 4) 12 m.questions = some (true, o, qs) ∧
      m1 = { m with
        header := ⟨ntohs16 data 0, ntohs16 data 2, ntohs16 data 4, ntohs16 data 6,
          ntohs16 data 8, ntohs16 data 10⟩
        questions := qs } := by
  by_cases h12 : 12 ≤ data.length
  · refine ⟨h12, ?_⟩
    rw [parseQuery_long fuel data m h12] at h
    cases hq : parseQuestions fuel data (ntohs16 data 4) 12 m.questions with
    | none => simp [hq] at h
    | some v =>
      obtain ⟨ok, o, qs⟩ := v
      simp only [hq, Option.some.injEq, Prod.mk.injEq] at h
      obtain ⟨hok, hm⟩ := h
      subst hok
      exact ⟨o, qs, rfl, hm.symm⟩
  · have hs : data.length < 12 := by omega
    simp [parseQuery, parseHeader_short data 0 m.header hs] at h

/-- What a successful `parseResponse` has done. -/
theorem parseResponse_true_inv (fuel : Nat) (data : List UInt8) (m m1 : Message)
    (h : parseResponse fuel data m = some (true, m1)) :
    12 ≤ data.length ∧
    ∃ o1 qs o2 an o3 ns o4 ar,
      parseQuestions fuel data (ntohs16 data 4) 12 m.questions = some (true, o1, qs) ∧
      parseRecords fuel data (ntohs16 data 6) o1 m.answers = some (true, o2, an) ∧
      parseRecords fuel data (ntohs16 data 8) o2 m.authorities = some (true, o3, ns) ∧
      parseRecords fuel data (ntohs16 data 10) o3 m.additionals = some (true, o4, ar) ∧
      m1 = ⟨⟨ntohs16 data 0, ntohs16 data 2, ntohs16 data 4, ntohs16 data 6,
          ntohs16 data 8, ntohs16 data 10⟩, qs, an, ns, ar⟩ := by
  by_cases h12 : 12 ≤ data.length
  · refine ⟨h12, ?_⟩
    unfold parseResponse at h
    rw [parseHeader_ok data m.header h12] at h
    simp only at h
    rcases hq : parseQuestions fuel data (ntohs16 data 4) 12 m.questions
      with _ | ⟨_ | _, o1, qs⟩
    · simp [hq] at h
    · simp [hq] at h
    · simp only [hq] at h
      rcases ha : parseRecords fuel data (ntohs16 data 6) o1 m.answers
        with _ | ⟨_ | _, o2, an⟩
      · simp [ha] at h
      · simp [ha] at h
      · simp only [ha] at h
        rcases hn : parseRecords fuel data (ntohs16 data 8) o2 m.authorities
          with _ | ⟨_ | _, o3, ns⟩
        · simp [hn] at h
        · simp [hn] at h
        · simp only [hn] at h
          rcases hx : parseRecords fuel data (ntohs16 data 10) o3 m.additionals
            with _ | ⟨ok, o4, ar⟩
          · simp [hx] at h
          · simp only [hx, Option.some.injEq, Prod.mk.injEq] at h
            obtain ⟨hok, hm⟩ := h
            subst hok
            exact ⟨o1, qs, o2, an, o3, ns, o4, ar, rfl, ha, hn, hx, hm.symm⟩
  · have hs : data.length < 12 := by omega
    simp [parseResponse, parseHeader_short data 0 m.header hs] at h

/-! ## C11: section counts of a response -/

/-- C11: for every buffer and an initially empty `Message` (its four sections
empty, its header whatever it is), if `parseResponse` returns true then the four section lengths equal the four header counts:
`questions.size() == header.questions`, `answers.size() == header.answer_rrs`,
`authorities.size() == header.authority_rrs` and
`additionals.size() == header.additional_rrs`. -/
theorem response_section_counts (fuel : Nat) (data : List UInt8) (m m1 : Message)
    (hempty : m.questions = [] ∧ m.answers = [] ∧ m.authorities = [] ∧ m.additionals = [])
    (h : parseResponse fuel data m = some (true, m1)) :
    m1.questions.length = m1.header.questions ∧
      m1.answers.length = m1.header.answer_rrs ∧
      m1.authorities.length = m1.header.authority_rrs ∧
      m1.additionals.length = m1.header.additional_rrs := by
  obtain ⟨_, o1, qs, o2, an, o3, ns, o4, ar, hq, ha, hn, hx, hm⟩ :=
    parseResponse_true_inv fuel data m m1 h
  subst hm
  obtain ⟨e1, e2, e3, e4⟩ := hempty
  have h1 := parseQuestions_length fuel data _ _ _ _ _ hq
  have h2 := parseRecords_length fuel data _ _ _ _ _ ha
  have h3 := parseRecords_length fuel data _ _ _ _ _ hn
  have h4 := parseRecords_length fuel data _ _ _ _ _ hx
  simp only [e1, e2, e3, e4, List.length_nil, Nat.zero_add] at h1 h2 h3 h4
  exact ⟨h1, h2, h3, h4⟩

/-- The response test packet: one question and one answer, as its header says. -/
theorem response_section_counts_witness :
    ([⟨wwwExampleCom, 1, 1⟩] : List DNSQuestion).length = 1 ∧
      ([⟨wwwExampleCom, 1, 1, 60, 4, [0x5D, 0xB8, 0xD8, 0x22]⟩] :
        List DNSResourceRecord).length = 1 ∧
      ([] : List DNSResourceRecord).length = 0 ∧
      ([] : List DNSResourceRecord).length = 0 :=
  response_section_counts 5 responseTestBuf Message.empty
    ⟨⟨0xAAAA, 0x8180, 1, 1, 0, 0⟩, [⟨wwwExampleCom, 1, 1⟩],
      [⟨wwwExampleCom, 1, 1, 60, 4, [0x5D, 0xB8, 0xD8, 0x22]⟩], [], []⟩
    ⟨rfl, rfl, rfl, rfl⟩ (by decide)

/-! ## C13: section counts after a query decode -/

/-- C13 fails on the response test packet read as a query: `parseQuery` returns
true, the header says one answer, and `answers` is empty. -/
theorem query_counts_counterexample :
    ∃ m1, parseQuery 4 responseTestBuf Message.empty = some (true, m1) ∧
      m1.header.answer_rrs = 1 ∧ m1.answers.length = 0 ∧
      ¬ (m1.questions.length = m1.header.questions ∧
        m1.answers.length = m1.header.answer_rrs ∧
        m1.authorities.length = m1.header.authority_rrs ∧
        m1.additionals.length = m1.header.additional_rrs) :=
  ⟨⟨⟨0xAAAA, 0x8180, 1, 1, 0, 0⟩, [⟨wwwExampleCom, 1, 1⟩], [], [], []⟩,
    by decide, by decide, by decide, by decide⟩

/-- C13 as amended: for every buffer and an initially empty `Message` (its four
sections empty, its header whatever it is), if `parseQuery` returns true then `questions.size() == header.questions`, while
`answers`, `authorities` and `additionals` stay empty, so each of them has the
length its header count announces exactly when that count is 0. -/
theorem query_section_counts (fuel : Nat) (data : List UInt8) (m m1 : Message)
    (hempty : m.questions = [] ∧ m.answers = [] ∧ m.authorities = [] ∧ m.additionals = [])
    (h : parseQuery fuel data m = some (true, m1)) :
    m1.questions.length = m1.header.questions ∧
      (m1.answers.length = 0 ∧ m1.authorities.length = 0 ∧ m1.additionals.length = 0) ∧
      (m1.answers.length = m1.header.answer_rrs ↔ m1.header.answer_rrs = 0) ∧
      (m1.authorities.length = m1.header.authority_rrs ↔ m1.header.authority_rrs = 0) ∧
      (m1.additionals.length = m1.header.additional_rrs ↔ m1.header.additional_rrs = 0) := by
  obtain ⟨_, o, qs, hq, hm⟩ := parseQuery_true_inv fuel data m m1 h
  subst hm
  obtain ⟨e1, e2, e3, e4⟩ := hempty
  have h1 := parseQuestions_length fuel data _ _ _ _ _ hq
  simp only [e1, List.length_nil, Nat.zero_add] at h1
  refine ⟨h1, ⟨by simp [e2], by simp [e3], by simp [e4]⟩, ?_, ?_, ?_⟩ <;>
    simp only [e2, e3, e4, List.length_nil] <;> exact eq_comm

/-- The response test packet read as a query: one question, no record. -/
theorem query_section_counts_witness :
    ([⟨wwwExampleCom, 1, 1⟩] : List DNSQuestion).length = 1 ∧
      (([] : List DNSResourceRecord).length = 0 ∧ ([] : List DNSResourceRecord).length = 0 ∧
        ([] : List DNSResourceRecord).length = 0) ∧
      (([] : List DNSResourceRecord).length = 1 ↔ 1 = 0) ∧
      (([] : List DNSResourceRecord).length = 0 ↔ 0 = 0) ∧
      (([] : List DNSResourceRecord).length = 0 ↔ 0 = 0) :=
  query_section_counts 4 responseTestBuf Message.empty
    ⟨⟨0xAAAA, 0x8180, 1, 1, 0, 0⟩, [⟨wwwExampleCom, 1, 1⟩], [], [], []⟩
    ⟨rfl, rfl, rfl, rfl⟩ (by decide)

/-! ## C12: queries are question-only -/

theorem parseDomainNameLoopOwn_fst :
    ∀ (fuel : Nat) (data : List UInt8) (offset : Nat) (domain : List UInt8),
      (parseDomainNameLoopOwn fuel data offset domain).1
        = parseDomainNameLoop fuel data offset domain := by
  intro fuel
  induction fuel with
  | zero => intro data offset domain; rfl
  | succ n ih =>
    intro data offset domain
    rw [parseDomainNameLoopOwn, parseDomainNameLoop]
    by_cases h1 : offset < data.length
    · simp only [h1, if_true]
      by_cases h2 : byteAt data offset &&& 0xC0 = 0xC0
      · simp only [h2, if_true]
        by_cases h3 : offset + 1 ≥ data.length
        · simp only [h3, if_true]
        · simp only [h3, if_false]
          rcases parseDomainNameLoop n data
            (((byteAt data offset &&& 0x3F) <<< 8) ||| byteAt data (offset + 1)) []
            with _ | ⟨sub, e⟩ <;> rfl
      · simp only [h2, if_false]
        by_cases h3 : byteAt data offset = 0
        · simp only [h3, if_true]
        · simp only [h3, if_false]
          by_cases h4 : offset + 1 + byteAt data offset > data.length
          · simp only [h4, if_true]
          · simp only [h4, if_false]
            rw [← ih]
    · simp only [h1, if_false]

/-- The reads made at the cursor of `parseDomainName` lie between the offset it
starts at and the offset it stops at. -/
theorem parseDomainNameLoopOwn_reads :
    ∀ (fuel : Nat) (data : List UInt8) (offset : Nat) (domain name : List UInt8)
      (e : Nat) (reads : List Nat),
      parseDomainNameLoopOwn fuel data offset domain = (some (name, e), reads) →
      offset ≤ e ∧ ∀ i ∈ reads, offset ≤ i ∧ i < e := by
  intro fuel
  induction fuel with
  | zero => intro data offset domain name e reads h; simp [parseDomainNameLoopOwn] at h
  | succ n ih =>
    intro data offset domain name e reads h
    rw [parseDomainNameLoopOwn] at h
    by_cases h1 : offset < data.length
    · simp only [h1, if_true] at h
      by_cases h2 : byteAt data offset &&& 0xC0 = 0xC0
      · simp only [h2, if_true] at h
        by_cases h3 : offset + 1 ≥ data.length
        · simp only [h3, if_true, Prod.mk.injEq, Option.some.injEq] at h
          obtain ⟨⟨-, he⟩, hr⟩ := h
          subst he hr
          refine ⟨by omega, ?_⟩
          intro i hi
          simp only [List.mem_singleton] at hi
          omega
        · simp only [h3, if_false] at h
          rcases hp : parseDomainNameLoop n data
            (((byteAt data offset &&& 0x3F) <<< 8) ||| byteAt data (offset + 1)) []
            with _ | ⟨sub, e1⟩
          · simp [hp] at h
          · simp only [hp, Prod.mk.injEq, Option.some.injEq] at h
            obtain ⟨⟨-, he⟩, hr⟩ := h
            subst he hr
            refine ⟨by omega, ?_⟩
            intro i hi
            simp only [List.mem_append, List.mem_singleton] at hi
            omega
      · simp only [h2, if_false] at h
        by_cases h3 : byteAt data offset = 0
        · simp only [h3, if_true, Prod.mk.injEq, Option.some.injEq] at h
          obtain ⟨⟨-, he⟩, hr⟩ := h
          subst he hr
          refine ⟨by omega, ?_⟩
          intro i hi
          simp only [List.mem_singleton] at hi
          omega
        · simp only [h3, if_false] at h
          by_cases h4 : offset + 1 + byteAt data offset > data.length
          · simp only [h4, if_true, Prod.mk.injEq, Option.some.injEq] at h
            obtain ⟨⟨-, he⟩, hr⟩ := h
            subst he hr
            refine ⟨by omega, ?_⟩
            intro i hi
            simp only [List.mem_singleton] at hi
            omega
          · simp only [h4, if_false] at h
            rcases hrec : parseDomainNameLoopOwn n data (offset + 1 + byteAt data offset)
              ((if domain ≠ [] then domain ++ [dot] else domain)
                ++ substr data (offset + 1) (byteAt data offset)) with ⟨r, rs⟩
            rw [hrec] at h
            simp only [Prod.mk.injEq] at h
            obtain ⟨hr1, hr2⟩ := h
            subst hr1 hr2
            obtain ⟨hle, hin⟩ := ih _ _ _ _ _ _ hrec
            refine ⟨by omega, ?_⟩
            intro i hi
            simp only [List.mem_append, List.mem_singleton, List.mem_range'_1] at hi
            rcases hi with (hi | hi) | hi
            · omega
            · omega
            · have := hin i hi
              omega
    · simp only [h1, if_false, Prod.mk.injEq, Option.some.injEq] at h
      obtain ⟨⟨-, he⟩, hr⟩ := h
      subst he hr
      exact ⟨Nat.le_refl _, by simp⟩

theorem parseQuestionsOwn_fst (fuel : Nat) (data : List UInt8) :
    ∀ (n offset : Nat) (qs : List DNSQuestion),
      (parseQuestionsOwn fuel data n offset qs).1 = parseQuestions fuel data n offset qs := by
  intro n
  induction n with
  | zero => intro offset qs; rfl
  | succ n ih =>
    intro offset qs
    rw [parseQuestionsOwn, parseQuestions]
    unfold parseDomainName
    rw [← parseDomainNameLoopOwn_fst]
    rcases parseDomainNameLoopOwn fuel data offset [] with ⟨_ | ⟨name, e⟩, rs⟩
    · rfl
    · simp only
      split_ifs
      · rfl
      · rw [← ih]

/-- The reads made at the cursor of the question loop lie between the offset it
starts at and the offset it stops at. -/
theorem parseQuestionsOwn_reads (fuel : Nat) (data : List UInt8) :
    ∀ (n offset : Nat) (qs qs1 : List DNSQuestion) (ok : Bool) (e : Nat) (reads : List Nat),
      parseQuestionsOwn fuel data n offset qs = (some (ok, e, qs1), reads) →
      offset ≤ e ∧ ∀ i ∈ reads, offset ≤ i ∧ i < e := by
  intro n
  induction n with
  | zero =>
    intro offset qs qs1 ok e reads h
    simp only [parseQuestionsOwn, Prod.mk.injEq, Option.some.injEq] at h
    obtain ⟨⟨-, he, -⟩, hr⟩ := h
    subst he hr
    exact ⟨Nat.le_refl _, by simp⟩
  | succ n ih =>
    intro offset qs qs1 ok e reads h
    rw [parseQuestionsOwn] at h
    rcases hp : parseDomainNameLoopOwn fuel data offset [] with ⟨_ | ⟨name, e1⟩, rs⟩
    · simp [hp] at h
    · obtain ⟨hle, hin⟩ := parseDomainNameLoopOwn_reads fuel data offset [] name e1 rs hp
      simp only [hp] at h
      by_cases h4 : e1 + 4 > data.length
      · simp only [h4, if_true, Prod.mk.injEq, Option.some.injEq] at h
        obtain ⟨⟨-, he, -⟩, hr⟩ := h
        subst he hr
        exact ⟨hle, hin⟩
      · simp only [h4, if_false] at h
        rcases hrec : parseQuestionsOwn fuel data n (e1 + 2 + 2)
          (qs ++ [{ DNSQuestion.fresh with
            domain_name := name, type := ntohs16 data e1,
            class_ := ntohs16 data (e1 + 2) }]) with ⟨r, more⟩
        rw [hrec] at h
        simp only [Prod.mk.injEq] at h
        obtain ⟨hr1, hr2⟩ := h
        subst hr1 hr2
        obtain ⟨hle2, hin2⟩ := ih _ _ _ _ _ _ hrec
        refine ⟨by omega, ?_⟩
        intro i hi
        simp only [List.mem_append, List.mem_range'_1] at hi
        rcases hi with ((hi | hi) | hi) | hi
        · have := hin i hi
          omega
        · omega
        · omega
        · have := hin2 i hi
          omega

theorem parseQueryOwn_fst (fuel : Nat) (data : List UInt8) (m : Message) :
    (parseQueryOwn fuel data m).1 = parseQuery fuel data m := by
  unfold parseQueryOwn parseQuery
  rw [← parseHeaderT_fst]
  rcases parseHeaderT data 0 m.header with ⟨⟨_ | _, off, hdr⟩, reads⟩
  · rfl
  · simp only
    rw [← parseQuestionsOwn_fst]
    rcases parseQuestionsOwn fuel data hdr.questions off m.questions
      with ⟨_ | ⟨ok, e, qs⟩, rq⟩ <;> rfl

theorem parseHeaderT_reads_header (data : List UInt8) (header : DNSHeader) :
    ∀ i ∈ (parseHeaderT data 0 header).2, i < 12 := by
  intro i hi
  unfold parseHeaderT at hi
  by_cases h : data.length < 12
  · simp [h] at hi
  · simp only [h, if_false, List.mem_append, List.mem_range'_1] at hi
    omega

/-- C12 fails on `forwardPointerQueryBuf`: `parseQuery` returns true, the last
(only) question ends at offset 18, and the byte at offset 18 and the four
after it are read, as the target of the pointer in the question name; changing
the byte at offset 19 changes the decoded name from `com` to `dom`. -/
theorem query_reads_counterexample :
    parseQuery 3 forwardPointerQueryBuf Message.empty
        = some (true, ⟨⟨0, 0x0100, 1, 0, 0, 0⟩, [⟨[0x63, 0x6F, 0x6D], 1, 1⟩], [], [], []⟩) ∧
      parseQuestions 3 forwardPointerQueryBuf 1 12 []
        = some (true, 18, [⟨[0x63, 0x6F, 0x6D], 1, 1⟩]) ∧
      (parseQueryT 3 forwardPointerQueryBuf Message.empty).2
        = List.range' 0 12 ++ [12, 13] ++ List.range' 18 5 ++ List.range' 14 4 ∧
      forwardPointerQueryBuf.take 18 = forwardPointerQueryBuf2.take 18 ∧
      parseQuery 3 forwardPointerQueryBuf2 Message.empty
        = some (true, ⟨⟨0, 0x0100, 1, 0, 0, 0⟩, [⟨[0x64, 0x6F, 0x6D], 1, 1⟩], [], [], []⟩) := by
  decide

/-- C12 as amended: for every buffer and an initially empty `Message` (its four
sections empty, its header whatever it is), if `parseQuery` returns true then `questions.size() == header.questions` and
`answers`, `authorities` and `additionals` are empty, whatever counts the
header carries; and with `e` the offset at which the last question ends, every
read made at the decoder's own cursor (the header, the length and pointer
octets and label bytes of the question names, the type and class fields) is
below `e`: a byte at or after `e` is examined only as the target of a
compression pointer of a question name. -/
theorem query_is_question_only (fuel : Nat) (data : List UInt8) (m m1 : Message)
    (hempty : m.questions = [] ∧ m.answers = [] ∧ m.authorities = [] ∧ m.additionals = [])
    (h : parseQuery fuel data m = some (true, m1)) :
    (m1.questions.length = m1.header.questions ∧
      m1.answers = [] ∧ m1.authorities = [] ∧ m1.additionals = []) ∧
    ∃ e, parseQuestions fuel data m1.header.questions 12 [] = some (true, e, m1.questions) ∧
      (parseQueryOwn fuel data m).1 = some (true, m1) ∧
      (parseQueryOwn fuel data m).2.2 = e ∧
      ∀ i ∈ (parseQueryOwn fuel data m).2.1, i < e := by
  obtain ⟨h12, o, qs, hq, hm⟩ := parseQuery_true_inv fuel data m m1 h
  subst hm
  obtain ⟨e1, e2, e3, e4⟩ := hempty
  rw [e1] at hq
  have h1 := parseQuestions_length fuel data _ _ _ _ _ hq
  simp only [List.length_nil, Nat.zero_add] at h1
  refine ⟨⟨h1, e2, e3, e4⟩, o, hq, ?_, ?_, ?_⟩
  · rw [parseQueryOwn_fst]; exact h
  · unfold parseQueryOwn
    have hh := parseHeaderT_fst data 0 m.header
    rw [parseHeader_ok data _ h12] at hh
    rcases hp : parseHeaderT data 0 m.header with ⟨⟨b, off, hdr⟩, reads⟩
    rw [hp] at hh
    simp only [Prod.mk.injEq] at hh
    obtain ⟨hb, hoff, hhdr⟩ := hh
    subst hb hoff hhdr
    simp only [e1]
    have hqo := parseQuestionsOwn_fst fuel data (ntohs16 data 4) 12 []
    rw [hq] at hqo
    rcases hpq : parseQuestionsOwn fuel data (ntohs16 data 4) 12 [] with ⟨r, rq⟩
    rw [hpq] at hqo
    simp only at hqo
    subst hqo
    rfl
  · unfold parseQueryOwn
    have hh := parseHeaderT_fst data 0 m.header
    have hr := parseHeaderT_reads_header data m.header
    rw [parseHeader_ok data _ h12] at hh
    rcases hp : parseHeaderT data 0 m.header with ⟨⟨b, off, hdr⟩, reads⟩
    rw [hp] at hh hr
    simp only [Prod.mk.injEq] at hh
    obtain ⟨hb, hoff, hhdr⟩ := hh
    subst hb hoff hhdr
    simp only [e1]
    have hqo := parseQuestionsOwn_fst fuel data (ntohs16 data 4) 12 []
    rw [hq] at hqo
    rcases hpq : parseQuestionsOwn fuel data (ntohs16 data 4) 12 [] with ⟨r, rq⟩
    rw [hpq] at hqo
    simp only at hqo
    subst hqo
    obtain ⟨hle, hin⟩ := parseQuestionsOwn_reads fuel data _ _ _ _ _ _ _ hpq
    intro i hi
    simp only [List.mem_append] at hi
    rcases hi with hi | hi
    · have := hr i hi
      omega
    · exact (hin i hi).2

/-- On `forwardPointerQueryBuf` the reads at the cursor stop below offset 18,
where the only question ends. -/
theorem query_is_question_only_witness :
    (forwardPointerQueryMsg.questions.length = forwardPointerQueryMsg.header.questions ∧
      forwardPointerQueryMsg.answers = [] ∧ forwardPointerQueryMsg.authorities = [] ∧
      forwardPointerQueryMsg.additionals = []) ∧
    ∃ e, parseQuestions 3 forwardPointerQueryBuf forwardPointerQueryMsg.header.questions 12 []
        = some (true, e, forwardPointerQueryMsg.questions) ∧
      (parseQueryOwn 3 forwardPointerQueryBuf Message.empty).1
        = some (true, forwardPointerQueryMsg) ∧
      (parseQueryOwn 3 forwardPointerQueryBuf Message.empty).2.2 = e ∧
      ∀ i ∈ (parseQueryOwn 3 forwardPointerQueryBuf Message.empty).2.1, i < e :=
  query_is_question_only 3 forwardPointerQueryBuf Message.empty forwardPointerQueryMsg
    ⟨rfl, rfl, rfl, rfl⟩ (by decide)

/-! ## C14: truncated questions -/

/-- A question loop of `n` iterations fails when, after `k < n` questions, fewer
than 4 bytes follow the next name. -/
theorem parseQuestions_fails (fuel : Nat) (data : List UInt8) (n k off e : Nat)
    (acc qs : List DNSQuestion) (name : List UInt8) (hk : k < n)
    (hpre : parseQuestions fuel data k 12 [] = some (true, off, qs))
    (hname : parseDomainName fuel data off = some (name, e))
    (hshort : e + 4 > data.length) :
    parseQuestions fuel data n 12 acc = some (false, e, acc ++ qs) := by
  obtain ⟨j, rfl⟩ : ∃ j, n = k + (1 + j) := ⟨n - k - 1, by omega⟩
  rw [parseQuestions_acc, parseQuestions_add, hpre]
  simp only
  rw [Nat.add_comm 1 j, parseQuestions, hname]
  simp [hshort]

/-- One more question is read when at least 4 bytes follow its name. -/
theorem parseQuestions_next (fuel : Nat) (data : List UInt8) (k off e : Nat)
    (qs : List DNSQuestion) (name : List UInt8)
    (hpre : parseQuestions fuel data k 12 [] = some (true, off, qs))
    (hname : parseDomainName fuel data off = some (name, e))
    (hfits : e + 4 ≤ data.length) :
    parseQuestions fuel data (k + 1) 12 [] =
      some (true, e + 4, qs ++ [⟨name, ntohs16 data e, ntohs16 data (e + 2)⟩]) := by
  have h4 : ¬ e + 4 > data.length := by omega
  rw [parseQuestions_add, hpre]
  simp only
  rw [parseQuestions, hname]
  simp only [h4, if_false, parseQuestions, DNSQuestion.fresh]

/-- C14: on a buffer of at least 12 bytes, when the first `k` questions have
been read (`k` less than the header's question count) and the name of the next
one ends at offset `e`: if fewer than 4 bytes remain after `e` then `parseQuery`
and `parseResponse` return false; otherwise that question's type is the
big-endian 16-bit value at `e`, its class the one at `e + 2`, and the offset
advances by 4 to `e + 4`. -/
theorem truncated_question_rejected (fuel : Nat) (data : List UInt8) (m : Message)
    (k off e : Nat) (qs : List DNSQuestion) (name : List UInt8)
    (h12 : 12 ≤ data.length)
    (hk : k < (parseHeader data 0 m.header).2.2.questions)
    (hpre : parseQuestions fuel data k 12 [] = some (true, off, qs))
    (hname : parseDomainName fuel data off = some (name, e)) :
    (e + 4 > data.length →
      (∃ m1, parseQuery fuel data m = some (false, m1)) ∧
        ∃ m2, parseResponse fuel data m = some (false, m2)) ∧
    (e + 4 ≤ data.length →
      parseQuestions fuel data (k + 1) 12 [] =
        some (true, e + 4,
          qs ++ [⟨name, 256 * byteAt data e + byteAt data (e + 1),
            256 * byteAt data (e + 2) + byteAt data (e + 3)⟩])) := by
  rw [parseHeader_ok data m.header h12] at hk
  simp only at hk
  constructor
  · intro hshort
    have hf := parseQuestions_fails fuel data (ntohs16 data 4) k off e m.questions qs name
      hk hpre hname hshort
    constructor
    · rw [parseQuery_long fuel data m h12, hf]
      exact ⟨_, rfl⟩
    · unfold parseResponse
      rw [parseHeader_ok data m.header h12]
      simp only [hf]
      exact ⟨_, rfl⟩
  · intro hfits
    have := parseQuestions_next fuel data k off e qs name hpre hname hfits
    simpa [ntohs16, Nat.add_assoc] using this

/-- The query test packet cut one byte into the question's type: the name ends
at offset 29 of 30 bytes, so both entry points return false; on the whole
packet the four bytes are there and the question is read. -/
theorem truncated_question_rejected_witness :
    ((29 + 4 > truncatedQuestionBuf.length →
      (∃ m1, parseQuery 4 truncatedQuestionBuf Message.empty = some (false, m1)) ∧
        ∃ m2, parseResponse 4 truncatedQuestionBuf Message.empty = some (false, m2)) ∧
    (29 + 4 ≤ truncatedQuestionBuf.length →
      parseQuestions 4 truncatedQuestionBuf (0 + 1) 12 [] =
        some (true, 29 + 4,
          [] ++ [⟨wwwExampleCom,
            256 * byteAt truncatedQuestionBuf 29 + byteAt truncatedQuestionBuf (29 + 1),
            256 * byteAt truncatedQuestionBuf (29 + 2)
              + byteAt truncatedQuestionBuf (29 + 3)⟩]))) ∧
    29 + 4 > truncatedQuestionBuf.length :=
  ⟨truncated_question_rejected 4 truncatedQuestionBuf Message.empty 0 12 29 []
      wwwExampleCom (by decide) (by decide) (by decide) (by decide),
    by decide⟩

/-! ## One step of the enclosing loops -/

/-- One iteration of the question loop, given where the name of the question
stops. -/
theorem parseQuestions_step (fuel : Nat) (data : List UInt8) (n off e : Nat)
    (qs : List DNSQuestion) (name : List UInt8)
    (hname : parseDomainName fuel data off = some (name, e)) :
    (e + 4 > data.length → parseQuestions fuel data (n + 1) off qs = some (false, e, qs)) ∧
    (e + 4 ≤ data.length →
      parseQuestions fuel data (n + 1) off qs =
        parseQuestions fuel data n (e + 4)
          (qs ++ [⟨name, ntohs16 data e, ntohs16 data (e + 2)⟩])) := by
  constructor
  · intro hshort
    rw [parseQuestions, hname]
    simp [hshort]
  · intro hfits
    have h4 : ¬ e + 4 > data.length := by omega
    rw [parseQuestions, hname]
    simp only [h4, if_false, DNSQuestion.fresh]

/-- One iteration of a record loop, given where the name of the record stops:
the two guards of `parseResourceRecord` decide between the three outcomes. -/
theorem parseRecords_step (fuel : Nat) (data : List UInt8) (n off e : Nat)
    (rs : List DNSResourceRecord) (name : List UInt8)
    (hname : parseDomainName fuel data off = some (name, e)) :
    (e + 10 > data.length → parseRecords fuel data (n + 1) off rs = some (false, e, rs)) ∧
    (e + 10 ≤ data.length → e + 10 + ntohs16 data (e + 8) > data.length →
      parseRecords fuel data (n + 1) off rs = some (false, e + 10, rs)) ∧
    (e + 10 ≤ data.length → e + 10 + ntohs16 data (e + 8) ≤ data.length →
      parseRecords fuel data (n + 1) off rs =
        parseRecords fuel data n (e + 10 + ntohs16 data (e + 8))
          (rs ++ [⟨name, ntohs16 data e, ntohs16 data (e + 2), ntohl32 data (e + 4),
            ntohs16 data (e + 8), substr data (e + 10) (ntohs16 data (e + 8))⟩])) := by
  have e4 : e + 2 + 2 = e + 4 := by omega
  have e8 : e + 4 + 4 = e + 8 := by omega
  have e10 : e + 8 + 2 = e + 10 := by omega
  refine ⟨?_, ?_, ?_⟩
  · intro hshort
    rw [parseRecords, parseResourceRecord, hname]
    simp [hshort]
  · intro hfits hlong
    have h10 : ¬ e + 10 > data.length := by omega
    rw [parseRecords, parseResourceRecord, hname]
    simp only [h10, if_false, e4, e8, e10, hlong, if_true]
  · intro hfits hdata
    have h10 : ¬ e + 10 > data.length := by omega
    have hrd : ¬ e + 10 + ntohs16 data (e + 8) > data.length := by omega
    rw [parseRecords, parseResourceRecord, hname]
    simp only [h10, if_false, e4, e8, e10, hrd, DNSResourceRecord.fresh]

/-- A response whose record number `k` (counted over the three record sections)
fails is rejected, the header and the questions having been stored and exactly
the `k` records before it added. -/
theorem parseResponse_fails_at_record (fuel : Nat) (data : List UInt8) (m : Message)
    (hdr : DNSHeader) (off1 : Nat) (qs : List DNSQuestion) (k off : Nat)
    (rs : List DNSResourceRecord) (stop : Nat) (rr : DNSResourceRecord)
    (hh : parseHeader data 0 m.header = (true, 12, hdr))
    (hq : parseQuestions fuel data hdr.questions 12 m.questions = some (true, off1, qs))
    (hk : k < hdr.answer_rrs + hdr.authority_rrs + hdr.additional_rrs)
    (hpre : parseRecords fuel data k off1 [] = some (true, off, rs))
    (hbad : parseResourceRecord fuel data off DNSResourceRecord.fresh
      = some (false, stop, rr)) :
    ∃ m1, parseResponse fuel data m = some (false, m1) ∧ m1.header = hdr ∧
      m1.questions = qs ∧
      m1.answers.length + m1.authorities.length + m1.additionals.length
        = m.answers.length + m.authorities.length + m.additionals.length + k := by
  unfold parseResponse
  simp only [hh, hq]
  by_cases hA : k < hdr.answer_rrs
  · rw [parseRecords_fails fuel data _ k off1 off stop m.answers rs rr hA hpre hbad]
    have hl := parseRecords_length fuel data _ _ _ _ _ hpre
    refine ⟨_, rfl, rfl, rfl, ?_⟩
    simp only [List.length_append, List.length_nil] at hl ⊢
    omega
  · obtain ⟨o1, rs1, rs2, hp1, hrest1⟩ :=
      parseRecords_passes fuel data hdr.answer_rrs k off1 off m.answers rs (by omega) hpre
    have hl1 := parseRecords_length fuel data _ _ _ _ _ hp1
    have hl2 := parseRecords_length fuel data _ _ _ _ _ hrest1
    rw [hp1]; simp only
    by_cases hN : k - hdr.answer_rrs < hdr.authority_rrs
    · rw [parseRecords_fails fuel data _ _ o1 off stop m.authorities rs2 rr hN hrest1 hbad]
      refine ⟨_, rfl, rfl, rfl, ?_⟩
      simp only [List.length_append, List.length_nil] at hl1 hl2 ⊢
      omega
    · obtain ⟨o2, rs3, rs4, hp2, hrest2⟩ :=
        parseRecords_passes fuel data hdr.authority_rrs (k - hdr.answer_rrs) o1 off
          m.authorities rs2 (by omega) hrest1
      have hl3 := parseRecords_length fuel data _ _ _ _ _ hp2
      have hl4 := parseRecords_length fuel data _ _ _ _ _ hrest2
      rw [hp2]; simp only
      have hR : k - hdr.answer_rrs - hdr.authority_rrs < hdr.additional_rrs := by omega
      rw [parseRecords_fails fuel data _ _ o2 off stop m.additionals rs4 rr hR hrest2 hbad]
      refine ⟨_, rfl, rfl, rfl, ?_⟩
      simp only [List.length_append, List.length_nil] at hl1 hl3 hl4 ⊢
      omega

/-! ## C15: names that run past the buffer end -/

/-- C15 fails on `longLabelQueryBuf`: the length octet 63 at offset 14 announces
more bytes than the 4 that remain, yet `parseQuery` and `parseResponse` return
true and the question carrying the partially built name `a` is added, with the
4 remaining bytes read as its type and class. -/
theorem truncated_name_counterexample :
    byteAt longLabelQueryBuf 14 = 63 ∧ 14 + 1 + 63 > longLabelQueryBuf.length ∧
      parseDomainName 2 longLabelQueryBuf 12 = some ([0x61], 15) ∧
      parseQuery 2 longLabelQueryBuf Message.empty
        = some (true, ⟨⟨0, 0x0100, 1, 0, 0, 0⟩, [⟨[0x61], 1, 1⟩], [], [], []⟩) ∧
      parseResponse 2 longLabelQueryBuf Message.empty
        = some (true, ⟨⟨0, 0x0100, 1, 0, 0, 0⟩, [⟨[0x61], 1, 1⟩], [], [], []⟩) := by
  decide

/-- C15 as amended.  `parseDomainName` cannot fail.  Where its loop meets a
pointer whose second octet is missing, or reaches the end of the buffer with no
terminating 0 octet, it returns the name built so far with the offset at
`data.size()`; where it meets a label length octet announcing more bytes than
remain, it returns the name built so far with the offset right after that
octet.  With `e` the offset at which the name of a question or record stops:
the question loop stops there with false, adding nothing, exactly when fewer
than 4 bytes remain after `e`, and otherwise adds the question carrying the
name built so far and goes on; the record loop stops there with false, adding
nothing, exactly when fewer than 10 bytes remain after `e` or the rdlength read
at `e + 8` exceeds the bytes that remain after `e + 10`, and otherwise adds the
record carrying the name built so far and goes on.  So when the name of the
question number `k` stops at `data.size()`, `parseQuery` and `parseResponse`
return false and the questions are those read before; and when the name of the
record number `k` stops at `data.size()`, `parseResponse` returns false and the
three record sections have grown by `k` entries in all. -/
theorem truncated_name_stops (fuel : Nat) (data : List UInt8) :
    (∀ (o : Nat) (d : List UInt8), o < data.length → byteAt data o / 64 = 3 →
      o + 1 = data.length →
      parseDomainNameLoop (fuel + 1) data o d = some (d, data.length)) ∧
    (∀ d : List UInt8,
      parseDomainNameLoop (fuel + 1) data data.length d = some (d, data.length)) ∧
    (∀ (o : Nat) (d : List UInt8), o < data.length → byteAt data o / 64 ≠ 3 →
      byteAt data o ≠ 0 → o + 1 + byteAt data o > data.length →
      parseDomainNameLoop (fuel + 1) data o d = some (d, o + 1)) ∧
    (∀ (n off e : Nat) (qs : List DNSQuestion) (name : List UInt8),
      parseDomainName fuel data off = some (name, e) →
      (e + 4 > data.length → parseQuestions fuel data (n + 1) off qs = some (false, e, qs)) ∧
      (e + 4 ≤ data.length →
        parseQuestions fuel data (n + 1) off qs =
          parseQuestions fuel data n (e + 4)
            (qs ++ [⟨name, ntohs16 data e, ntohs16 data (e + 2)⟩]))) ∧
    (∀ (n off e : Nat) (rs : List DNSResourceRecord) (name : List UInt8),
      parseDomainName fuel data off = some (name, e) →
      (e + 10 > data.length →
        parseRecords fuel data (n + 1) off rs = some (false, e, rs)) ∧
      (e + 10 ≤ data.length → e + 10 + ntohs16 data (e + 8) > data.length →
        parseRecords fuel data (n + 1) off rs = some (false, e + 10, rs)) ∧
      (e + 10 ≤ data.length → e + 10 + ntohs16 data (e + 8) ≤ data.length →
        parseRecords fuel data (n + 1) off rs =
          parseRecords fuel data n (e + 10 + ntohs16 data (e + 8))
            (rs ++ [⟨name, ntohs16 data e, ntohs16 data (e + 2), ntohl32 data (e + 4),
              ntohs16 data (e + 8), substr data (e + 10) (ntohs16 data (e + 8))⟩]))) ∧
    (∀ (m : Message) (k off : Nat) (qs : List DNSQuestion) (name : List UInt8),
      12 ≤ data.length → k < ntohs16 data 4 →
      parseQuestions fuel data k 12 [] = some (true, off, qs) →
      parseDomainName fuel data off = some (name, data.length) →
      parseQuery fuel data m = some (false, { m with
          header := ⟨ntohs16 data 0, ntohs16 data 2, ntohs16 data 4, ntohs16 data 6,
            ntohs16 data 8, ntohs16 data 10⟩
          questions := m.questions ++ qs }) ∧
        parseResponse fuel data m = some (false, { m with
          header := ⟨ntohs16 data 0, ntohs16 data 2, ntohs16 data 4, ntohs16 data 6,
            ntohs16 data 8, ntohs16 data 10⟩
          questions := m.questions ++ qs })) ∧
    (∀ (m : Message) (k off1 off : Nat) (qs : List DNSQuestion)
        (rs : List DNSResourceRecord) (name : List UInt8),
      12 ≤ data.length →
      parseQuestions fuel data (ntohs16 data 4) 12 m.questions = some (true, off1, qs) →
      k < ntohs16 data 6 + ntohs16 data 8 + ntohs16 data 10 →
      parseRecords fuel data k off1 [] = some (true, off, rs) →
      parseDomainName fuel data off = some (name, data.length) →
      ∃ m1, parseResponse fuel data m = some (false, m1) ∧
        m1.header = ⟨ntohs16 data 0, ntohs16 data 2, ntohs16 data 4, ntohs16 data 6,
          ntohs16 data 8, ntohs16 data 10⟩ ∧
        m1.questions = qs ∧
        m1.answers.length + m1.authorities.length + m1.additionals.length
          = m.answers.length + m.authorities.length + m.additionals.length + k) := by
  refine ⟨?_, ?_, ?_, ?_, ?_, ?_, ?_⟩
  · intro o d ho htop hend
    have h3 : byteAt data o &&& 0xC0 = 0xC0 := (land_C0_iff _ (byteAt_lt _ _)).2 htop
    have h4 : o + 1 ≥ data.length := by omega
    rw [parseDomainNameLoop]
    simp only [ho, if_true, h3, h4]
    rw [hend]
  · intro d
    rw [parseDomainNameLoop]
    simp
  · intro o d ho htop hnz hlong
    have h3 : ¬ (byteAt data o &&& 0xC0 = 0xC0) := fun h =>
      htop ((land_C0_iff _ (byteAt_lt _ _)).1 h)
    rw [parseDomainNameLoop]
    simp only [ho, if_true, h3, if_false, hnz, hlong]
  · intro n off e qs name hname
    exact parseQuestions_step fuel data n off e qs name hname
  · intro n off e rs name hname
    exact parseRecords_step fuel data n off e rs name hname
  · intro m k off qs name h12 hk hpre hname
    have hf := parseQuestions_fails fuel data (ntohs16 data 4) k off data.length
      m.questions qs name hk hpre hname (by omega)
    constructor
    · rw [parseQuery_long fuel data m h12, hf]
    · unfold parseResponse
      rw [parseHeader_ok data m.header h12]
      simp only [hf]
  · intro m k off1 off qs rs name h12 hq hk hpre hname
    have hbad : parseResourceRecord fuel data off DNSResourceRecord.fresh
        = some (false, data.length, { DNSResourceRecord.fresh with name := name }) := by
      rw [parseResourceRecord, hname]
      simp
    exact parseResponse_fails_at_record fuel data m _ off1 qs k off rs data.length _
      (parseHeader_ok data m.header h12) hq hk hpre hbad

/-- On `unterminatedNameBuf` the label `a` of the question reaches the end of
the buffer: the name decoding stops at offset 14 = `data.size()`, and both
entry points return false with no question added.  On
`unterminatedRecordNameBuf` the same happens to the name of the answer.  On
`longLabelRecordBuf` the name of the answer stops at offset 15 after an
over-long length octet, exactly 10 bytes remain, and the rdlength 4 exceeds the
0 bytes that follow them: the record loop stops with false at offset 25. -/
theorem truncated_name_stops_witness :
    (parseQuery 2 unterminatedNameBuf Message.empty = some (false, { Message.empty with
        header := ⟨ntohs16 unterminatedNameBuf 0, ntohs16 unterminatedNameBuf 2,
          ntohs16 unterminatedNameBuf 4, ntohs16 unterminatedNameBuf 6,
          ntohs16 unterminatedNameBuf 8, ntohs16 unterminatedNameBuf 10⟩
        questions := Message.empty.questions ++ [] }) ∧
      parseResponse 2 unterminatedNameBuf Message.empty = some (false, { Message.empty with
        header := ⟨ntohs16 unterminatedNameBuf 0, ntohs16 unterminatedNameBuf 2,
          ntohs16 unterminatedNameBuf 4, ntohs16 unterminatedNameBuf 6,
          ntohs16 unterminatedNameBuf 8, ntohs16 unterminatedNameBuf 10⟩
        questions := Message.empty.questions ++ [] })) ∧
    (∃ m1, parseResponse 2 unterminatedRecordNameBuf Message.empty = some (false, m1) ∧
      m1.header = ⟨ntohs16 unterminatedRecordNameBuf 0, ntohs16 unterminatedRecordNameBuf 2,
        ntohs16 unterminatedRecordNameBuf 4, ntohs16 unterminatedRecordNameBuf 6,
        ntohs16 unterminatedRecordNameBuf 8, ntohs16 unterminatedRecordNameBuf 10⟩ ∧
      m1.questions = [] ∧
      m1.answers.length + m1.authorities.length + m1.additionals.length
        = Message.empty.answers.length + Message.empty.authorities.length
          + Message.empty.additionals.length + 0) ∧
    parseRecords 2 longLabelRecordBuf (0 + 1) 12 [] = some (false, 15 + 10, []) :=
  ⟨(truncated_name_stops 2 unterminatedNameBuf).2.2.2.2.2.1 Message.empty 0 12 [] [0x61]
      (by decide) (by decide) (by decide) (by decide),
    (truncated_name_stops 2 unterminatedRecordNameBuf).2.2.2.2.2.2 Message.empty 0 12 12 [] []
      [0x61] (by decide) (by decide) (by decide) (by decide) (by decide),
    ((truncated_name_stops 2 longLabelRecordBuf).2.2.2.2.1 0 12 15 [] [0x61]
      (by decide)).2.1 (by decide) (by decide)⟩

/-! ## C16: out-of-range pointers -/

/-- C16 fails on `outOfRangePointerBuf`: the question name is a pointer to
offset 255 of an 18-byte buffer, and `parseQuery` and `parseResponse` return
true, the question having the empty name. -/
theorem out_of_range_pointer_counterexample :
    ((byteAt outOfRangePointerBuf 12 &&& 0x3F) <<< 8) ||| byteAt outOfRangePointerBuf 13
        = 255 ∧
      255 ≥ outOfRangePointerBuf.length ∧
      parseQuery 2 outOfRangePointerBuf Message.empty
        = some (true, ⟨⟨0, 0x0100, 1, 0, 0, 0⟩, [⟨[], 1, 1⟩], [], [], []⟩) ∧
      parseResponse 2 outOfRangePointerBuf Message.empty
        = some (true, ⟨⟨0, 0x0100, 1, 0, 0, 0⟩, [⟨[], 1, 1⟩], [], [], []⟩) := by
  decide

/-- C16 as amended: a compression pointer at offset `o` (second octet inside the
buffer) whose 14-bit offset is greater than or equal to `data.size()` is decoded
as the empty name: `parseDomainName` returns the name built so far and leaves
the offset at `o + 2`.  The enclosing call does not fail because of it.  A
question whose name is such a pointer is added, with the empty name, whenever
at least 4 bytes follow the pointer, and the question loop goes on; the loop
stops there with false only when fewer than 4 bytes follow.  A record whose
name is such a pointer is added, with the empty name, whenever at least 10
bytes follow the pointer and at least rdlength bytes follow those, and the
record loop goes on; the loop stops there with false only when fewer than 10
bytes follow the pointer or fewer than rdlength bytes follow those 10. -/
theorem out_of_range_pointer_is_empty (fuel : Nat) (data : List UInt8) (o : Nat)
    (ho : o + 1 < data.length) (htop : byteAt data o / 64 = 3)
    (hp : ((byteAt data o &&& 0x3F) <<< 8) ||| byteAt data (o + 1) ≥ data.length) :
    (∀ d : List UInt8, parseDomainNameLoop (fuel + 2) data o d = some (d, o + 2)) ∧
    (∀ (n : Nat) (qs : List DNSQuestion),
      (o + 2 + 4 ≤ data.length →
        parseQuestions (fuel + 2) data (n + 1) o qs =
          parseQuestions (fuel + 2) data n (o + 2 + 4)
            (qs ++ [⟨[], ntohs16 data (o + 2), ntohs16 data (o + 2 + 2)⟩])) ∧
      (o + 2 + 4 > data.length →
        parseQuestions (fuel + 2) data (n + 1) o qs = some (false, o + 2, qs))) ∧
    (∀ (n : Nat) (rs : List DNSResourceRecord),
      (o + 2 + 10 ≤ data.length → o + 2 + 10 + ntohs16 data (o + 2 + 8) ≤ data.length →
        parseRecords (fuel + 2) data (n + 1) o rs =
          parseRecords (fuel + 2) data n (o + 2 + 10 + ntohs16 data (o + 2 + 8))
            (rs ++ [⟨[], ntohs16 data (o + 2), ntohs16 data (o + 2 + 2),
              ntohl32 data (o + 2 + 4), ntohs16 data (o + 2 + 8),
              substr data (o + 2 + 10) (ntohs16 data (o + 2 + 8))⟩])) ∧
      (o + 2 + 10 > data.length →
        parseRecords (fuel + 2) data (n + 1) o rs = some (false, o + 2, rs)) ∧
      (o + 2 + 10 ≤ data.length → o + 2 + 10 + ntohs16 data (o + 2 + 8) > data.length →
        parseRecords (fuel + 2) data (n + 1) o rs = some (false, o + 2 + 10, rs))) := by
  have hloop : ∀ d : List UInt8, parseDomainNameLoop (fuel + 2) data o d = some (d, o + 2) := by
    intro d
    have h1 : o < data.length := by omega
    have h2 : ¬ (o + 1 ≥ data.length) := by omega
    have h3 : byteAt data o &&& 0xC0 = 0xC0 := (land_C0_iff _ (byteAt_lt _ _)).2 htop
    have h4 : ¬ (((byteAt data o &&& 0x3F) <<< 8) ||| byteAt data (o + 1) < data.length) := by
      omega
    have htarget : parseDomainNameLoop (fuel + 1) data
        (((byteAt data o &&& 0x3F) <<< 8) ||| byteAt data (o + 1)) []
        = some ([], ((byteAt data o &&& 0x3F) <<< 8) ||| byteAt data (o + 1)) := by
      rw [parseDomainNameLoop]
      simp only [h4, if_false]
    rw [parseDomainNameLoop]
    simp only [h1, if_true, h3, h2, if_false, htarget, List.append_nil]
  have hname : parseDomainName (fuel + 2) data o = some ([], o + 2) := hloop []
  refine ⟨hloop, ?_, ?_⟩
  · intro n qs
    constructor
    · intro hfits
      have h4 : ¬ o + 2 + 4 > data.length := by omega
      rw [parseQuestions, hname]
      simp only [h4, if_false, DNSQuestion.fresh]
    · intro hshort
      rw [parseQuestions, hname]
      simp [hshort]
  · intro n rs
    have hstep := parseRecords_step (fuel + 2) data n o (o + 2) rs [] hname
    exact ⟨hstep.2.2, hstep.1, hstep.2.1⟩

/-- The pointer `C0 FF` at offset 12 of `outOfRangePointerBuf`: the name is
empty, the offset 14, and the question is added.  The same pointer as the name
of the answer of `outOfRangePointerRecordBuf`: the record is added with the
empty name. -/
theorem out_of_range_pointer_is_empty_witness :
    ((∀ d : List UInt8, parseDomainNameLoop (0 + 2) outOfRangePointerBuf 12 d
        = some (d, 12 + 2)) ∧
      (∀ (n : Nat) (qs : List DNSQuestion),
        (12 + 2 + 4 ≤ outOfRangePointerBuf.length →
          parseQuestions (0 + 2) outOfRangePointerBuf (n + 1) 12 qs =
            parseQuestions (0 + 2) outOfRangePointerBuf n (12 + 2 + 4)
              (qs ++ [⟨[], ntohs16 outOfRangePointerBuf (12 + 2),
                ntohs16 outOfRangePointerBuf (12 + 2 + 2)⟩])) ∧
        (12 + 2 + 4 > outOfRangePointerBuf.length →
          parseQuestions (0 + 2) outOfRangePointerBuf (n + 1) 12 qs
            = some (false, 12 + 2, qs)))) ∧
    parseRecords (0 + 2) outOfRangePointerRecordBuf (0 + 1) 12 [] =
      parseRecords (0 + 2) outOfRangePointerRecordBuf 0
        (12 + 2 + 10 + ntohs16 outOfRangePointerRecordBuf (12 + 2 + 8))
        ([] ++ [⟨[], ntohs16 outOfRangePointerRecordBuf (12 + 2),
          ntohs16 outOfRangePointerRecordBuf (12 + 2 + 2),
          ntohl32 outOfRangePointerRecordBuf (12 + 2 + 4),
          ntohs16 outOfRangePointerRecordBuf (12 + 2 + 8),
          substr outOfRangePointerRecordBuf (12 + 2 + 10)
            (ntohs16 outOfRangePointerRecordBuf (12 + 2 + 8))⟩]) :=
  ⟨⟨(out_of_range_pointer_is_empty 0 outOfRangePointerBuf 12 (by decide) (by decide)
        (by decide)).1,
      (out_of_range_pointer_is_empty 0 outOfRangePointerBuf 12 (by decide) (by decide)
        (by decide)).2.1⟩,
    ((out_of_range_pointer_is_empty 0 outOfRangePointerRecordBuf 12 (by decide) (by decide)
      (by decide)).2.2 0 []).1 (by decide) (by decide)⟩

/-! ## C18: label lengths -/

theorem parseDomainNameLoopL_fst :
    ∀ (fuel : Nat) (data : List UInt8) (offset : Nat) (domain : List UInt8),
      (parseDomainNameLoopL fuel data offset domain).1
        = parseDomainNameLoop fuel data offset domain := by
  intro fuel
  induction fuel with
  | zero => intro data offset domain; rfl
  | succ n ih =>
    intro data offset domain
    rw [parseDomainNameLoopL, parseDomainNameLoop]
    by_cases h1 : offset < data.length
    · simp only [h1, if_true]
      by_cases h2 : byteAt data offset &&& 0xC0 = 0xC0
      · simp only [h2, if_true]
        by_cases h3 : offset + 1 ≥ data.length
        · simp only [h3, if_true]
        · simp only [h3, if_false]
          rw [← ih]
          rcases parseDomainNameLoopL n data
            (((byteAt data offset &&& 0x3F) <<< 8) ||| byteAt data (offset + 1)) []
            with ⟨_ | ⟨sub, e⟩, rs⟩ <;> rfl
      · simp only [h2, if_false]
        by_cases h3 : byteAt data offset = 0
        · simp only [h3, if_true]
        · simp only [h3, if_false]
          by_cases h4 : offset + 1 + byteAt data offset > data.length
          · simp only [h4, if_true]
          · simp only [h4, if_false]
            rw [← ih]
    · simp only [h1, if_false]

/-- Every label appended is the `len` bytes after a length octet `len` that lies
in the buffer, has not the top two bits `11`, is not 0 and does not announce
more bytes than remain. -/
theorem parseDomainNameLoopL_labels :
    ∀ (fuel : Nat) (data : List UInt8) (offset : Nat) (domain : List UInt8),
      ∀ p ∈ (parseDomainNameLoopL fuel data offset domain).2,
        p.1 < data.length ∧ byteAt data p.1 / 64 ≠ 3 ∧ byteAt data p.1 ≠ 0 ∧
          p.1 + 1 + byteAt data p.1 ≤ data.length ∧
          p.2 = substr data (p.1 + 1) (byteAt data p.1) := by
  intro fuel
  induction fuel with
  | zero => intro data offset domain p hp; simp [parseDomainNameLoopL] at hp
  | succ n ih =>
    intro data offset domain p hp
    rw [parseDomainNameLoopL] at hp
    by_cases h1 : offset < data.length
    · simp only [h1, if_true] at hp
      by_cases h2 : byteAt data offset &&& 0xC0 = 0xC0
      · simp only [h2, if_true] at hp
        by_cases h3 : offset + 1 ≥ data.length
        · simp [h3] at hp
        · simp only [h3, if_false] at hp
          have hrec := ih data
            (((byteAt data offset &&& 0x3F) <<< 8) ||| byteAt data (offset + 1)) []
          rcases hq : parseDomainNameLoopL n data
            (((byteAt data offset &&& 0x3F) <<< 8) ||| byteAt data (offset + 1)) []
            with ⟨_ | ⟨sub, e⟩, rs⟩ <;>
          · rw [hq] at hp hrec
            exact hrec p hp
      · simp only [h2, if_false] at hp
        by_cases h3 : byteAt data offset = 0
        · simp [h3] at hp
        · simp only [h3, if_false] at hp
          by_cases h4 : offset + 1 + byteAt data offset > data.length
          · simp [h4] at hp
          · simp only [h4, if_false, List.mem_cons] at hp
            rcases hp with hp | hp
            · subst hp
              have htop : byteAt data offset / 64 ≠ 3 := fun h =>
                h2 ((land_C0_iff _ (byteAt_lt _ _)).2 h)
              refine ⟨h1, htop, h3, ?_, rfl⟩
              show offset + 1 + byteAt data offset ≤ data.length
              omega
            · exact ih _ _ _ p hp
    · simp [h1] at hp

/-- C18 fails on `label64Buf`: the length octet 64, whose top two bits are `01`,
is consumed as the length of a label, and the 64-byte label is appended to the
name. -/
theorem label_length_counterexample :
    byteAt label64Buf 0 = 64 ∧
      parseDomainName 2 label64Buf 0 = some (List.replicate 64 0x61, 66) ∧
      (parseDomainNameLoopL 2 label64Buf 0 []).2 = [(0, List.replicate 64 0x61)] ∧
      ¬ ((List.replicate 64 (0x61 : UInt8)).length ≤ 63) := by
  decide

/-- C18 as amended: for every buffer and start offset, every label that
`parseDomainName` reads and appends to a name (also while decoding a pointer
target, and also on a run that never returns) is between 1 and 191 bytes long:
its length is the value of its length octet, which is any octet other than 0
whose top two bits are not `11`; a length octet in the range 64 to 191 (top two
bits `01` or `10`) is consumed as the length of a label. -/
theorem label_length_range (fuel : Nat) (data : List UInt8) (offset : Nat) :
    (parseDomainNameLoopL fuel data offset []).1 = parseDomainName fuel data offset ∧
    (∀ p ∈ (parseDomainNameLoopL fuel data offset []).2,
      p.2.length = byteAt data p.1 ∧ 1 ≤ p.2.length ∧ p.2.length ≤ 191) ∧
    (∀ (o : Nat) (d : List UInt8), 64 ≤ byteAt data o → byteAt data o ≤ 191 →
      o + 1 + byteAt data o ≤ data.length →
      (parseDomainNameLoopL (fuel + 1) data o d).2.head?
        = some (o, substr data (o + 1) (byteAt data o))) := by
  refine ⟨parseDomainNameLoopL_fst fuel data offset [], ?_, ?_⟩
  · intro p hp
    obtain ⟨h1, h2, h3, h4, h5⟩ := parseDomainNameLoopL_labels fuel data offset [] p hp
    have hlt := byteAt_lt data p.1
    have hlen : p.2.length = byteAt data p.1 := by
      rw [h5, substr_length _ _ _ (by omega)]
    rw [hlen]
    exact ⟨rfl, by omega, by omega⟩
  · intro o d h64 h191 hfit
    have h1 : o < data.length := by omega
    have h2 : ¬ (byteAt data o &&& 0xC0 = 0xC0) := by
      rw [land_C0_iff _ (byteAt_lt _ _)]
      omega
    have h3 : ¬ byteAt data o = 0 := by omega
    have h4 : ¬ (o + 1 + byteAt data o > data.length) := by omega
    rw [parseDomainNameLoopL]
    simp only [h1, if_true, h2, if_false, h3, h4, List.head?_cons]

/-- On `label64Buf` the length octet 64 at offset 0 is consumed as a label
length. -/
theorem label_length_range_witness :
    (parseDomainNameLoopL (1 + 1) label64Buf 0 []).2.head?
      = some (0, substr label64Buf (0 + 1) (byteAt label64Buf 0)) :=
  (label_length_range 1 label64Buf 0).2.2 0 [] (by decide) (by decide) (by decide)

/-! ## C17: empty labels -/

theorem noEmptyLabel_nil : noEmptyLabel [] := by
  refine ⟨?_, ?_, List.chain'_nil⟩ <;> simp

theorem noEmptyLabel_of_no_dot (l : List UInt8) (h : dot ∉ l) : noEmptyLabel l := by
  refine ⟨?_, ?_, ?_⟩
  · intro hh
    exact h (List.mem_of_mem_head? hh)
  · intro hh
    exact h (List.mem_of_mem_getLast? hh)
  · apply List.Pairwise.chain'
    apply List.pairwise_of_forall_mem_list
    intro a ha b _ hab
    exact h (hab.1 ▸ ha)

theorem noEmptyLabel_append (a b : List UInt8) (ha : noEmptyLabel a) (hb : noEmptyLabel b) :
    noEmptyLabel (a ++ b) := by
  obtain ⟨ha1, ha2, ha3⟩ := ha
  obtain ⟨hb1, hb2, hb3⟩ := hb
  refine ⟨?_, ?_, ?_⟩
  · cases a with
    | nil => simpa using hb1
    | cons x xs => simpa using ha1
  · rw [List.getLast?_append]
    cases hlast : b.getLast? with
    | none => simpa using ha2
    | some y =>
      rw [hlast] at hb2
      simpa using hb2
  · apply List.Chain'.append ha3 hb3
    intro x hx y _ hxy
    apply ha2
    rw [← hxy.1]
    exact hx

theorem noEmptyLabel_separator (d l : List UInt8) (hd : noEmptyLabel d) (hdne : d ≠ [])
    (hl : dot ∉ l) (hlne : l ≠ []) : noEmptyLabel (d ++ [dot] ++ l) := by
  obtain ⟨hd1, hd2, hd3⟩ := hd
  obtain ⟨hl1, hl2, hl3⟩ := noEmptyLabel_of_no_dot l hl
  refine ⟨?_, ?_, ?_⟩
  · cases d with
    | nil => exact absurd rfl hdne
    | cons x xs => simpa using hd1
  · rw [List.getLast?_append]
    cases hlast : l.getLast? with
    | none => exact absurd (List.getLast?_eq_none_iff.1 hlast) hlne
    | some y =>
      rw [hlast] at hl2
      simpa using hl2
  · rw [List.append_assoc]
    apply List.Chain'.append hd3
    · apply List.Chain'.cons' hl3
      intro y hy hdy
      apply hl1
      rw [← hdy.2]
      exact hy
    · intro x hx y _ hxy
      apply hd2
      rw [← hxy.1]
      exact hx

/-- The name built by the loop has no empty label when the name it started from
has none and no appended label holds a `'.'`. -/
theorem parseDomainNameLoopL_noEmptyLabel :
    ∀ (fuel : Nat) (data : List UInt8) (offset : Nat) (domain name : List UInt8) (e : Nat)
      (labels : List (Nat × List UInt8)),
      parseDomainNameLoopL fuel data offset domain = (some (name, e), labels) →
      noEmptyLabel domain → (∀ p ∈ labels, dot ∉ p.2) → noEmptyLabel name := by
  intro fuel
  induction fuel with
  | zero => intro data offset domain name e labels h; simp [parseDomainNameLoopL] at h
  | succ n ih =>
    intro data offset domain name e labels h hd hl
    rw [parseDomainNameLoopL] at h
    by_cases h1 : offset < data.length
    · simp only [h1, if_true] at h
      by_cases h2 : byteAt data offset &&& 0xC0 = 0xC0
      · simp only [h2, if_true] at h
        by_cases h3 : offset + 1 ≥ data.length
        · simp only [h3, if_true, Prod.mk.injEq, Option.some.injEq] at h
          rw [← h.1.1]; exact hd
        · simp only [h3, if_false] at h
          rcases hq : parseDomainNameLoopL n data
            (((byteAt data offset &&& 0x3F) <<< 8) ||| byteAt data (offset + 1)) []
            with ⟨_ | ⟨sub, e1⟩, ls⟩
          · simp [hq] at h
          · simp only [hq, Prod.mk.injEq, Option.some.injEq] at h
            obtain ⟨⟨hname, -⟩, hls⟩ := h
            subst hname hls
            exact noEmptyLabel_append _ _ hd (ih _ _ _ _ _ _ hq noEmptyLabel_nil hl)
      · simp only [h2, if_false] at h
        by_cases h3 : byteAt data offset = 0
        · simp only [h3, if_true, Prod.mk.injEq, Option.some.injEq] at h
          rw [← h.1.1]; exact hd
        · simp only [h3, if_false] at h
          by_cases h4 : offset + 1 + byteAt data offset > data.length
          · simp only [h4, if_true, Prod.mk.injEq, Option.some.injEq] at h
            rw [← h.1.1]; exact hd
          · simp only [h4, if_false] at h
            rcases hq : parseDomainNameLoopL n data (offset + 1 + byteAt data offset)
              ((if domain ≠ [] then domain ++ [dot] else domain)
                ++ substr data (offset + 1) (byteAt data offset)) with ⟨r, ls⟩
            rw [hq] at h
            simp only [Prod.mk.injEq] at h
            obtain ⟨hr, hls⟩ := h
            subst hr hls
            have hlab : dot ∉ substr data (offset + 1) (byteAt data offset) :=
              hl (offset, substr data (offset + 1) (byteAt data offset)) (by simp)
            have hne : substr data (offset + 1) (byteAt data offset) ≠ [] := by
              intro hnil
              have := substr_length data (offset + 1) (byteAt data offset) (by omega)
              rw [hnil] at this
              simp at this
              omega
            apply ih _ _ _ _ _ _ hq
            · by_cases hdn : domain = []
              · simp only [hdn, ne_eq, not_true_eq_false, if_false, List.nil_append]
                exact noEmptyLabel_of_no_dot _ hlab
              · simp only [ne_eq, hdn, not_false_eq_true, if_true]
                exact noEmptyLabel_separator _ _ hd hdn hlab hne
            · intro p hp
              exact hl p (by simp [hp])
    · simp only [h1, if_false, Prod.mk.injEq, Option.some.injEq] at h
      rw [← h.1.1]; exact hd

/-- C17 fails on `dotLabelBuf`: the only label is the byte `'.'`, and the
returned name `.` begins and ends with `'.'`. -/
theorem empty_label_counterexample :
    parseDomainName 2 dotLabelBuf 0 = some ([dot], 3) ∧
      ([dot] : List UInt8).head? = some dot ∧ ([dot] : List UInt8).getLast? = some dot ∧
      ¬ noEmptyLabel [dot] := by
  decide

/-- C17 as amended: for every buffer and every start offset on which
`parseDomainName` returns, if none of the labels it appended contains the byte
`'.'`, the returned name does not begin with `'.'`, does not end with `'.'` and
contains no two adjacent `'.'` characters: the separators the decoder inserts
never create an empty label. -/
theorem no_empty_label (fuel : Nat) (data : List UInt8) (offset : Nat)
    (name : List UInt8) (e : Nat)
    (h : parseDomainName fuel data offset = some (name, e))
    (hl : ∀ p ∈ (parseDomainNameLoopL fuel data offset []).2, dot ∉ p.2) :
    name.head? ≠ some dot ∧ name.getLast? ≠ some dot ∧
      List.Chain' (fun a b => ¬ (a = dot ∧ b = dot)) name := by
  have hfst := parseDomainNameLoopL_fst fuel data offset []
  unfold parseDomainName at h
  rw [h] at hfst
  rcases hq : parseDomainNameLoopL fuel data offset [] with ⟨r, ls⟩
  rw [hq] at hfst hl
  simp only at hfst
  subst hfst
  exact parseDomainNameLoopL_noEmptyLabel fuel data offset [] name e ls hq noEmptyLabel_nil hl

/-- The name `www.example.com` of the response test packet, decoded through the
pointer at offset 33. -/
theorem no_empty_label_witness :
    wwwExampleCom.head? ≠ some dot ∧ wwwExampleCom.getLast? ≠ some dot ∧
      List.Chain' (fun a b => ¬ (a = dot ∧ b = dot)) wwwExampleCom :=
  no_empty_label 5 responseTestBuf 33 wwwExampleCom 35 (by decide) (by decide)

/-! ## C19: the end-to-end query scenario -/

/-- C19 fails on the 31 bytes as written: `parseQuery` returns true with
transaction id `0xAAAA`, flags `0x0100` and exactly one question, but the
header's additional count is `0x0377` and the question has the empty name,
type `0x7707` and class `0x6578`, not `www.example.com`, 1 and 1. -/
theorem query_scenario_counterexample :
    queryScenarioBuf.length = 31 ∧
      parseQuery 4 queryScenarioBuf Message.empty
        = some (true, ⟨⟨0xAAAA, 0x0100, 1, 0, 0, 0x0377⟩, [⟨[], 0x7707, 0x6578⟩],
            [], [], []⟩) ∧
      (⟨[], 0x7707, 0x6578⟩ : DNSQuestion) ≠ ⟨wwwExampleCom, 1, 1⟩ := by
  decide

/-- Fuel does not matter beyond what a result needs, for the name of a
question. -/
theorem parseDomainName_fuel_add (k fuel : Nat) (data : List UInt8) (offset : Nat)
    (r : List UInt8 × Nat) (h : parseDomainName fuel data offset = some r) :
    parseDomainName (fuel + k) data offset = some r :=
  parseDomainNameLoop_fuel_add k fuel data offset [] r h

/-- C19 as amended: on the 33 bytes
`AAAA 0100 0001 0000 0000 0000 03777777076578616D706C6503636F6D00 0001 0001`
(the hex string with its missing sixth header field restored) and an empty
`Message`, `parseQuery` returns true and yields transaction id `0xAAAA`, flags
`0x0100`, exactly 1 question, whose name is `www.example.com`, type 1 and
class 1; the 31 bytes as written are these 33 without the bytes 10 and 11, and
on them `parseQuery` returns true with the same id and flags and 1 question,
whose name is empty, type `0x7707` and class `0x6578`. -/
theorem query_scenario (k : Nat) :
    queryTestBuf.length = 33 ∧
      parseQuery (4 + k) queryTestBuf Message.empty
        = some (true, ⟨⟨0xAAAA, 0x0100, 1, 0, 0, 0⟩, [⟨wwwExampleCom, 1, 1⟩], [], [], []⟩) ∧
      queryScenarioBuf = queryTestBuf.take 10 ++ queryTestBuf.drop 12 ∧
      parseQuery (1 + k) queryScenarioBuf Message.empty
        = some (true, ⟨⟨0xAAAA, 0x0100, 1, 0, 0, 0x0377⟩, [⟨[], 0x7707, 0x6578⟩],
            [], [], []⟩) := by
  have hn1 : parseDomainName (4 + k) queryTestBuf 12 = some (wwwExampleCom, 29) :=
    parseDomainName_fuel_add k 4 _ _ _ (by decide)
  have hn2 : parseDomainName (1 + k) queryScenarioBuf 12 = some ([], 13) :=
    parseDomainName_fuel_add k 1 _ _ _ (by decide)
  have hh1 : parseHeader queryTestBuf 0 Message.empty.header
      = (true, 12, ⟨0xAAAA, 0x0100, 1, 0, 0, 0⟩) := by decide
  have hh2 : parseHeader queryScenarioBuf 0 Message.empty.header
      = (true, 12, ⟨0xAAAA, 0x0100, 1, 0, 0, 0x0377⟩) := by decide
  refine ⟨by decide, ?_, by decide, ?_⟩
  · unfold parseQuery
    rw [hh1]
    simp only [parseQuestions, hn1]
    decide
  · unfold parseQuery
    rw [hh2]
    simp only [parseQuestions, hn2]
    decide

/-! ## C20: what a failed call leaves in the message -/

theorem parseQuestions_extends (fuel : Nat) (data : List UInt8) (n offset : Nat)
    (qs qs1 : List DNSQuestion) (b : Bool) (o : Nat)
    (h : parseQuestions fuel data n offset qs = some (b, o, qs1)) :
    ∃ ext, qs1 = qs ++ ext := by
  rw [parseQuestions_acc] at h
  cases hq : parseQuestions fuel data n offset [] with
  | none => simp [hq] at h
  | some v =>
    simp only [hq, Option.map_some', Option.some.injEq, Prod.mk.injEq] at h
    exact ⟨v.2.2, h.2.2.symm⟩

theorem parseRecords_extends (fuel : Nat) (data : List UInt8) (n offset : Nat)
    (rs rs1 : List DNSResourceRecord) (b : Bool) (o : Nat)
    (h : parseRecords fuel data n offset rs = some (b, o, rs1)) :
    ∃ ext, rs1 = rs ++ ext := by
  rw [parseRecords_acc] at h
  cases hq : parseRecords fuel data n offset [] with
  | none => simp [hq] at h
  | some v =>
    simp only [hq, Option.map_some', Option.some.injEq, Prod.mk.injEq] at h
    exact ⟨v.2.2, h.2.2.symm⟩

/-- Whatever `parseQuery` returns on a buffer of at least 12 bytes, it has
overwritten the header and only appended to the questions. -/
theorem parseQuery_result (fuel : Nat) (data : List UInt8) (m m1 : Message) (b : Bool)
    (h12 : 12 ≤ data.length) (h : parseQuery fuel data m = some (b, m1)) :
    m1.header = (parseHeader data 0 m.header).2.2 ∧
      (∃ ext, m1.questions = m.questions ++ ext) ∧
      m1.answers = m.answers ∧ m1.authorities = m.authorities ∧
      m1.additionals = m.additionals := by
  rw [parseQuery_long fuel data m h12] at h
  rw [parseHeader_ok data m.header h12]
  cases hq : parseQuestions fuel data (ntohs16 data 4) 12 m.questions with
  | none => simp [hq] at h
  | some v =>
    obtain ⟨ok, o, qs⟩ := v
    simp only [hq, Option.some.injEq, Prod.mk.injEq] at h
    obtain ⟨-, hm⟩ := h
    subst hm
    exact ⟨rfl, parseQuestions_extends fuel data _ _ _ _ _ _ hq, rfl, rfl, rfl⟩

/-- Whatever `parseResponse` returns on a buffer of at least 12 bytes, it has
overwritten the header and only appended to the four sections. -/
theorem parseResponse_result (fuel : Nat) (data : List UInt8) (m m1 : Message) (b : Bool)
    (h12 : 12 ≤ data.length) (h : parseResponse fuel data m = some (b, m1)) :
    m1.header = (parseHeader data 0 m.header).2.2 ∧
      (∃ ext, m1.questions = m.questions ++ ext) ∧
      (∃ ext, m1.answers = m.answers ++ ext) ∧
      (∃ ext, m1.authorities = m.authorities ++ ext) ∧
      (∃ ext, m1.additionals = m.additionals ++ ext) := by
  unfold parseResponse at h
  rw [parseHeader_ok data m.header h12] at h ⊢
  simp only at h
  rcases hq : parseQuestions fuel data (ntohs16 data 4) 12 m.questions
    with _ | ⟨_ | _, o1, qs⟩
  · simp [hq] at h
  · simp only [hq, Option.some.injEq, Prod.mk.injEq] at h
    obtain ⟨-, hm⟩ := h
    subst hm
    exact ⟨rfl, parseQuestions_extends fuel data _ _ _ _ _ _ hq, ⟨[], by simp⟩,
      ⟨[], by simp⟩, ⟨[], by simp⟩⟩
  · simp only [hq] at h
    have e1 := parseQuestions_extends fuel data _ _ _ _ _ _ hq
    rcases ha : parseRecords fuel data (ntohs16 data 6) o1 m.answers
      with _ | ⟨_ | _, o2, an⟩
    · simp [ha] at h
    · simp only [ha, Option.some.injEq, Prod.mk.injEq] at h
      obtain ⟨-, hm⟩ := h
      subst hm
      exact ⟨rfl, e1, parseRecords_extends fuel data _ _ _ _ _ _ ha, ⟨[], by simp⟩,
        ⟨[], by simp⟩⟩
    · simp only [ha] at h
      have e2 := parseRecords_extends fuel data _ _ _ _ _ _ ha
      rcases hn : parseRecords fuel data (ntohs16 data 8) o2 m.authorities
        with _ | ⟨_ | _, o3, ns⟩
      · simp [hn] at h
      · simp only [hn, Option.some.injEq, Prod.mk.injEq] at h
        obtain ⟨-, hm⟩ := h
        subst hm
        exact ⟨rfl, e1, e2, parseRecords_extends fuel data _ _ _ _ _ _ hn, ⟨[], by simp⟩⟩
      · simp only [hn] at h
        have e3 := parseRecords_extends fuel data _ _ _ _ _ _ hn
        rcases hx : parseRecords fuel data (ntohs16 data 10) o3 m.additionals
          with _ | ⟨ok, o4, ar⟩
        · simp [hx] at h
        · simp only [hx, Option.some.injEq, Prod.mk.injEq] at h
          obtain ⟨-, hm⟩ := h
          subst hm
          exact ⟨rfl, e1, e2, e3, parseRecords_extends fuel data _ _ _ _ _ _ hx⟩

/-- The two recordings on `forwardPointerQueryBuf`: the reads at the cursor are
the header, the two pointer octets and the type and class; the full trace has in
addition the five bytes of the pointer target at 18..22. -/
theorem parseQueryOwn_forwardPointer :
    (parseQueryOwn 3 forwardPointerQueryBuf Message.empty).2.1
        = List.range' 0 12 ++ [12, 13] ++ List.range' 14 4 ∧
      (parseQueryOwn 3 forwardPointerQueryBuf Message.empty).2.2 = 18 ∧
      (parseQueryT 3 forwardPointerQueryBuf Message.empty).2
        = List.range' 0 12 ++ [12, 13] ++ List.range' 18 5 ++ List.range' 14 4 := by
  decide

/-! ## C21: the cursor stays in bounds and never moves backward -/

/-- Started inside the buffer or at its end, the name loop stops at an offset
that is not below the start, not beyond the buffer end, and strictly above the
start when the start is inside the buffer. -/
theorem parseDomainNameLoop_bounds :
    ∀ (fuel : Nat) (data : List UInt8) (s : Nat) (domain name : List UInt8) (f : Nat),
      s ≤ data.length → parseDomainNameLoop fuel data s domain = some (name, f) →
      s ≤ f ∧ f ≤ data.length ∧ (s < data.length → s < f) := by
  intro fuel
  induction fuel with
  | zero => intro data s domain name f _ h; simp [parseDomainNameLoop] at h
  | succ n ih =>
    intro data s domain name f hs h
    rw [parseDomainNameLoop] at h
    by_cases h1 : s < data.length
    · simp only [h1, if_true] at h
      by_cases h2 : byteAt data s &&& 0xC0 = 0xC0
      · simp only [h2, if_true] at h
        by_cases h3 : s + 1 ≥ data.length
        · simp only [h3, if_true, Option.some.injEq, Prod.mk.injEq] at h
          omega
        · simp only [h3, if_false] at h
          rcases hp : parseDomainNameLoop n data
            (((byteAt data s &&& 0x3F) <<< 8) ||| byteAt data (s + 1)) []
            with _ | ⟨sub, e1⟩
          · simp [hp] at h
          · simp only [hp, Option.some.injEq, Prod.mk.injEq] at h
            omega
      · simp only [h2, if_false] at h
        by_cases h3 : byteAt data s = 0
        · simp only [h3, if_true, Option.some.injEq, Prod.mk.injEq] at h
          omega
        · simp only [h3, if_false] at h
          by_cases h4 : s + 1 + byteAt data s > data.length
          · simp only [h4, if_true, Option.some.injEq, Prod.mk.injEq] at h
            omega
          · simp only [h4, if_false] at h
            have := ih data (s + 1 + byteAt data s) _ name f (by omega) h
            omega
    · simp only [h1, if_false, Option.some.injEq, Prod.mk.injEq] at h
      omega

/-- The question loop, started inside the buffer or at its end, stops there
too, whatever it returns. -/
theorem parseQuestions_bounds (fuel : Nat) (data : List UInt8) :
    ∀ (n off : Nat) (qs qs1 : List DNSQuestion) (b : Bool) (e : Nat),
      off ≤ data.length → parseQuestions fuel data n off qs = some (b, e, qs1) →
      off ≤ e ∧ e ≤ data.length := by
  intro n
  induction n with
  | zero =>
    intro off qs qs1 b e hoff h
    simp only [parseQuestions, Option.some.injEq, Prod.mk.injEq] at h
    omega
  | succ n ih =>
    intro off qs qs1 b e hoff h
    rw [parseQuestions] at h
    rcases hn : parseDomainName fuel data off with _ | ⟨name, e1⟩
    · simp [hn] at h
    · have hb := parseDomainNameLoop_bounds fuel data off [] name e1 hoff hn
      simp only [hn] at h
      by_cases h4 : e1 + 4 > data.length
      · simp only [h4, if_true, Option.some.injEq, Prod.mk.injEq] at h
        omega
      · simp only [h4, if_false] at h
        have := ih _ _ _ _ _ (by omega) h
        omega

/-- The record decoder, started inside the buffer or at its end, stops there
too, whatever it returns. -/
theorem parseResourceRecord_bounds (fuel : Nat) (data : List UInt8) (off : Nat)
    (rr0 rr : DNSResourceRecord) (b : Bool) (e : Nat) (hoff : off ≤ data.length)
    (h : parseResourceRecord fuel data off rr0 = some (b, e, rr)) :
    off ≤ e ∧ e ≤ data.length := by
  unfold parseResourceRecord at h
  rcases hn : parseDomainName fuel data off with _ | ⟨name, e1⟩
  · simp [hn] at h
  · have hb := parseDomainNameLoop_bounds fuel data off [] name e1 hoff hn
    simp only [hn] at h
    by_cases h1 : e1 + 10 > data.length
    · simp only [h1, if_true, Option.some.injEq, Prod.mk.injEq] at h
      omega
    · simp only [h1, if_false] at h
      by_cases h2 : e1 + 2 + 2 + 4 + 2 + ntohs16 data (e1 + 2 + 2 + 4) > data.length
      · simp only [h2, if_true, Option.some.injEq, Prod.mk.injEq] at h
        omega
      · simp only [h2, if_false, Option.some.injEq, Prod.mk.injEq] at h
        omega

/-- A record loop, started inside the buffer or at its end, stops there too,
whatever it returns. -/
theorem parseRecords_bounds (fuel : Nat) (data : List UInt8) :
    ∀ (n off : Nat) (rs rs1 : List DNSResourceRecord) (b : Bool) (e : Nat),
      off ≤ data.length → parseRecords fuel data n off rs = some (b, e, rs1) →
      off ≤ e ∧ e ≤ data.length := by
  intro n
  induction n with
  | zero =>
    intro off rs rs1 b e hoff h
    simp only [parseRecords, Option.some.injEq, Prod.mk.injEq] at h
    omega
  | succ n ih =>
    intro off rs rs1 b e hoff h
    rw [parseRecords] at h
    rcases hr : parseResourceRecord fuel data off DNSResourceRecord.fresh
      with _ | ⟨_ | _, e1, rr⟩
    · simp [hr] at h
    · have hb := parseResourceRecord_bounds fuel data off _ _ _ _ hoff hr
      simp only [hr, Option.some.injEq, Prod.mk.injEq] at h
      omega
    · have hb := parseResourceRecord_bounds fuel data off _ _ _ _ hoff hr
      simp only [hr] at h
      have := ih _ _ _ _ _ (by omega) h
      omega

/-- C21: for every buffer and every start offset `s <= data.size()`, whenever
`parseDomainName` returns, the final offset `f` satisfies
`s <= f <= data.size()`, and `f > s` when `s < data.size()`.  Consequently the
offset tested by the guards `offset + 4 > data.size()` and
`offset + 10 > data.size()` is at most `data.size()`: the question loop and the
record loops, started at an offset within the buffer (12 after the header, then
where the previous loop stopped), begin every name at an offset within the
buffer, reach their guard at an offset within the buffer and stop at an offset
within the buffer. -/
theorem cursor_stays_in_bounds (fuel : Nat) (data : List UInt8) :
    (∀ (s : Nat) (name : List UInt8) (f : Nat), s ≤ data.length →
      parseDomainName fuel data s = some (name, f) →
      s ≤ f ∧ f ≤ data.length ∧ (s < data.length → s < f)) ∧
    (∀ (start k off e : Nat) (qs0 qs : List DNSQuestion) (name : List UInt8),
      start ≤ data.length →
      parseQuestions fuel data k start qs0 = some (true, off, qs) →
      parseDomainName fuel data off = some (name, e) →
      off ≤ data.length ∧ off ≤ e ∧ e ≤ data.length) ∧
    (∀ (start k off e : Nat) (rs0 rs : List DNSResourceRecord) (name : List UInt8),
      start ≤ data.length →
      parseRecords fuel data k start rs0 = some (true, off, rs) →
      parseDomainName fuel data off = some (name, e) →
      off ≤ data.length ∧ off ≤ e ∧ e ≤ data.length) ∧
    (∀ (start n e : Nat) (qs0 qs : List DNSQuestion) (b : Bool),
      start ≤ data.length →
      parseQuestions fuel data n start qs0 = some (b, e, qs) →
      start ≤ e ∧ e ≤ data.length) ∧
    (∀ (start n e : Nat) (rs0 rs : List DNSResourceRecord) (b : Bool),
      start ≤ data.length →
      parseRecords fuel data n start rs0 = some (b, e, rs) →
      start ≤ e ∧ e ≤ data.length) := by
  refine ⟨?_, ?_, ?_, ?_, ?_⟩
  · intro s name f hs h
    exact parseDomainNameLoop_bounds fuel data s [] name f hs h
  · intro start k off e qs0 qs name hs hq hn
    have h1 := parseQuestions_bounds fuel data k start qs0 qs true off hs hq
    have h2 := parseDomainNameLoop_bounds fuel data off [] name e h1.2 hn
    exact ⟨h1.2, h2.1, h2.2.1⟩
  · intro start k off e rs0 rs name hs hr hn
    have h1 := parseRecords_bounds fuel data k start rs0 rs true off hs hr
    have h2 := parseDomainNameLoop_bounds fuel data off [] name e h1.2 hn
    exact ⟨h1.2, h2.1, h2.2.1⟩
  · intro start n e qs0 qs b hs hq
    exact parseQuestions_bounds fuel data n start qs0 qs b e hs hq
  · intro start n e rs0 rs b hs hr
    exact parseRecords_bounds fuel data n start rs0 rs b e hs hr

/-- The answer name of the response test packet: started at offset 33 of 49
bytes, the pointer leaves the offset at 35. -/
theorem cursor_stays_in_bounds_witness :
    33 ≤ 35 ∧ 35 ≤ responseTestBuf.length ∧ (33 < responseTestBuf.length → 33 < 35) :=
  (cursor_stays_in_bounds 5 responseTestBuf).1 33 wwwExampleCom 35 (by decide) (by decide)

/-! ## C22: a query decode is the question part of a response decode -/

/-- C22: for every buffer, if `parseResponse` returns true on a `Message`
(empty or not) then `parseQuery` returns true on the same `Message`, with the
same header and the same questions; and for every buffer whose header answer,
authority and additional counts are all zero, `parseQuery` and `parseResponse`
behave alike: both return with the same boolean and identical messages, or
neither returns. -/
theorem query_is_response_without_records (fuel : Nat) (data : List UInt8) (m : Message) :
    (∀ m1, parseResponse fuel data m = some (true, m1) →
      ∃ m2, parseQuery fuel data m = some (true, m2) ∧ m2.header = m1.header ∧
        m2.questions = m1.questions) ∧
    ((parseHeader data 0 m.header).2.2.answer_rrs = 0 ∧
        (parseHeader data 0 m.header).2.2.authority_rrs = 0 ∧
        (parseHeader data 0 m.header).2.2.additional_rrs = 0 →
      parseQuery fuel data m = parseResponse fuel data m) := by
  constructor
  · intro m1 h
    obtain ⟨h12, o1, qs, o2, an, o3, ns, o4, ar, hq, -, -, -, hm⟩ :=
      parseResponse_true_inv fuel data m m1 h
    subst hm
    rw [parseQuery_long fuel data m h12, hq]
    exact ⟨_, rfl, rfl, rfl⟩
  · intro hz
    by_cases h12 : 12 ≤ data.length
    · rw [parseHeader_ok data m.header h12] at hz
      simp only at hz
      obtain ⟨z1, z2, z3⟩ := hz
      rw [parseQuery_long fuel data m h12]
      unfold parseResponse
      rw [parseHeader_ok data m.header h12]
      simp only [z1, z2, z3, parseRecords]
      rcases parseQuestions fuel data (ntohs16 data 4) 12 m.questions
        with _ | ⟨_ | _, o1, qs⟩ <;> rfl
    · have hs : data.length < 12 := by omega
      simp [parseQuery, parseResponse, parseHeader_short data 0 m.header hs]

/-- The query test packet (all three record counts 0) decodes alike through
both entry points, and the response test packet decoded as a query gives the
header and the question of the response. -/
theorem query_is_response_without_records_witness :
    (∃ m2, parseQuery 5 responseTestBuf Message.empty = some (true, m2) ∧
      m2.header = (⟨⟨0xAAAA, 0x8180, 1, 1, 0, 0⟩, [⟨wwwExampleCom, 1, 1⟩],
          [⟨wwwExampleCom, 1, 1, 60, 4, [0x5D, 0xB8, 0xD8, 0x22]⟩], [], []⟩ : Message).header ∧
      m2.questions = (⟨⟨0xAAAA, 0x8180, 1, 1, 0, 0⟩, [⟨wwwExampleCom, 1, 1⟩],
          [⟨wwwExampleCom, 1, 1, 60, 4, [0x5D, 0xB8, 0xD8, 0x22]⟩], [], []⟩ :
            Message).questions) ∧
    parseQuery 4 queryTestBuf Message.empty = parseResponse 4 queryTestBuf Message.empty :=
  ⟨(query_is_response_without_records 5 responseTestBuf Message.empty).1 _ (by decide),
    (query_is_response_without_records 4 queryTestBuf Message.empty).2 (by decide)⟩

/-! ## C23: decoding only appends -/

/-- C23: for every buffer and every `Message` (empty or not), after
`parseQuery` or `parseResponse`, whatever the returned boolean, the entries the
four sections held before the call are still there, unchanged and in the same
order, as a prefix of each section (`parseQuery` leaves the three record
sections as they were); on success of `parseResponse` each section's length is
its previous length plus the corresponding header count, so a section's length
equals its header count exactly when that section was empty on entry. -/
theorem decoding_only_appends (fuel : Nat) (data : List UInt8) (m m1 : Message) (b : Bool) :
    (parseQuery fuel data m = some (b, m1) →
      (∃ ext, m1.questions = m.questions ++ ext) ∧
        m1.answers = m.answers ∧ m1.authorities = m.authorities ∧
        m1.additionals = m.additionals) ∧
    (parseResponse fuel data m = some (b, m1) →
      (∃ ext, m1.questions = m.questions ++ ext) ∧
        (∃ ext, m1.answers = m.answers ++ ext) ∧
        (∃ ext, m1.authorities = m.authorities ++ ext) ∧
        (∃ ext, m1.additionals = m.additionals ++ ext)) ∧
    (parseResponse fuel data m = some (true, m1) →
      (m1.questions.length = m.questions.length + m1.header.questions ∧
        m1.answers.length = m.answers.length + m1.header.answer_rrs ∧
        m1.authorities.length = m.authorities.length + m1.header.authority_rrs ∧
        m1.additionals.length = m.additionals.length + m1.header.additional_rrs) ∧
      (m1.questions.length = m1.header.questions ↔ m.questions = []) ∧
      (m1.answers.length = m1.header.answer_rrs ↔ m.answers = []) ∧
      (m1.authorities.length = m1.header.authority_rrs ↔ m.authorities = []) ∧
      (m1.additionals.length = m1.header.additional_rrs ↔ m.additionals = [])) := by
  refine ⟨?_, ?_, ?_⟩
  · intro h
    by_cases h12 : 12 ≤ data.length
    · exact (parseQuery_result fuel data m m1 b h12 h).2
    · have hs : data.length < 12 := by omega
      simp only [parseQuery, parseHeader_short data 0 m.header hs, Option.some.injEq,
        Prod.mk.injEq] at h
      rw [← h.2]
      exact ⟨⟨[], by simp⟩, rfl, rfl, rfl⟩
  · intro h
    by_cases h12 : 12 ≤ data.length
    · exact (parseResponse_result fuel data m m1 b h12 h).2
    · have hs : data.length < 12 := by omega
      simp only [parseResponse, parseHeader_short data 0 m.header hs, Option.some.injEq,
        Prod.mk.injEq] at h
      rw [← h.2]
      exact ⟨⟨[], by simp⟩, ⟨[], by simp⟩, ⟨[], by simp⟩, ⟨[], by simp⟩⟩
  · intro h
    obtain ⟨_, o1, qs, o2, an, o3, ns, o4, ar, hq, ha, hn, hx, hm⟩ :=
      parseResponse_true_inv fuel data m m1 h
    subst hm
    have h1 := parseQuestions_length fuel data _ _ _ _ _ hq
    have h2 := parseRecords_length fuel data _ _ _ _ _ ha
    have h3 := parseRecords_length fuel data _ _ _ _ _ hn
    have h4 := parseRecords_length fuel data _ _ _ _ _ hx
    refine ⟨⟨h1, h2, h3, h4⟩, ?_, ?_, ?_, ?_⟩
    · simp only [h1, ← List.length_eq_zero]; omega
    · simp only [h2, ← List.length_eq_zero]; omega
    · simp only [h3, ← List.length_eq_zero]; omega
    · simp only [h4, ← List.length_eq_zero]; omega

/-- The response test packet decoded into a message that already holds one
question and one answer: both are kept in front, and the sections are one entry
longer than the header counts. -/
theorem decoding_only_appends_witness :
    (∃ ext, (⟨⟨0xAAAA, 0x8180, 1, 1, 0, 0⟩, [⟨[0x61], 2, 3⟩, ⟨wwwExampleCom, 1, 1⟩],
        [⟨[0x62], 4, 5, 6, 0, []⟩, ⟨wwwExampleCom, 1, 1, 60, 4, [0x5D, 0xB8, 0xD8, 0x22]⟩],
        [], []⟩ : Message).questions
      = (⟨⟨9, 9, 9, 9, 9, 9⟩, [⟨[0x61], 2, 3⟩], [⟨[0x62], 4, 5, 6, 0, []⟩], [], []⟩ :
          Message).questions ++ ext) ∧
    (∃ ext, (⟨⟨0xAAAA, 0x8180, 1, 1, 0, 0⟩, [⟨[0x61], 2, 3⟩, ⟨wwwExampleCom, 1, 1⟩],
        [⟨[0x62], 4, 5, 6, 0, []⟩, ⟨wwwExampleCom, 1, 1, 60, 4, [0x5D, 0xB8, 0xD8, 0x22]⟩],
        [], []⟩ : Message).answers
      = (⟨⟨9, 9, 9, 9, 9, 9⟩, [⟨[0x61], 2, 3⟩], [⟨[0x62], 4, 5, 6, 0, []⟩], [], []⟩ :
          Message).answers ++ ext) ∧
    (∃ ext, (⟨⟨0xAAAA, 0x8180, 1, 1, 0, 0⟩, [⟨[0x61], 2, 3⟩, ⟨wwwExampleCom, 1, 1⟩],
        [⟨[0x62], 4, 5, 6, 0, []⟩, ⟨wwwExampleCom, 1, 1, 60, 4, [0x5D, 0xB8, 0xD8, 0x22]⟩],
        [], []⟩ : Message).authorities
      = (⟨⟨9, 9, 9, 9, 9, 9⟩, [⟨[0x61], 2, 3⟩], [⟨[0x62], 4, 5, 6, 0, []⟩], [], []⟩ :
          Message).authorities ++ ext) ∧
    (∃ ext, (⟨⟨0xAAAA, 0x8180, 1, 1, 0, 0⟩, [⟨[0x61], 2, 3⟩, ⟨wwwExampleCom, 1, 1⟩],
        [⟨[0x62], 4, 5, 6, 0, []⟩, ⟨wwwExampleCom, 1, 1, 60, 4, [0x5D, 0xB8, 0xD8, 0x22]⟩],
        [], []⟩ : Message).additionals
      = (⟨⟨9, 9, 9, 9, 9, 9⟩, [⟨[0x61], 2, 3⟩], [⟨[0x62], 4, 5, 6, 0, []⟩], [], []⟩ :
          Message).additionals ++ ext) :=
  (decoding_only_appends 5 responseTestBuf
    ⟨⟨9, 9, 9, 9, 9, 9⟩, [⟨[0x61], 2, 3⟩], [⟨[0x62], 4, 5, 6, 0, []⟩], [], []⟩
    ⟨⟨0xAAAA, 0x8180, 1, 1, 0, 0⟩, [⟨[0x61], 2, 3⟩, ⟨wwwExampleCom, 1, 1⟩],
      [⟨[0x62], 4, 5, 6, 0, []⟩, ⟨wwwExampleCom, 1, 1, 60, 4, [0x5D, 0xB8, 0xD8, 0x22]⟩],
      [], []⟩ true).2.1 (by decide)

/-! ## C25: the flag bitfields of `printHeader` -/

/-- Masking with `m` shifted left by `j` bits is shifting right, masking with
`m` and shifting back. -/
theorem and_mul_two_pow (x m j : Nat) :
    x &&& (m * 2 ^ j) = ((x / 2 ^ j) &&& m) * 2 ^ j := by
  apply Nat.eq_of_testBit_eq
  intro i
  rw [← Nat.shiftLeft_eq, ← Nat.shiftLeft_eq, ← Nat.shiftRight_eq_div_pow]
  simp only [Nat.testBit_and, Nat.testBit_shiftLeft, Nat.testBit_shiftRight]
  by_cases h : i ≥ j
  · have : j + (i - j) = i := by omega
    simp [h, this]
  · simp [h]

/-- A one-bit mask extracts the bit as `0` or `2 ^ j`. -/
theorem and_two_pow_bit (x j : Nat) : x &&& 2 ^ j = x / 2 ^ j % 2 * 2 ^ j := by
  have h := and_mul_two_pow x 1 j
  have h1 : (x / 2 ^ j) &&& 1 = x / 2 ^ j % 2 := Nat.and_pow_two_sub_one_eq_mod _ 1
  rw [h1, Nat.one_mul] at h
  exact h

theorem bit_test (x j : Nat) : ((x &&& 2 ^ j) != 0) = decide (x / 2 ^ j % 2 = 1) := by
  rw [and_two_pow_bit]
  rcases Nat.mod_two_eq_zero_or_one (x / 2 ^ j) with h | h
  · simp [h]
  · simp [h]

theorem toNat_decide_bit (n : Nat) : (decide (n % 2 = 1)).toNat = n % 2 := by
  rcases Nat.mod_two_eq_zero_or_one n with h | h <;> simp [h]

/-- C25: for every 16-bit flags value, in `printHeader` QR is bit 15, the
opcode is bits 11 to 14 (a value 0..15), AA is bit 10, TC is bit 9, RD is bit 8,
RA is bit 7 and the response code is bits 0 to 3 (a value 0..15), so that
`flags == QR*32768 + opcode*2048 + AA*1024 + TC*512 + RD*256 + RA*128 +
(flags & 0x0070) + rcode`; `0x0100` is a query with only RD set and `0x8180` is
a response with RD and RA set, opcode 0 and response code 0. -/
theorem flag_bitfields (flags : Nat) (h : flags < 65536) :
    (printHeaderFlags flags).isResponse = decide (flags / 32768 % 2 = 1) ∧
    ((printHeaderFlags flags).opcode = flags / 2048 % 16 ∧
      (printHeaderFlags flags).opcode < 16) ∧
    (printHeaderFlags flags).isAuthoritative = decide (flags / 1024 % 2 = 1) ∧
    (printHeaderFlags flags).isTruncated = decide (flags / 512 % 2 = 1) ∧
    (printHeaderFlags flags).recursionDesired = decide (flags / 256 % 2 = 1) ∧
    (printHeaderFlags flags).recursionAvailable = decide (flags / 128 % 2 = 1) ∧
    ((printHeaderFlags flags).responseCode = flags % 16 ∧
      (printHeaderFlags flags).responseCode < 16) ∧
    flags = (printHeaderFlags flags).isResponse.toNat * 32768
      + (printHeaderFlags flags).opcode * 2048
      + (printHeaderFlags flags).isAuthoritative.toNat * 1024
      + (printHeaderFlags flags).isTruncated.toNat * 512
      + (printHeaderFlags flags).recursionDesired.toNat * 256
      + (printHeaderFlags flags).recursionAvailable.toNat * 128
      + (flags &&& 0x0070)
      + (printHeaderFlags flags).responseCode ∧
    printHeaderFlags 0x0100 = ⟨false, 0, false, false, true, false, 0⟩ ∧
    printHeaderFlags 0x8180 = ⟨true, 0, false, false, true, true, 0⟩ := by
  have b15 : ((flags &&& 0x8000) != 0) = decide (flags / 32768 % 2 = 1) := bit_test flags 15
  have b10 : ((flags &&& 0x0400) != 0) = decide (flags / 1024 % 2 = 1) := bit_test flags 10
  have b9 : ((flags &&& 0x0200) != 0) = decide (flags / 512 % 2 = 1) := bit_test flags 9
  have b8 : ((flags &&& 0x0100) != 0) = decide (flags / 256 % 2 = 1) := bit_test flags 8
  have b7 : ((flags &&& 0x0080) != 0) = decide (flags / 128 % 2 = 1) := bit_test flags 7
  have hop : (flags >>> 11) &&& 0x0F = flags / 2048 % 16 := by
    have := Nat.and_pow_two_sub_one_eq_mod (flags >>> 11) 4
    rw [Nat.shiftRight_eq_div_pow] at this ⊢
    exact this
  have hrc : flags &&& 0x000F = flags % 16 := Nat.and_pow_two_sub_one_eq_mod flags 4
  have hmid : flags &&& 0x0070 = flags / 16 % 8 * 16 := by
    have h7 := and_mul_two_pow flags 7 4
    have h1 : (flags / 2 ^ 4) &&& 7 = flags / 2 ^ 4 % 8 :=
      Nat.and_pow_two_sub_one_eq_mod _ 3
    rw [h1] at h7
    exact h7
  have hop256 : flags / 2048 % 16 % 256 = flags / 2048 % 16 :=
    Nat.mod_eq_of_lt (by omega)
  have hrc256 : flags % 16 % 256 = flags % 16 := Nat.mod_eq_of_lt (by omega)
  refine ⟨b15, ⟨?_, ?_⟩, b10, b9, b8, b7, ⟨?_, ?_⟩, ?_, by decide, by decide⟩
  · simp only [printHeaderFlags, hop, hop256]
  · simp only [printHeaderFlags, hop, hop256]
    omega
  · simp only [printHeaderFlags, hrc, hrc256]
  · simp only [printHeaderFlags, hrc, hrc256]
    omega
  · simp only [printHeaderFlags, b15, b10, b9, b8, b7, hop, hop256, hrc, hrc256, hmid,
      toNat_decide_bit]
    omega

/-- The flags `0x8180` of the response test packet. -/
theorem flag_bitfields_witness :
    (printHeaderFlags 0x8180).isResponse = decide (0x8180 / 32768 % 2 = 1) ∧
    ((printHeaderFlags 0x8180).opcode = 0x8180 / 2048 % 16 ∧
      (printHeaderFlags 0x8180).opcode < 16) ∧
    (printHeaderFlags 0x8180).isAuthoritative = decide (0x8180 / 1024 % 2 = 1) ∧
    (printHeaderFlags 0x8180).isTruncated = decide (0x8180 / 512 % 2 = 1) ∧
    (printHeaderFlags 0x8180).recursionDesired = decide (0x8180 / 256 % 2 = 1) ∧
    (printHeaderFlags 0x8180).recursionAvailable = decide (0x8180 / 128 % 2 = 1) ∧
    ((printHeaderFlags 0x8180).responseCode = 0x8180 % 16 ∧
      (printHeaderFlags 0x8180).responseCode < 16) ∧
    0x8180 = (printHeaderFlags 0x8180).isResponse.toNat * 32768
      + (printHeaderFlags 0x8180).opcode * 2048
      + (printHeaderFlags 0x8180).isAuthoritative.toNat * 1024
      + (printHeaderFlags 0x8180).isTruncated.toNat * 512
      + (printHeaderFlags 0x8180).recursionDesired.toNat * 256
      + (printHeaderFlags 0x8180).recursionAvailable.toNat * 128
      + (0x8180 &&& 0x0070)
      + (printHeaderFlags 0x8180).responseCode ∧
    printHeaderFlags 0x0100 = ⟨false, 0, false, false, true, false, 0⟩ ∧
    printHeaderFlags 0x8180 = ⟨true, 0, false, false, true, true, 0⟩ :=
  flag_bitfields 0x8180 (by decide)

/-! ## C26: rendering reads `rdata` within its bounds -/

/-- A record the decoder accepts has `rdata.size() == rdlength`. -/
theorem parseResourceRecord_rdata_length (fuel : Nat) (data : List UInt8) (offset : Nat)
    (rr0 rr : DNSResourceRecord) (stop : Nat)
    (h : parseResourceRecord fuel data offset rr0 = some (true, stop, rr)) :
    rr.rdata.length = rr.rdlength := by
  unfold parseResourceRecord at h
  rcases hn : parseDomainName fuel data offset with _ | ⟨name, e⟩
  · simp [hn] at h
  · simp only [hn] at h
    by_cases h1 : e + 10 > data.length
    · simp [h1] at h
    · simp only [h1, if_false] at h
      by_cases h2 : e + 2 + 2 + 4 + 2 + ntohs16 data (e + 2 + 2 + 4) > data.length
      · simp [h2] at h
      · simp only [h2, if_false, Option.some.injEq, Prod.mk.injEq, true_and] at h
        obtain ⟨-, hrr⟩ := h
        subst hrr
        simp only
        rw [substr_length]
        omega

/-- A record loop keeps `rdata.size() == rdlength` on every record. -/
theorem parseRecords_rdata_length (fuel : Nat) (data : List UInt8) :
    ∀ (n off : Nat) (rs rs1 : List DNSResourceRecord) (b : Bool) (e : Nat),
      (∀ r ∈ rs, r.rdata.length = r.rdlength) →
      parseRecords fuel data n off rs = some (b, e, rs1) →
      ∀ r ∈ rs1, r.rdata.length = r.rdlength := by
  intro n
  induction n with
  | zero =>
    intro off rs rs1 b e hrs h
    simp only [parseRecords, Option.some.injEq, Prod.mk.injEq] at h
    rw [← h.2.2]; exact hrs
  | succ n ih =>
    intro off rs rs1 b e hrs h
    rw [parseRecords] at h
    rcases hr : parseResourceRecord fuel data off DNSResourceRecord.fresh
      with _ | ⟨_ | _, e1, rr⟩
    · simp [hr] at h
    · simp only [hr, Option.some.injEq, Prod.mk.injEq] at h
      rw [← h.2.2]; exact hrs
    · simp only [hr] at h
      have hlen := parseResourceRecord_rdata_length fuel data off _ rr e1 hr
      apply ih _ _ _ _ _ _ h
      intro r hmem
      rcases List.mem_append.1 hmem with h1 | h1
      · exact hrs r h1
      · simp only [List.mem_singleton] at h1
        rw [h1]; exact hlen

/-- On a record with `rdata.size() == rdlength`, every index of `rdata` read by
`printResourceRecords` is below `rdata.size()`, and so is the start position of
`substr`. -/
theorem rdataReads_in_range (r : DNSResourceRecord) (hlen : r.rdata.length = r.rdlength) :
    (∀ i ∈ rdataReads r, i < r.rdata.length) ∧
      (∀ p ∈ rdataSubstrFrom r, p ≤ r.rdata.length) := by
  constructor
  · intro i hi
    unfold rdataReads at hi
    split_ifs at hi with h1 h2 h3 h4 h5 h6 h7
    · simp only [List.mem_cons, List.mem_singleton, List.not_mem_nil, or_false] at hi
      omega
    · simp only [List.mem_flatMap, List.mem_range, List.mem_cons, List.mem_singleton,
        List.not_mem_nil, or_false] at hi
      obtain ⟨k, hk, hik⟩ := hi
      omega
    · exact List.mem_range.1 hi
    · exact List.mem_range.1 hi
    · simp only [List.mem_append, List.mem_cons, List.mem_singleton, List.not_mem_nil,
        or_false, List.mem_range'_1] at hi
      omega
    · simp at hi
    · exact List.mem_range.1 hi
    · exact List.mem_range.1 hi
  · intro p hp
    unfold rdataSubstrFrom at hp
    split_ifs at hp with h1 h2 h3 h4 h5 h6
    all_goals first
      | (simp only [Option.mem_def, Option.some.injEq] at hp; omega)
      | simp at hp

/-- C26 fails on a message that is not empty on entry: `parseResponse` only
appends, so on `queryTestBuf` (which announces no record) it returns true and
the answer `staleRecord` that the message held before the call, of type 1 and
rdlength 4 with an empty `rdata`, is still there; `printResourceRecords` takes
its A branch and reads `ip[0] .. ip[3]`, none of which is below
`rdata.size() = 0`. -/
theorem rendering_reads_counterexample :
    parseResponse 4 queryTestBuf staleRecordMsg
        = some (true, ⟨⟨0xAAAA, 0x0100, 1, 0, 0, 0⟩, [⟨wwwExampleCom, 1, 1⟩],
            [staleRecord], [], []⟩) ∧
      staleRecord.type = 1 ∧ staleRecord.rdlength = 4 ∧ staleRecord.rdata.length = 0 ∧
      rdataReads staleRecord = [0, 1, 2, 3] ∧
      ¬ (∀ i ∈ rdataReads staleRecord, i < staleRecord.rdata.length) := by
  decide

/-- C26 as amended: for every `Message` produced by a successful
`parseResponse` from a `Message` whose records on entry all have
`rdata.size() == rdlength` (an empty `Message` in particular), every record of
the three record sections has `rdata.size() == rdlength`, and
`printResourceRecords` reads its `rdata` only at indices below `rdata.size()`:
the A branch (type 1, rdlength 4) reads indices 0..3, the AAAA branch (type 28,
rdlength 16) reads indices 0..15, and the MX branch (type 15, rdlength at least
2) reads indices 0..1 and takes the suffix from index 2, which is not beyond
the end. -/
theorem rendering_reads_in_range (fuel : Nat) (data : List UInt8) (m m1 : Message)
    (hinv : ∀ r ∈ m.answers ++ m.authorities ++ m.additionals, r.rdata.length = r.rdlength)
    (h : parseResponse fuel data m = some (true, m1)) :
    ∀ r ∈ m1.answers ++ m1.authorities ++ m1.additionals,
      r.rdata.length = r.rdlength ∧
      (∀ i ∈ rdataReads r, i < r.rdata.length) ∧
      (∀ p ∈ rdataSubstrFrom r, p ≤ r.rdata.length) ∧
      (r.type = 1 ∧ r.rdlength = 4 → rdataReads r = [0, 1, 2, 3]) ∧
      (r.type = 28 ∧ r.rdlength = 16 →
        rdataReads r = [0, 1, 2, 3, 4, 5, 6, 7, 8, 9, 10, 11, 12, 13, 14, 15]) ∧
      (r.type = 15 ∧ r.rdlength ≥ 2 →
        rdataReads r = [0, 1] ++ List.range' 2 (r.rdata.length - 2) ∧
          rdataSubstrFrom r = some 2) := by
  obtain ⟨_, o1, qs, o2, an, o3, ns, o4, ar, hq, ha, hn, hx, hm⟩ :=
    parseResponse_true_inv fuel data m m1 h
  subst hm
  have e2 : ∀ r ∈ m.answers, r.rdata.length = r.rdlength := fun r hr =>
    hinv r (List.mem_append_left _ (List.mem_append_left _ hr))
  have e3 : ∀ r ∈ m.authorities, r.rdata.length = r.rdlength := fun r hr =>
    hinv r (List.mem_append_left _ (List.mem_append_right _ hr))
  have e4 : ∀ r ∈ m.additionals, r.rdata.length = r.rdlength := fun r hr =>
    hinv r (List.mem_append_right _ hr)
  have ha1 := parseRecords_rdata_length fuel data _ _ _ _ _ _ e2 ha
  have hn1 := parseRecords_rdata_length fuel data _ _ _ _ _ _ e3 hn
  have hx1 := parseRecords_rdata_length fuel data _ _ _ _ _ _ e4 hx
  intro r hr
  have hlen : r.rdata.length = r.rdlength := by
    simp only [List.mem_append] at hr
    rcases hr with (hr | hr) | hr
    · exact ha1 r hr
    · exact hn1 r hr
    · exact hx1 r hr
  obtain ⟨hreads, hsub⟩ := rdataReads_in_range r hlen
  refine ⟨hlen, hreads, hsub, ?_, ?_, ?_⟩
  · intro hA
    simp [rdataReads, hA]
  · intro hAAAA
    have h1 : ¬ (r.type = 1 ∧ r.rdlength = 4) := by omega
    simp only [rdataReads, h1, if_false, hAAAA, and_self, if_true]
    decide
  · intro hMX
    have h1 : ¬ (r.type = 1 ∧ r.rdlength = 4) := by omega
    have h2 : ¬ (r.type = 28 ∧ r.rdlength = 16) := by omega
    have h3 : ¬ r.type = 5 := by omega
    have h4 : ¬ r.type = 2 := by omega
    have h5 : r.type = 15 := hMX.1
    have h6 : r.rdlength ≥ 2 := hMX.2
    unfold rdataReads rdataSubstrFrom
    rw [if_neg h1, if_neg h2, if_neg h3, if_neg h4, if_pos h5, if_pos h6,
      if_neg h1, if_neg h2, if_neg h3, if_neg h4, if_pos h5, if_pos h6]
    exact ⟨rfl, rfl⟩

/-- The MX variant of the response test packet, decoded into the message that
an earlier decode of the same packet has filled: the message holds the answer
`mxAnswer` on entry, the call adds it a second time, and for that record, of
type 15 with rdlength 4 and four bytes of rdata, the reads 0, 1 and the suffix
from index 2 lie within the 4 bytes. -/
theorem rendering_reads_in_range_witness :
    (∀ r ∈ mxResponseMsg.answers ++ mxResponseMsg.authorities ++ mxResponseMsg.additionals,
        r.rdata.length = r.rdlength) ∧
      parseResponse 5 mxResponseBuf mxResponseMsg
        = some (true, ⟨⟨0xAAAA, 0x8180, 1, 1, 0, 0⟩,
            [⟨wwwExampleCom, 1, 1⟩, ⟨wwwExampleCom, 1, 1⟩], [mxAnswer, mxAnswer], [], []⟩) ∧
      mxAnswer.rdata.length = mxAnswer.rdlength ∧
      (∀ i ∈ rdataReads mxAnswer, i < mxAnswer.rdata.length) ∧
      (∀ p ∈ rdataSubstrFrom mxAnswer, p ≤ mxAnswer.rdata.length) ∧
      (mxAnswer.type = 1 ∧ mxAnswer.rdlength = 4 → rdataReads mxAnswer = [0, 1, 2, 3]) ∧
      (mxAnswer.type = 28 ∧ mxAnswer.rdlength = 16 →
        rdataReads mxAnswer = [0, 1, 2, 3, 4, 5, 6, 7, 8, 9, 10, 11, 12, 13, 14, 15]) ∧
      (mxAnswer.type = 15 ∧ mxAnswer.rdlength ≥ 2 →
        rdataReads mxAnswer = [0, 1] ++ List.range' 2 (mxAnswer.rdata.length - 2) ∧
          rdataSubstrFrom mxAnswer = some 2) :=
  ⟨by decide, by decide,
    rendering_reads_in_range 5 mxResponseBuf mxResponseMsg
      ⟨⟨0xAAAA, 0x8180, 1, 1, 0, 0⟩, [⟨wwwExampleCom, 1, 1⟩, ⟨wwwExampleCom, 1, 1⟩],
        [mxAnswer, mxAnswer], [], []⟩
      (by decide) (by decide) mxAnswer (by decide)⟩

/-! ## C27: termination without pointers -/

/-- The octets listed by `lengthOctets` are read by the decoder at its own
cursor. -/
theorem lengthOctets_read :
    ∀ (fuel : Nat) (data : List UInt8) (s : Nat) (d : List UInt8),
      ∀ o ∈ lengthOctets fuel data s, o ∈ (parseDomainNameLoopOwn fuel data s d).2 := by
  intro fuel
  induction fuel with
  | zero => intro data s d o ho; simp [lengthOctets] at ho
  | succ n ih =>
    intro data s d o ho
    rw [lengthOctets] at ho
    rw [parseDomainNameLoopOwn]
    by_cases h1 : s < data.length
    · simp only [h1, if_true] at ho ⊢
      by_cases h2 : byteAt data s &&& 0xC0 = 0xC0
      · simp only [h2, if_true, List.mem_singleton] at ho ⊢
        subst ho
        by_cases h3 : o + 1 ≥ data.length
        · simp [h3]
        · simp only [h3, if_false]
          rcases parseDomainNameLoop n data
            (((byteAt data o &&& 0x3F) <<< 8) ||| byteAt data (o + 1)) []
            with _ | ⟨sub, e⟩ <;> simp
      · simp only [h2, if_false] at ho ⊢
        by_cases h3 : byteAt data s = 0
        · simp only [h3, if_true, List.mem_singleton] at ho ⊢
          exact ho
        · simp only [h3, if_false] at ho ⊢
          by_cases h4 : s + 1 + byteAt data s > data.length
          · simp only [h4, if_true, List.mem_singleton] at ho ⊢
            exact ho
          · simp only [h4, if_false, List.mem_cons] at ho ⊢
            rcases ho with ho | ho
            · simp [ho]
            · have := ih data (s + 1 + byteAt data s)
                ((if d ≠ [] then d ++ [dot] else d) ++ substr data (s + 1) (byteAt data s))
                o ho
              simp at this ⊢
              exact Or.inr (Or.inr this)
    · simp [h1] at ho

/-- Every loop iteration reads its length octet inside the buffer, at or after
the start, and there are at most `data.size() - s` iterations. -/
theorem lengthOctets_bounds :
    ∀ (fuel : Nat) (data : List UInt8) (s : Nat),
      (lengthOctets fuel data s).length ≤ data.length - s ∧
        (∀ o ∈ lengthOctets fuel data s, s ≤ o ∧ o < data.length) ∧
        List.Chain' (fun a b => a < b) (lengthOctets fuel data s) := by
  intro fuel
  induction fuel with
  | zero => intro data s; simp [lengthOctets]
  | succ n ih =>
    intro data s
    rw [lengthOctets]
    by_cases h1 : s < data.length
    · simp only [h1, if_true]
      by_cases h2 : byteAt data s &&& 0xC0 = 0xC0
      · simp only [h2, if_true, List.length_singleton, List.mem_singleton,
          List.chain'_singleton, and_true]
        exact ⟨by omega, fun o ho => by omega⟩
      · simp only [h2, if_false]
        by_cases h3 : byteAt data s = 0
        · simp only [h3, if_true, List.length_singleton, List.mem_singleton,
            List.chain'_singleton, and_true]
          exact ⟨by omega, fun o ho => by omega⟩
        · simp only [h3, if_false]
          by_cases h4 : s + 1 + byteAt data s > data.length
          · simp only [h4, if_true, List.length_singleton, List.mem_singleton,
              List.chain'_singleton, and_true]
            exact ⟨by omega, fun o ho => by omega⟩
          · simp only [h4, if_false]
            obtain ⟨hl, hm, hc⟩ := ih data (s + 1 + byteAt data s)
            refine ⟨?_, ?_, ?_⟩
            · simp only [List.length_cons]
              omega
            · intro o ho
              rcases List.mem_cons.1 ho with ho | ho
              · omega
              · have := hm o ho
                omega
            · apply List.Chain'.cons' hc
              intro y hy
              have := hm y (List.mem_of_mem_head? hy)
              omega
    · simp [h1]

/-- The name loop returns when no length octet it meets is a pointer octet and
the fuel exceeds the number of bytes from the start to the buffer end. -/
theorem parseDomainNameLoop_terminates :
    ∀ (fuel : Nat) (data : List UInt8) (s : Nat) (d : List UInt8),
      data.length - s < fuel →
      (∀ o ∈ lengthOctets fuel data s, byteAt data o / 64 ≠ 3) →
      ∃ name f, parseDomainNameLoop fuel data s d = some (name, f) := by
  intro fuel
  induction fuel with
  | zero => intro data s d hf; omega
  | succ n ih =>
    intro data s d hf hno
    rw [lengthOctets] at hno
    rw [parseDomainNameLoop]
    by_cases h1 : s < data.length
    · simp only [h1, if_true] at hno ⊢
      have h2 : ¬ (byteAt data s &&& 0xC0 = 0xC0) := by
        intro h
        have htop := (land_C0_iff _ (byteAt_lt data s)).1 h
        simp only [h, if_true, List.mem_singleton] at hno
        exact hno s rfl htop
      simp only [h2, if_false] at hno ⊢
      by_cases h3 : byteAt data s = 0
      · simp only [h3, if_true]
        exact ⟨_, _, rfl⟩
      · simp only [h3, if_false] at hno ⊢
        by_cases h4 : s + 1 + byteAt data s > data.length
        · simp only [h4, if_true]
          exact ⟨_, _, rfl⟩
        · simp only [h4, if_false] at hno ⊢
          apply ih
          · omega
          · intro o ho
            exact hno o (List.mem_cons_of_mem _ ho)
    · simp only [h1, if_false]
      exact ⟨_, _, rfl⟩

theorem parseQuestions_returns (fuel : Nat) (data : List UInt8)
    (hname : ∀ s, ∃ r, parseDomainName fuel data s = some r) :
    ∀ (n off : Nat) (qs : List DNSQuestion),
      ∃ r, parseQuestions fuel data n off qs = some r := by
  intro n
  induction n with
  | zero => intro off qs; exact ⟨_, rfl⟩
  | succ n ih =>
    intro off qs
    obtain ⟨⟨name, e⟩, hn⟩ := hname off
    rw [parseQuestions, hn]
    simp only
    by_cases h4 : e + 4 > data.length
    · simp only [h4, if_true]
      exact ⟨_, rfl⟩
    · simp only [h4, if_false]
      exact ih _ _

theorem parseResourceRecord_returns (fuel : Nat) (data : List UInt8)
    (hname : ∀ s, ∃ r, parseDomainName fuel data s = some r) (off : Nat)
    (rr0 : DNSResourceRecord) :
    ∃ r, parseResourceRecord fuel data off rr0 = some r := by
  obtain ⟨⟨name, e⟩, hn⟩ := hname off
  rw [parseResourceRecord, hn]
  simp only
  split_ifs <;> exact ⟨_, rfl⟩

theorem parseRecords_returns (fuel : Nat) (data : List UInt8)
    (hname : ∀ s, ∃ r, parseDomainName fuel data s = some r) :
    ∀ (n off : Nat) (rs : List DNSResourceRecord),
      ∃ r, parseRecords fuel data n off rs = some r := by
  intro n
  induction n with
  | zero => intro off rs; exact ⟨_, rfl⟩
  | succ n ih =>
    intro off rs
    obtain ⟨⟨b, e, rr⟩, hr⟩ :=
      parseResourceRecord_returns fuel data hname off DNSResourceRecord.fresh
    rw [parseRecords, hr]
    cases b with
    | false => exact ⟨_, rfl⟩
    | true => exact ih _ _

theorem parseQuery_returns (fuel : Nat) (data : List UInt8) (m : Message)
    (hname : ∀ s, ∃ r, parseDomainName fuel data s = some r) :
    ∃ r, parseQuery fuel data m = some r := by
  unfold parseQuery
  rcases parseHeader data 0 m.header with ⟨_ | _, off, hdr⟩
  · exact ⟨_, rfl⟩
  · simp only
    obtain ⟨⟨ok, e, qs⟩, hq⟩ := parseQuestions_returns fuel data hname hdr.questions off
      m.questions
    rw [hq]
    exact ⟨_, rfl⟩

theorem parseResponse_returns (fuel : Nat) (data : List UInt8) (m : Message)
    (hname : ∀ s, ∃ r, parseDomainName fuel data s = some r) :
    ∃ r, parseResponse fuel data m = some r := by
  unfold parseResponse
  rcases parseHeader data 0 m.header with ⟨_ | _, off, hdr⟩
  · exact ⟨_, rfl⟩
  · simp only
    obtain ⟨⟨b1, e1, qs⟩, hq⟩ := parseQuestions_returns fuel data hname hdr.questions off
      m.questions
    rw [hq]
    cases b1 with
    | false => exact ⟨_, rfl⟩
    | true =>
      simp only
      obtain ⟨⟨b2, e2, an⟩, ha⟩ := parseRecords_returns fuel data hname hdr.answer_rrs e1
        m.answers
      rw [ha]
      cases b2 with
      | false => exact ⟨_, rfl⟩
      | true =>
        simp only
        obtain ⟨⟨b3, e3, ns⟩, hn⟩ := parseRecords_returns fuel data hname hdr.authority_rrs
          e2 m.authorities
        rw [hn]
        cases b3 with
        | false => exact ⟨_, rfl⟩
        | true =>
          simp only
          obtain ⟨⟨b4, e4, ar⟩, hx⟩ := parseRecords_returns fuel data hname
            hdr.additional_rrs e3 m.additionals
          rw [hx]
          exact ⟨_, rfl⟩

theorem byteAt_below_C0 (data : List UInt8) (hno : ∀ b ∈ data, b.toNat < 0xC0) (o : Nat) :
    byteAt data o / 64 ≠ 3 := by
  have hlt : byteAt data o < 0xC0 := by
    by_cases ho : o < data.length
    · rw [byteAt_eq_get data o ho]
      exact hno _ (List.get_mem data o ho)
    · unfold byteAt
      rw [List.getD_eq_default _ _ (by omega)]
      decide
  omega

/-- C27: for every buffer and start offset from which the name decoding meets
no length octet with top two bits `11`, `parseDomainName` terminates: its loop
runs at most `data.size() - s` iterations (so at most `data.size()`), each at a
strictly larger offset than the one before, and with one unit of fuel more than
that (for the loop test that ends it) it returns.  Hence `parseQuery` and
`parseResponse` return on every buffer that contains no byte `>= 0xC0`. -/
theorem terminates_without_pointers (data : List UInt8) :
    (∀ (fuel s : Nat) (d : List UInt8), data.length - s < fuel →
      (∀ o ∈ lengthOctets fuel data s, byteAt data o / 64 ≠ 3) →
      ∃ name f, parseDomainNameLoop fuel data s d = some (name, f)) ∧
    (∀ (fuel s : Nat),
      (lengthOctets fuel data s).length ≤ data.length - s ∧
        (lengthOctets fuel data s).length ≤ data.length ∧
        (∀ o ∈ lengthOctets fuel data s, s ≤ o ∧ o < data.length) ∧
        List.Chain' (fun a b => a < b) (lengthOctets fuel data s) ∧
        ∀ (d : List UInt8), ∀ o ∈ lengthOctets fuel data s,
          o ∈ (parseDomainNameLoopOwn fuel data s d).2) ∧
    ((∀ b ∈ data, b.toNat < 0xC0) → ∀ (m : Message),
      (∃ r, parseQuery (data.length + 1) data m = some r) ∧
        ∃ r, parseResponse (data.length + 1) data m = some r) := by
  refine ⟨?_, ?_, ?_⟩
  · intro fuel s d hf hno
    exact parseDomainNameLoop_terminates fuel data s d hf hno
  · intro fuel s
    obtain ⟨h1, h2, h3⟩ := lengthOctets_bounds fuel data s
    exact ⟨h1, by omega, h2, h3, fun d => lengthOctets_read fuel data s d⟩
  · intro hno m
    have hname : ∀ s, ∃ r, parseDomainName (data.length + 1) data s = some r := by
      intro s
      obtain ⟨name, f, h⟩ := parseDomainNameLoop_terminates (data.length + 1) data s []
        (by omega) (fun o _ => byteAt_below_C0 data hno o)
      exact ⟨_, h⟩
    exact ⟨parseQuery_returns _ data m hname, parseResponse_returns _ data m hname⟩

/-- The query test packet has no byte `>= 0xC0`: both entry points return with
fuel 34, and the name at offset 12 is decoded in 4 iterations, at offsets 12,
16, 24 and 28. -/
theorem terminates_without_pointers_witness :
    ((∃ r, parseQuery (queryTestBuf.length + 1) queryTestBuf Message.empty = some r) ∧
      ∃ r, parseResponse (queryTestBuf.length + 1) queryTestBuf Message.empty = some r) ∧
    lengthOctets 34 queryTestBuf 12 = [12, 16, 24, 28] :=
  ⟨(terminates_without_pointers queryTestBuf).2.2 (by decide) Message.empty, by decide⟩

/-! ## C24: the record decoder does not branch on the record type -/

theorem byteAt_congr (data1 data2 : List UInt8) (i : Nat) (h : data1[i]? = data2[i]?) :
    byteAt data1 i = byteAt data2 i := by
  simp only [byteAt, List.getD_eq_getElem?_getD, h]

theorem substr_congr (data1 data2 : List UInt8) (pos n : Nat)
    (h : ∀ i, pos ≤ i → i < pos + n → data1[i]? = data2[i]?) :
    substr data1 pos n = substr data2 pos n := by
  apply List.ext_getElem?
  intro i
  simp only [substr, List.getElem?_take, List.getElem?_drop]
  by_cases hi : i < n
  · simp only [hi, if_true]
    exact h (pos + i) (by omega) (by omega)
  · simp only [hi, if_false]

/-- Two buffers of equal length that agree on every byte the name decoding
reads in the first give the same name and the same final offset. -/
theorem parseDomainNameLoop_congr :
    ∀ (fuel : Nat) (data1 data2 : List UInt8) (s : Nat) (d : List UInt8),
      data1.length = data2.length →
      (∀ i ∈ (parseDomainNameLoopT fuel data1 s d).2, data1[i]? = data2[i]?) →
      parseDomainNameLoop fuel data2 s d = parseDomainNameLoop fuel data1 s d := by
  intro fuel
  induction fuel with
  | zero => intro data1 data2 s d _ _; rfl
  | succ n ih =>
    intro data1 data2 s d hlen hag
    rw [parseDomainNameLoopT] at hag
    rw [parseDomainNameLoop, parseDomainNameLoop]
    by_cases h1 : s < data1.length
    · have h1' : s < data2.length := by omega
      simp only [h1, if_true] at hag
      simp only [h1, h1', if_true]
      by_cases h2 : byteAt data1 s &&& 0xC0 = 0xC0
      · simp only [h2, if_true] at hag
        by_cases h3 : s + 1 ≥ data1.length
        · have h3' : s + 1 ≥ data2.length := by omega
          simp only [h3, if_true] at hag
          have hb := byteAt_congr data1 data2 s (hag s (by simp))
          simp only [← hb, h2, if_true, h3, h3']
        · have h3' : ¬ s + 1 ≥ data2.length := by omega
          simp only [h3, if_false] at hag
          rcases hq : parseDomainNameLoopT n data1
            (((byteAt data1 s &&& 0x3F) <<< 8) ||| byteAt data1 (s + 1)) []
            with ⟨r, rs⟩
          have hag' : ∀ i ∈ [s] ++ [s + 1] ++ rs, data1[i]? = data2[i]? := by
            intro i hi
            apply hag i
            rw [hq]
            rcases r with _ | ⟨sub, e⟩ <;> exact hi
          have hb := byteAt_congr data1 data2 s (hag' s (by simp))
          have hb1 := byteAt_congr data1 data2 (s + 1) (hag' (s + 1) (by simp))
          have hrec := ih data1 data2
            (((byteAt data1 s &&& 0x3F) <<< 8) ||| byteAt data1 (s + 1)) [] hlen
            (by
              intro i hi
              rw [hq] at hi
              exact hag' i (by simp [hi]))
          simp only [← hb, ← hb1, h2, if_true, h3, h3', if_false, hrec]
      · simp only [h2, if_false] at hag
        by_cases h3 : byteAt data1 s = 0
        · simp only [h3, if_true] at hag
          have hb := byteAt_congr data1 data2 s (hag s (by simp))
          have h0 : ¬ ((0 : Nat) &&& 0xC0 = 0xC0) := by decide
          rw [← hb]
          simp only [h3, h0, if_false, if_true]
        · simp only [h3, if_false] at hag
          by_cases h4 : s + 1 + byteAt data1 s > data1.length
          · have h4' : s + 1 + byteAt data1 s > data2.length := by omega
            simp only [h4, if_true] at hag
            have hb := byteAt_congr data1 data2 s (hag s (by simp))
            simp only [← hb, h2, if_false, h3, h4, h4', if_true]
          · have h4' : ¬ s + 1 + byteAt data1 s > data2.length := by omega
            simp only [h4, if_false] at hag
            rcases hq : parseDomainNameLoopT n data1 (s + 1 + byteAt data1 s)
              ((if d ≠ [] then d ++ [dot] else d) ++ substr data1 (s + 1) (byteAt data1 s))
              with ⟨r, rs⟩
            rw [hq] at hag
            simp only at hag
            have hb := byteAt_congr data1 data2 s (hag s (by simp))
            have hsub : substr data1 (s + 1) (byteAt data1 s)
                = substr data2 (s + 1) (byteAt data1 s) := by
              apply substr_congr
              intro i hi1 hi2
              apply hag i
              simp only [List.mem_append, List.mem_singleton, List.mem_range'_1]
              exact Or.inl (Or.inr ⟨hi1, hi2⟩)
            have hrec := ih data1 data2 (s + 1 + byteAt data1 s)
              ((if d ≠ [] then d ++ [dot] else d) ++ substr data1 (s + 1) (byteAt data1 s))
              hlen
              (by
                intro i hi
                rw [hq] at hi
                exact hag i (by simp [hi]))
            simp only [← hb, h2, if_false, h3, h4, h4', ← hsub, hrec]
    · have h1' : ¬ s < data2.length := by omega
      simp only [h1, h1', if_false]

/-- C24: take two buffers of equal length and a record whose name, decoded in
the first buffer from `off`, ends at `e`, so that its two type bytes are at `e`
and `e + 1`.  If the buffers agree on every byte except those two, and the name
decoding reads neither of them, then `parseResourceRecord` at `off` returns in
both buffers, with the same boolean and the same final offset, and the two
records are equal in name, class, ttl, rdlength and rdata: they differ at most
in the type field. -/
theorem record_type_not_branched_on (fuel : Nat) (data1 data2 : List UInt8) (off : Nat)
    (rr0 : DNSResourceRecord) (name : List UInt8) (e : Nat)
    (hlen : data1.length = data2.length)
    (hname : parseDomainName fuel data1 off = some (name, e))
    (hagree : ∀ i, i ≠ e → i ≠ e + 1 → data1[i]? = data2[i]?)
    (hunread : e ∉ (parseDomainNameT fuel data1 off).2 ∧
      e + 1 ∉ (parseDomainNameT fuel data1 off).2) :
    ∃ b stop rr1 rr2,
      parseResourceRecord fuel data1 off rr0 = some (b, stop, rr1) ∧
      parseResourceRecord fuel data2 off rr0 = some (b, stop, rr2) ∧
      rr1.name = rr2.name ∧ rr1.class_ = rr2.class_ ∧ rr1.ttl = rr2.ttl ∧
      rr1.rdlength = rr2.rdlength ∧ rr1.rdata = rr2.rdata ∧
      rr2 = { rr1 with type := rr2.type } := by
  have hname2 : parseDomainName fuel data2 off = some (name, e) := by
    unfold parseDomainName at hname ⊢
    rw [← hname]
    apply parseDomainNameLoop_congr fuel data1 data2 off [] hlen
    intro i hi
    apply hagree i
    · intro h; rw [h] at hi; exact hunread.1 hi
    · intro h; rw [h] at hi; exact hunread.2 hi
  have a2 := byteAt_congr data1 data2 (e + 2) (hagree _ (by omega) (by omega))
  have a3 := byteAt_congr data1 data2 (e + 3) (hagree _ (by omega) (by omega))
  have a4 := byteAt_congr data1 data2 (e + 4) (hagree _ (by omega) (by omega))
  have a5 := byteAt_congr data1 data2 (e + 5) (hagree _ (by omega) (by omega))
  have a6 := byteAt_congr data1 data2 (e + 6) (hagree _ (by omega) (by omega))
  have a7 := byteAt_congr data1 data2 (e + 7) (hagree _ (by omega) (by omega))
  have a8 := byteAt_congr data1 data2 (e + 8) (hagree _ (by omega) (by omega))
  have a9 := byteAt_congr data1 data2 (e + 9) (hagree _ (by omega) (by omega))
  have hclass : ntohs16 data1 (e + 2) = ntohs16 data2 (e + 2) := by
    simp only [ntohs16, Nat.add_assoc, Nat.reduceAdd, a2, a3]
  have httl : ntohl32 data1 (e + 2 + 2) = ntohl32 data2 (e + 2 + 2) := by
    simp only [ntohl32, Nat.add_assoc, Nat.reduceAdd, a4, a5, a6, a7]
  have hrdl : ntohs16 data1 (e + 2 + 2 + 4) = ntohs16 data2 (e + 2 + 2 + 4) := by
    simp only [ntohs16, Nat.add_assoc, Nat.reduceAdd, a8, a9]
  have hrd : ∀ n, substr data1 (e + 2 + 2 + 4 + 2) n = substr data2 (e + 2 + 2 + 4 + 2) n := by
    intro n
    apply substr_congr
    intro i hi1 _
    exact hagree i (by omega) (by omega)
  unfold parseResourceRecord
  rw [hname, hname2]
  simp only [← hlen, ← hclass, ← httl, ← hrdl, ← hrd]
  by_cases h1 : e + 10 > data1.length
  · simp only [h1, if_true]
    exact ⟨_, _, _, _, rfl, rfl, rfl, rfl, rfl, rfl, rfl, rfl⟩
  · simp only [h1, if_false]
    by_cases h2 : e + 2 + 2 + 4 + 2 + ntohs16 data1 (e + 2 + 2 + 4) > data1.length
    · simp only [h2, if_true]
      exact ⟨_, _, _, _, rfl, rfl, rfl, rfl, rfl, rfl, rfl, rfl⟩
    · simp only [h2, if_false]
      exact ⟨_, _, _, _, rfl, rfl, rfl, rfl, rfl, rfl, rfl, rfl⟩

/-- The answer of the response test packet with type A and with type AAAA: the
name ends at offset 35, the type bytes are at 35 and 36, the name decoding reads
33, 34 and 12..28, and the two records differ in the type only. -/
theorem record_type_not_branched_on_witness :
    ∃ b stop rr1 rr2,
      parseResourceRecord 5 responseTestBuf 33 DNSResourceRecord.fresh
        = some (b, stop, rr1) ∧
      parseResourceRecord 5 responseTestBufOtherType 33 DNSResourceRecord.fresh
        = some (b, stop, rr2) ∧
      rr1.name = rr2.name ∧ rr1.class_ = rr2.class_ ∧ rr1.ttl = rr2.ttl ∧
      rr1.rdlength = rr2.rdlength ∧ rr1.rdata = rr2.rdata ∧
      rr2 = { rr1 with type := rr2.type } :=
  record_type_not_branched_on 5 responseTestBuf responseTestBufOtherType 33
    DNSResourceRecord.fresh wwwExampleCom 35 (by decide) (by decide)
    (by
      intro i h1 h2
      by_cases hi : i < 49
      · interval_cases i <;> first | rfl | exact absurd rfl h1 | exact absurd rfl h2
      · have h49 : 49 ≤ i := by omega
        rw [List.getElem?_eq_none (by simpa [responseTestBuf] using h49),
          List.getElem?_eq_none (by simpa [responseTestBufOtherType] using h49)])
    (by decide)

end DNSParser
